import Mathlib

/-
  Verification of the agent_evaluator repository.

  This file gives a shallow embedding of the core of the repository:
  - src/agent_evaluator/adapters/streaming.py  (StreamingAccumulator)
  - src/agent_evaluator/adapters/dify.py       (DifyAdapter streaming invocation
                                                and message_end context extraction)
  - src/agent_evaluator/evaluator/executor.py  (EvaluatorExecutor.evaluate)
  - src/agent_evaluator/core/result.py         (SampleResult)
  - src/agent_evaluator/core/sample.py         (EvalSample.to_ragas_single_turn)

  The Python code is dynamically typed: events are JSON-like values, attribute
  slots of the accumulator may be rebound to values of any type, and several
  operations (attribute access on a non-dict, string concatenation with a
  non-string, hashing an unhashable value, ...) raise exceptions.  We therefore
  model Python/JSON values by the inductive type Value below, and every fallible
  operation runs in Except String (the String names the Python exception class;
  exact exception messages are not relied on by any theorem).
-/

/-- A Python/JSON value as it appears in decoded SSE events and in the
dynamically typed attribute slots of the accumulator.  Dictionaries are
association lists with string keys; the Python code under study only ever
uses string keys.  Python floats are modelled by rationals. -/
inductive Value where
  | null
  | bool (b : Bool)
  | int (n : Int)
  | float (q : Rat)
  | str (s : String)
  | list (xs : List Value)
  | dict (xs : List (String × Value))

/-- Numeric view of a value: Python treats booleans as 0/1 in arithmetic and
comparisons; ints and floats are numbers; everything else is not a number. -/
def Value.asNum : Value → Option Rat
  | .bool b => some (if b then 1 else 0)
  | .int n => some (n : Rat)
  | .float q => some q
  | _ => none

/-- Whether a value carries Python float type (for numeric type promotion). -/
def Value.isFloat : Value → Bool
  | .float _ => true
  | _ => false

mutual

/-- Python equality (the == operator): numbers compare by numeric value across
bool/int/float; strings by content; lists pointwise; None equals None; values
of unrelated types are unequal.  Python dict equality is by key set and
per-key value; the dictionaries built by this code never carry duplicate keys
and no theorem below ever compares two dict values for equality, so the
order-sensitive pointwise comparison used here agrees with Python on every
comparison the development performs. -/
def pyEq : Value → Value → Bool
  | .null, .null => true
  | .str s, .str t => s == t
  | .list xs, .list ys => pyEqL xs ys
  | .dict xs, .dict ys => pyEqD xs ys
  | a, b =>
    match a.asNum, b.asNum with
    | some x, some y => x == y
    | _, _ => false

def pyEqL : List Value → List Value → Bool
  | [], [] => true
  | x :: xs, y :: ys => pyEq x y && pyEqL xs ys
  | _, _ => false

def pyEqD : List (String × Value) → List (String × Value) → Bool
  | [], [] => true
  | (k, v) :: xs, (l, w) :: ys => k == l && pyEq v w && pyEqD xs ys
  | _, _ => false

end

/-- Python truthiness: None, False, 0, 0.0, the empty string and empty
containers are falsy; everything else is truthy. -/
def pyTruthy : Value → Bool
  | .null => false
  | .bool b => b
  | .int n => n != 0
  | .float q => q != 0
  | .str s => s != ""
  | .list xs => !xs.isEmpty
  | .dict xs => !xs.isEmpty

/-- Python hashability: lists and dicts are unhashable, every other value
used here is hashable. -/
def pyHashable : Value → Bool
  | .list _ => false
  | .dict _ => false
  | _ => true

/-- Lookup of a key in a dictionary body (first match; the dictionaries built
by the code never carry duplicate keys). -/
def dLookup (d : List (String × Value)) (k : String) : Option Value :=
  match d.find? (fun p => p.1 == k) with
  | some p => some p.2
  | none => none

/-- Python dict.get(k, default). -/
def dGet (d : List (String × Value)) (k : String) (dflt : Value) : Value :=
  match dLookup d k with
  | some v => v
  | none => dflt

/-- Python d[k] = v on a dict body: overwrite in place at the (first)
occurrence of the key, append otherwise (insertion order preserved, as in
Python dicts; the bodies this is applied to never carry duplicate keys). -/
def dSet : List (String × Value) → String → Value → List (String × Value)
  | [], k, v => [(k, v)]
  | p :: rest, k, v =>
    if p.1 == k then (k, v) :: rest else p :: dSet rest k v

/-- Python dict.update(other) for two dicts. -/
def dUpdate (base upd : List (String × Value)) : List (String × Value) :=
  upd.foldl (fun acc kv => dSet acc kv.1 kv.2) base

/-- Python v.get(k, default) on an arbitrary value: attribute access .get on
anything but a dict raises AttributeError. -/
def vGet (v : Value) (k : String) (dflt : Value) : Except String Value :=
  match v with
  | .dict d => .ok (dGet d k dflt)
  | _ => .error "AttributeError"

/-- Python membership x in xs for a list (uses ==; never raises). -/
def listHas (xs : List Value) (x : Value) : Bool :=
  xs.any (fun y => pyEq y x)

/-- Substring test, for the Python expression key in s when s is a string. -/
def strContains (s pat : String) : Bool :=
  (s.toList.tails).any (fun t => pat.toList.isPrefixOf t)

/-- Python key in v for a string key: dict membership, substring test on a
string, element test on a list; on any other type Python raises TypeError. -/
def pyIn (k : String) (v : Value) : Except String Bool :=
  match v with
  | .dict d => .ok (d.any (fun p => p.1 == k))
  | .str s => .ok (strContains s k)
  | .list xs => .ok (xs.any (fun x => pyEq x (.str k)))
  | _ => .error "TypeError"

/-- Python v[k] for a string key: only dicts support it (KeyError when the key
is missing); indexing a list or a string with a string key raises TypeError. -/
def pyIndex (v : Value) (k : String) : Except String Value :=
  match v with
  | .dict d =>
    match dLookup d k with
    | some w => .ok w
    | none => .error "KeyError"
  | _ => .error "TypeError"

/-- Python x in set(...) membership: raises TypeError when x is unhashable. -/
def pySetMem (x : Value) (s : List Value) : Except String Bool :=
  if pyHashable x then .ok (listHas s x) else .error "TypeError"

/-- The int value of a bool in Python arithmetic. -/
def boolInt (b : Bool) : Int :=
  if b then 1 else 0

/-- Python + on two values: numeric addition with bool-as-int (the result is
an int when both operands are bool/int, a float when either is a float),
string concatenation; any other combination raises TypeError. -/
def pyAdd (a b : Value) : Except String Value :=
  match a, b with
  | .str s, .str t => .ok (.str (s ++ t))
  | .int x, .int y => .ok (.int (x + y))
  | .int x, .bool yb => .ok (.int (x + boolInt yb))
  | .bool xb, .int y => .ok (.int (boolInt xb + y))
  | .bool xb, .bool yb => .ok (.int (boolInt xb + boolInt yb))
  | _, _ =>
    match a.asNum, b.asNum with
    | some x, some y => .ok (.float (x + y))
    | _, _ => .error "TypeError"

/-- Rendering of a rational in place of CPython float formatting.  The exact
digits of float rendering are not modelled (floats are binary in CPython);
the theorems below rely only on the rendering being non-empty, and on the
precise rendering of ints and strings. -/
def ratStr (q : Rat) : String :=
  toString q.num ++ (if q.den == 1 then "" else "/" ++ toString q.den)

mutual

/-- Python str(v).  For scalars this is the exact CPython rendering (except
floats, see ratStr); containers render with brackets, commas and repr-ed
elements as in CPython, with strings shown in double rather than single
quotes - no theorem depends on the rendering of a container beyond its
non-emptiness. -/
def pyStr : Value → String
  | .null => "None"
  | .bool b => if b then "True" else "False"
  | .int n => toString n
  | .float q => ratStr q
  | .str s => s
  | .list xs => "[" ++ String.intercalate ", " (pyReprL xs) ++ "]"
  | .dict xs => "\x7b" ++ String.intercalate ", " (pyReprD xs) ++ "\x7d"

def pyReprV : Value → String
  | .str s => "\"" ++ s ++ "\""
  | .null => "None"
  | .bool b => if b then "True" else "False"
  | .int n => toString n
  | .float q => ratStr q
  | .list xs => "[" ++ String.intercalate ", " (pyReprL xs) ++ "]"
  | .dict xs => "\x7b" ++ String.intercalate ", " (pyReprD xs) ++ "\x7d"

def pyReprL : List Value → List String
  | [] => []
  | x :: xs => pyReprV x :: pyReprL xs

def pyReprD : List (String × Value) → List String
  | [] => []
  | (k, v) :: xs => ("\"" ++ k ++ "\": " ++ pyReprV v) :: pyReprD xs

end

/-- Python str.strip() restricted to ASCII whitespace (space, tab, newline,
carriage return); the code only ever strips answers produced from JSON string
fragments, where these are the whitespace characters that occur. -/
def pyStrip (s : String) : String :=
  String.mk (((s.toList.dropWhile Char.isWhitespace).reverse.dropWhile
    Char.isWhitespace).reverse)

/-
  StreamingAccumulator (src/agent_evaluator/adapters/streaming.py).

  The dataclass fields answer/contexts/tool_calls/metadata and the timing lists
  keep their Python types; the token/price/currency/elapsed slots are assigned
  raw values taken from events with dict.get, so they are modelled as Value.
-/

/-- State of a StreamingAccumulator, with the dataclass defaults. -/
structure AccState where
  answer : String := ""
  contexts : List Value := []
  tool_calls : List Value := []
  metadata : List (String × Value) := []
  first_token_time : Option Rat := none
  last_token_time : Option Rat := none
  token_timestamps : List Rat := []
  total_tokens : Value := .int 0
  input_tokens : Value := .int 0
  output_tokens : Value := .int 0
  total_price : Value := .null
  currency : Value := .null
  elapsed_time : Value := .null

/-- A freshly constructed StreamingAccumulator(). -/
def initAcc : AccState := {}

/-- View a value as a dict body; .get on anything else raises AttributeError. -/
def asDict : Value → Except String (List (String × Value))
  | .dict d => .ok d
  | _ => .error "AttributeError"

/-- Python x > 0; comparing a non-number with an int raises TypeError
(a bool compares as its int value). -/
def pyGtZero (v : Value) : Except String Bool :=
  match v with
  | .bool b => .ok b
  | .int n => .ok (decide (n > 0))
  | .float q => .ok (decide (q > 0))
  | _ => .error "TypeError"

/-- Fragment accumulation shared by the message / agent_message / text_chunk
branches: append a non-empty chunk to answer (+= raises TypeError on a truthy
non-string), set first_token_time if unset, update last_token_time, append the
timestamp. -/
def appendFragment (s : AccState) (chunk : Value) (t : Rat) :
    Except String AccState :=
  if pyTruthy chunk then
    match chunk with
    | .str c =>
      .ok { s with
        answer := s.answer ++ c
        first_token_time :=
          match s.first_token_time with
          | none => some t
          | some x => some x
        last_token_time := some t
        token_timestamps := s.token_timestamps ++ [t] }
    | _ => .error "TypeError"
  else .ok s

/-- The message_end branch: merge metadata, then overwrite the three token
slots from a truthy usage object.  A non-dict metadata payload raises in the
source (at dict.update or at metadata.get) before any observable effect. -/
def messageEndStep (s : AccState) (e : List (String × Value)) :
    Except String AccState :=
  match dGet e "metadata" (.dict []) with
  | .dict m =>
    if pyTruthy (dGet m "usage" (.dict [])) then
      match dGet m "usage" (.dict []) with
      | .dict u =>
        .ok { s with
          metadata := dUpdate s.metadata m
          total_tokens := dGet u "total_tokens" (.int 0)
          input_tokens := dGet u "prompt_tokens" (.int 0)
          output_tokens := dGet u "completion_tokens" (.int 0) }
      | _ => .error "AttributeError"
    else .ok { s with metadata := dUpdate s.metadata m }
  | _ => .error "TypeError"

/-- Python metadata.setdefault(key, a dict literal).update(upd): requires the
existing value at key, if any, to be a dict. -/
def setdefaultUpdate (md : List (String × Value)) (key : String)
    (upd : List (String × Value)) : Except String (List (String × Value)) :=
  match dLookup md key with
  | some (.dict w) => .ok (dSet md key (.dict (dUpdate w upd)))
  | some _ => .error "AttributeError"
  | none => .ok (dSet md key (.dict upd))

/-- Python metadata.setdefault(key, a list literal).append(v): requires the
existing value at key, if any, to be a list. -/
def setdefaultAppend (md : List (String × Value)) (key : String) (v : Value) :
    Except String (List (String × Value)) :=
  match dLookup md key with
  | some (.list xs) => .ok (dSet md key (.list (xs ++ [v])))
  | some _ => .error "AttributeError"
  | none => .ok (dSet md key (.list [v]))

/-- The workflow_started branch. -/
def workflowStartedStep (s : AccState) (e : List (String × Value)) :
    Except String AccState := do
  let data ← asDict (dGet e "data" (.dict []))
  let md ← setdefaultUpdate s.metadata "workflow"
    [("workflow_id", dGet data "workflow_id" .null),
     ("workflow_run_id", dGet data "id" .null),
     ("started_at", dGet data "created_at" .null)]
  .ok { s with metadata := md }

/-- The node_started branch. -/
def nodeStartedStep (s : AccState) (e : List (String × Value)) :
    Except String AccState := do
  let data ← asDict (dGet e "data" (.dict []))
  let md ← setdefaultAppend s.metadata "nodes_started"
    (.dict [("node_id", dGet data "node_id" .null),
            ("node_type", dGet data "node_type" .null),
            ("title", dGet data "title" .null),
            ("index", dGet data "index" .null),
            ("started_at", dGet data "created_at" .null)])
  .ok { s with metadata := md }

/-- The text_chunk branch. -/
def textChunkStep (s : AccState) (e : List (String × Value)) (t : Rat) :
    Except String AccState := do
  let data ← asDict (dGet e "data" (.dict []))
  appendFragment s (dGet data "text" (.str "")) t

/-- Metadata merge and token/price/currency extraction of the
workflow_finished branch: elapsed_time and total_tokens come from the data
payload, then a truthy execution_metadata object overwrites total_tokens
(keeping the previous value when it lacks the key) and sets price/currency. -/
def wfTokensUpdate (s : AccState) (data : List (String × Value)) :
    Except String AccState :=
  if pyTruthy (dGet data "execution_metadata" (.dict [])) then
    match dGet data "execution_metadata" (.dict []) with
    | .dict m =>
      .ok { s with
        metadata := dUpdate s.metadata data
        elapsed_time := dGet data "elapsed_time" .null
        total_tokens :=
          dGet m "total_tokens" (dGet data "total_tokens" (.int 0))
        total_price := dGet m "total_price" .null
        currency := dGet m "currency" .null }
    | _ => .error "AttributeError"
  else
    .ok { s with
      metadata := dUpdate s.metadata data
      elapsed_time := dGet data "elapsed_time" .null
      total_tokens := dGet data "total_tokens" (.int 0) }

/-- Python iteration over a value: lists yield elements, strings yield
one-character strings, dicts yield their keys, anything else raises. -/
def pyIterItems : Value → Except String (List Value)
  | .list xs => .ok xs
  | .str s => .ok (s.toList.map (fun c => .str (String.mk [c])))
  | .dict d => .ok (d.map (fun p => .str p.1))
  | _ => .error "TypeError"

/-- One step of the per-node usage summation inside workflow_finished:
prefer process_data.usage, else outputs.usage; add prompt/completion token
counts into the running pair. -/
def nodeUsageSum (tio : Value × Value) (node : Value) :
    Except String (Value × Value) := do
  let pd ← vGet node "process_data" (.dict [])
  let usage ← vGet pd "usage" (.dict [])
  if pyTruthy usage then do
    let pt ← vGet usage "prompt_tokens" (.int 0)
    let ct ← vGet usage "completion_tokens" (.int 0)
    let a ← pyAdd tio.1 pt
    let b ← pyAdd tio.2 ct
    .ok (a, b)
  else do
    let outs ← vGet node "outputs" (.dict [])
    let usage2 ← vGet outs "usage" (.dict [])
    if pyTruthy usage2 then do
      let pt ← vGet usage2 "prompt_tokens" (.int 0)
      let ct ← vGet usage2 "completion_tokens" (.int 0)
      let a ← pyAdd tio.1 pt
      let b ← pyAdd tio.2 ct
      .ok (a, b)
    else .ok tio

/-- Node-level token summation of the workflow_finished branch: the locally
summed values overwrite input_tokens / output_tokens only when positive; the
total_tokens slot is never written here. -/
def wfSumNodeTokens (s : AccState) (data : List (String × Value)) :
    Except String AccState := do
  let nodes ← pyIterItems (dGet data "nodes" (.list []))
  let tio ← nodes.foldlM nodeUsageSum ((.int 0 : Value), (.int 0 : Value))
  let gi ← pyGtZero tio.1
  let go ← pyGtZero tio.2
  .ok { s with
    input_tokens := if gi then tio.1 else s.input_tokens
    output_tokens := if go then tio.2 else s.output_tokens }

/-- Context merge guarded by the existing_contexts set: the source builds
set(self.contexts) (raising TypeError when an existing context is unhashable)
and keeps it in lockstep with the list, so membership is equivalently tested
against the current list; a truthy, unseen element is appended (testing an
unhashable element against the set also raises). -/
def mergeCtxListSet (cur : List Value) (ctxs : List Value) :
    Except String (List Value) :=
  if cur.all pyHashable then
    ctxs.foldlM (fun acc ctx =>
      if pyTruthy ctx then do
        let mem ← pySetMem ctx acc
        if mem then .ok acc else .ok (acc ++ [ctx])
      else .ok acc) cur
  else .error "TypeError"

/-- Context merge that tests membership directly against self.contexts
(the loop over the secondary context keys): truthy, unseen elements are
appended; never raises. -/
def mergeCtxListNoSet (cur : List Value) (ctxs : List Value) : List Value :=
  ctxs.foldl (fun acc ctx =>
    if pyTruthy ctx && !listHas acc ctx then acc ++ [ctx] else acc) cur

/-- Dispatch on the shape of a context field value as in the
workflow_finished retrieved_contexts branch and the node_finished first-match
branch: a list is set-merged, an unseen string is appended verbatim (note: no
emptiness check), anything else is ignored. -/
def mergeCtxValueSet (cur : List Value) (v : Value) :
    Except String (List Value) :=
  match v with
  | .list xs => mergeCtxListSet cur xs
  | .str t => .ok (if !listHas cur (.str t) then cur ++ [.str t] else cur)
  | _ => .ok cur

/-- The loop over the secondary context keys of workflow_finished outputs
(each merged without the set, with a verbatim append for an unseen string
value). -/
def wfSecondaryCtxFold (od : List (String × Value)) (cur0 : List Value) :
    List Value :=
  ["contexts", "context", "retrieved_context"].foldl
    (fun cur key =>
      if od.any (fun p => p.1 == key) && key != "retrieved_contexts" then
        match dGet od key .null with
        | .list xs => mergeCtxListNoSet cur xs
        | .str t => if !listHas cur (.str t) then cur ++ [.str t] else cur
        | _ => cur
      else cur) cur0

/-- Context extraction from workflow_finished outputs: only a dict outputs is
inspected; the retrieved_contexts key is merged first, then the secondary
keys contexts/context/retrieved_context. -/
def wfMergeOutputsContexts (s : AccState) (data : List (String × Value)) :
    Except String AccState :=
  match dGet data "outputs" (.dict []) with
  | .dict od =>
    (if od.any (fun p => p.1 == "retrieved_contexts") then
      mergeCtxValueSet s.contexts (dGet od "retrieved_contexts" .null)
    else .ok s.contexts) >>= fun cur =>
      .ok { s with contexts := wfSecondaryCtxFold od cur }
  | _ => .ok s

/-- The workflow_finished branch, in source order: metadata merge and token
extraction, node-level summation, context extraction from outputs. -/
def workflowFinishedStep (s : AccState) (e : List (String × Value)) :
    Except String AccState := do
  let data ← asDict (dGet e "data" (.dict []))
  let s1 ← wfTokensUpdate s data
  let s2 ← wfSumNodeTokens s1 data
  wfMergeOutputsContexts s2 data

/-- First of the four candidate context keys that the Python in-test finds in
outputs (the in-test itself raises on a non-iterable outputs value). -/
def findCtxKey (outputs : Value) : Except String (Option String) :=
  ["retrieved_contexts", "contexts", "context", "retrieved_context"].foldlM
    (fun acc k =>
      match acc with
      | some _ => .ok acc
      | none => do
        let b ← pyIn k outputs
        .ok (if b then some k else none)) none

/-- Nested context extraction inside node_finished: a dict-valued output field
whose retrieved_contexts key is present is merged (set-merge for a list,
verbatim append for an unseen string). -/
def nestedMergeOne (cur : List Value) (value : Value) :
    Except String (List Value) :=
  match value with
  | .dict vd =>
    if vd.any (fun p => p.1 == "retrieved_contexts") then
      mergeCtxValueSet cur (dGet vd "retrieved_contexts" .null)
    else .ok cur
  | _ => .ok cur

/-- Context extraction of the node_finished branch: the first-matching
candidate key is indexed and merged; with no match, dict-valued output fields
are probed for a nested retrieved_contexts. -/
def nfCtxPart (s : AccState) (outputs : Value) (kOpt : Option String) :
    Except String (List Value) :=
  match kOpt with
  | some k =>
    (pyIndex outputs k) >>= fun ctxs => mergeCtxValueSet s.contexts ctxs
  | none =>
    match outputs with
    | .dict od => od.foldlM (fun cur kv => nestedMergeOne cur kv.2) s.contexts
    | _ => .ok s.contexts

/-- tool_calls extension of the node_finished branch. -/
def nfToolCallsPart (s : AccState) (outputs : Value) (hasTC : Bool) :
    Except String (List Value) :=
  if hasTC then
    (pyIndex outputs "tool_calls") >>= fun tc =>
      match tc with
      | .list xs => .ok (s.tool_calls ++ xs)
      | _ => .ok s.tool_calls
  else .ok s.tool_calls

/-- The node_finished branch: first-match context extraction over the four
candidate keys, nested extraction when none matched, tool_calls extension,
and appending the data payload to metadata["nodes"]. -/
def nodeFinishedStep (s : AccState) (e : List (String × Value)) :
    Except String AccState :=
  (asDict (dGet e "data" (.dict []))) >>= fun data =>
  (findCtxKey (dGet data "outputs" (.dict []))) >>= fun kOpt =>
  (nfCtxPart s (dGet data "outputs" (.dict [])) kOpt) >>= fun cur =>
  (pyIn "tool_calls" (dGet data "outputs" (.dict []))) >>= fun hasTC =>
  (nfToolCallsPart s (dGet data "outputs" (.dict [])) hasTC) >>= fun tcs =>
  (setdefaultAppend s.metadata "nodes" (.dict data)) >>= fun md =>
  .ok { s with contexts := cur, tool_calls := tcs, metadata := md }

/-- StreamingAccumulator.accumulate(event, current_time): dispatch on the
event tag.  Unrecognized or missing tags fall through to a no-op.  The event
itself must be a dict (event.get raises otherwise). -/
def accumulate (s : AccState) (event : Value) (t : Rat) :
    Except String AccState := do
  let e ← asDict event
  let et := dGet e "event" .null
  if pyEq et (.str "message") then
    appendFragment s (dGet e "answer" (.str "")) t
  else if pyEq et (.str "agent_message") then
    appendFragment s (dGet e "answer" (.str "")) t
  else if pyEq et (.str "message_end") then
    messageEndStep s e
  else if pyEq et (.str "workflow_started") then
    workflowStartedStep s e
  else if pyEq et (.str "node_started") then
    nodeStartedStep s e
  else if pyEq et (.str "text_chunk") then
    textChunkStep s e t
  else if pyEq et (.str "workflow_finished") then
    workflowFinishedStep s e
  else if pyEq et (.str "node_finished") then
    nodeFinishedStep s e
  else .ok s

/-
  DifyAdapter streaming pieces (src/agent_evaluator/adapters/dify.py).
-/

/-- The content selected from one dict resource of retriever_resources:
content if truthy, else chunk_content (Python or). -/
def meContent (rd : List (String × Value)) : Value :=
  if pyTruthy (dGet rd "content" .null) then dGet rd "content" .null
  else dGet rd "chunk_content" .null

/-- One resource of the message_end extraction: a dict resource contributes
its content/chunk_content, a non-dict truthy resource contributes itself;
the membership test is against the unconverted value, but the appended entry
is its str() rendering. -/
def meResourceStep (cur : List Value) (resource : Value) : List Value :=
  match resource with
  | .dict rd =>
    if pyTruthy (meContent rd) && !listHas cur (meContent rd) then
      cur ++ [.str (pyStr (meContent rd))]
    else cur
  | _ =>
    if pyTruthy resource && !listHas cur resource then
      cur ++ [.str (pyStr resource)]
    else cur

/-- DifyAdapter._extract_contexts_from_message_end: for a Chat API
message_end event, walk metadata["retriever_resources"] when it is a list. -/
def extractContextsFromMessageEnd (s : AccState) (e : List (String × Value)) :
    Except String AccState :=
  (vGet (dGet e "metadata" (.dict [])) "retriever_resources" (.list []))
    >>= fun rr =>
  match rr with
  | .list xs => .ok { s with contexts := xs.foldl meResourceStep s.contexts }
  | _ => .ok s

/-- One decoded data line of the streaming read loop in
DifyAdapter._invoke_streaming: accumulate the event, then (Chat API only) run
the message_end context extraction. -/
def applyStreamEvent (isWorkflow : Bool) (s : AccState) (event : Value)
    (t : Rat) : Except String AccState := do
  let s1 ← accumulate s event t
  match event with
  | .dict e =>
    if !isWorkflow && pyEq (dGet e "event" .null) (.str "message_end") then
      extractContextsFromMessageEnd s1 e
    else .ok s1
  | _ => .ok s1

/-- The events of one stream applied in arrival order, each with its elapsed
time since request start. -/
def applyStreamEvents (isWorkflow : Bool) (s : AccState)
    (events : List (Value × Rat)) : Except String AccState :=
  events.foldlM (fun s et => applyStreamEvent isWorkflow s et.1 et.2) s

/-- PerformanceMetrics (src/agent_evaluator/adapters/base.py); the slots fed
from raw event payloads are Values. -/
structure PerformanceMetrics where
  total_time : Value
  time_to_first_token : Option Rat
  streaming_latency : List Rat
  total_tokens : Value
  input_tokens : Value
  output_tokens : Value
  total_price : Value
  currency : Value

/-- Differences of consecutive timestamps (empty for fewer than two). -/
def consecutiveDiffs : List Rat → List Rat
  | a :: b :: rest => (b - a) :: consecutiveDiffs (b :: rest)
  | _ => []

/-- total_time of to_performance_metrics: a non-None elapsed_time, else the
last fragment time, else 0. -/
def totalTimeOf (s : AccState) : Value :=
  match s.elapsed_time with
  | .null =>
    match s.last_token_time with
    | some lt => .float lt
    | none => .float 0
  | v => v

/-- StreamingAccumulator.to_performance_metrics: the input/output token slots
are kept only when positive (the comparison with 0 raises on a non-numeric
slot value). -/
def toPerformanceMetrics (s : AccState) : Except String PerformanceMetrics :=
  (pyGtZero s.input_tokens) >>= fun gi =>
  (pyGtZero s.output_tokens) >>= fun go =>
  .ok { total_time := totalTimeOf s
        time_to_first_token := s.first_token_time
        streaming_latency := consecutiveDiffs s.token_timestamps
        total_tokens := s.total_tokens
        input_tokens := if gi then s.input_tokens else .int 0
        output_tokens := if go then s.output_tokens else .int 0
        total_price := s.total_price
        currency := s.currency }

/-- AdapterResponse (src/agent_evaluator/adapters/base.py). -/
structure AdapterResponse where
  answer : String
  contexts : List Value
  tool_calls : List Value
  metadata : List (String × Value)
  performance : PerformanceMetrics

/-- StreamingAccumulator.to_adapter_response. -/
def toAdapterResponse (s : AccState) : Except String AdapterResponse := do
  let pm ← toPerformanceMetrics s
  .ok { answer := s.answer, contexts := s.contexts,
        tool_calls := s.tool_calls, metadata := s.metadata, performance := pm }

/-- The timeout error message of _invoke_streaming, parameterized by the
formatted elapsed seconds. -/
def timeoutMsg (elapsed : String) : String :=
  "流式响应读取超时，在" ++ elapsed ++ "秒内未收到任何数据"

/-- What _invoke_streaming does after the read loop ends: when the overall
deadline expired and nothing was accumulated, raise a TimeoutError naming the
elapsed duration; otherwise (normal end, or timeout with a non-empty partial
answer) finalize the accumulated state into an AdapterResponse. -/
def streamingFinalize (s : AccState) (timedOut : Bool) (elapsed : String) :
    Except String AdapterResponse :=
  if timedOut && s.answer == "" then .error (timeoutMsg elapsed)
  else toAdapterResponse s

/-- DifyAdapter._invoke_streaming over the decoded events consumed before the
read loop ended, with timedOut recording whether the overall deadline cut the
loop and elapsed the formatted elapsed duration at that moment. -/
def difyInvokeStreaming (isWorkflow : Bool) (events : List (Value × Rat))
    (timedOut : Bool) (elapsed : String) : Except String AdapterResponse := do
  let s ← applyStreamEvents isWorkflow initAcc events
  streamingFinalize s timedOut elapsed

/-
  EvalSample / SingleTurnSample conversion (src/agent_evaluator/core/sample.py)
  and the metric evaluation executor (src/agent_evaluator/evaluator/executor.py).
-/

/-- EvalSample (the reconstructed sample handed to the executor). -/
structure EvalSample where
  user_input : String
  response : String
  contexts : List String
  reference : Option String := none
  reference_contexts : Option (List String) := none
  metadata : List (String × Value) := []

/-- The ragas SingleTurnSample as constructed by to_ragas_single_turn
(only the fields the source passes). -/
structure RagasSample where
  user_input : String
  response : String
  retrieved_contexts : List String
  reference : Option String
  reference_contexts : Option (List String)

/-- The filter the source applies to context entries: ctx and ctx.strip(). -/
def isNonBlank (s : String) : Bool :=
  s != "" && pyStrip s != ""

/-- EvalSample.to_ragas_single_turn: prefer the non-blank retrieved contexts,
else the non-blank reference contexts, else the single placeholder string;
reference and reference_contexts are passed only when truthy. -/
def to_ragas_single_turn (s : EvalSample) : RagasSample :=
  let valid_contexts := s.contexts.filter isNonBlank
  let valid_reference_contexts :=
    (s.reference_contexts.getD []).filter isNonBlank
  let retrieved_contexts :=
    if !valid_contexts.isEmpty then valid_contexts
    else if !valid_reference_contexts.isEmpty then valid_reference_contexts
    else ["无可用上下文"]
  { user_input := s.user_input
    response := s.response
    retrieved_contexts := retrieved_contexts
    reference :=
      match s.reference with
      | some r => if r != "" then some r else none
      | none => none
    reference_contexts :=
      match s.reference_contexts with
      | some rc => if !rc.isEmpty then some rc else none
      | none => none }

/-- SampleResult (src/agent_evaluator/core/result.py), with the dataclass
defaults. -/
structure SampleResult where
  scores : List (String × Rat) := []
  reasoning : List (String × String) := []
  error : Option String := none
  user_input : Option String := none
  response : Option String := none
  reference : Option String := none
  contexts : List String := []
  metadata : List (String × Value) := []

/-- SampleResult.is_success: no error and at least one score entry. -/
def SampleResult.is_success (r : SampleResult) : Bool :=
  r.error.isNone && decide (r.scores.length > 0)

/-- Outcome of awaiting one scorer call under the per-metric timeout: a
numeric score, an asyncio.TimeoutError, or any other exception with its
message text. -/
inductive MetricBehavior where
  | success (score : Rat)
  | timeout
  | exception (msg : String)

/-- One configured metric: its class name (the key of the score map) and the
outcome its scorer produces on the sample under evaluation. -/
structure Metric where
  name : String
  behavior : MetricBehavior

/-- Assoc-list write with Python dict semantics (overwrite in place at the
first occurrence, else append), for String-keyed maps of any value type. -/
def aSet {α : Type} : List (String × α) → String → α → List (String × α)
  | [], k, v => [(k, v)]
  | p :: rest, k, v =>
    if p.1 == k then (k, v) :: rest else p :: aSet rest k v

/-- Assoc-list lookup (first match). -/
def aLookup {α : Type} (d : List (String × α)) (k : String) : Option α :=
  match d.find? (fun p => p.1 == k) with
  | some p => some p.2
  | none => none

/-- Score band of the rationale generation: thresholds 0.8 / 0.5 / >0. -/
def scoreBand (q : Rat) : Nat :=
  if q ≥ 4/5 then 3 else if q ≥ 1/2 then 2 else if q > 0 then 1 else 0

/-- Rationale recorded for a successful metric.  The source selects one of
four Chinese sentences per known metric class (generic sentences otherwise)
by the band thresholds and inlines the score; no claim concerns the sentence
text, so the rendering is abbreviated to a deterministic tag of the same
data (metric identity, band, score). -/
def reasonFor (name : String) (q : Rat) : String :=
  name ++ ":band" ++ toString (scoreBand q) ++ ":" ++ ratStr q

/-- Error recorded for a metric whose scorer raised: a rate-limit marker in
the message selects the tagged 429 form, otherwise the message verbatim. -/
def exceptionErrMsg (emsg : String) : String :=
  if strContains emsg "429" || strContains emsg "Too Many Requests" then
    "API限流错误（429 Too Many Requests）: " ++ emsg
  else emsg

/-- Error recorded for a metric that timed out (the configured per-metric
timeout is inlined). -/
def timeoutErrMsg (timeout : Rat) : String :=
  "评估超时（" ++ ratStr timeout ++ "秒）"

/-- The three per-metric maps the executor loop accumulates. -/
structure MetricMaps where
  scores : List (String × Rat)
  reasoning : List (String × String)
  errors : List (String × String)

/-- One iteration of the metric loop: success writes the score and a
rationale; timeout and exception write score 0 and an error; every outcome
leaves the remaining metrics to run. -/
def metricStep (timeout : Rat) (m : MetricMaps) (metric : Metric) :
    MetricMaps :=
  match metric.behavior with
  | .success q =>
    { m with scores := aSet m.scores metric.name q
             reasoning := aSet m.reasoning metric.name
               (reasonFor metric.name q) }
  | .timeout =>
    { m with scores := aSet m.scores metric.name 0
             errors := aSet m.errors metric.name (timeoutErrMsg timeout) }
  | .exception emsg =>
    { m with scores := aSet m.scores metric.name 0
             errors := aSet m.errors metric.name (exceptionErrMsg emsg) }

/-- Rendering of the errors dict inside the sample-level error summary
(double quotes stand in for the single quotes of CPython dict repr; no claim
concerns this text beyond its presence). -/
def errorsRepr (errors : List (String × String)) : String :=
  "\x7b" ++ String.intercalate ", "
    (errors.map (fun kv => "\"" ++ kv.1 ++ "\": \"" ++ kv.2 ++ "\"")) ++ "\x7d"

/-- response truncation for display (200 characters). -/
def truncate200 (s : String) : String :=
  if s.length > 200 then s.take 200 ++ "..." else s

/-- One entry of the contexts display list (100-character preview, or the
empty marker for a blank context). -/
def ctxPreview (i : Nat) (ctx : String) : String :=
  if ctx != "" && pyStrip ctx != "" then
    "上下文" ++ toString (i + 1) ++ ": "
      ++ (if ctx.length > 100 then ctx.take 100 ++ "..." else ctx)
  else "上下文" ++ toString (i + 1) ++ ": (空)"

/-- Score the loop records for one outcome (the scorer value, or 0). -/
def scoreVal : MetricBehavior → Rat
  | .success q => q
  | .timeout => 0
  | .exception _ => 0

/-- Whether the outcome makes the loop record an error entry. -/
def isFailB : MetricBehavior → Bool
  | .success _ => false
  | .timeout => true
  | .exception _ => true

/-- Error text the loop records for a failing outcome. -/
def errText (timeout : Rat) : MetricBehavior → String
  | .success _ => ""
  | .timeout => timeoutErrMsg timeout
  | .exception m => exceptionErrMsg m

/-- Result of EvaluatorExecutor.evaluate together with the number of scorer
invocations it performed (one per metric reached by the loop) and the
per-metric error dict the loop accumulated (the source folds this dict into
the sample-level error summary string; it is exposed here unserialized). -/
structure ExecResult where
  result : SampleResult
  invoked : Nat
  metricErrors : List (String × String) := []

/-- EvaluatorExecutor.evaluate: reject a blank answer with a sample-level
error before any metric runs; otherwise convert the sample, run every metric
through metricStep, set the sample-level error summary exactly when the
per-metric error map is non-empty, and assemble the SampleResult with the
display truncations and the response_full_length metadata entry. -/
def evaluateExec (timeout : Rat) (metrics : List Metric) (s : EvalSample) :
    ExecResult :=
  if s.response == "" || pyStrip s.response == "" then
    { result := { error := some "响应为空，无法进行评估" }, invoked := 0 }
  else
    let maps := metrics.foldl (metricStep timeout)
      { scores := [], reasoning := [], errors := [] }
    let error_msg :=
      if !maps.errors.isEmpty then
        some ("部分指标评估失败: " ++ errorsRepr maps.errors)
      else none
    { result := { scores := maps.scores
                  reasoning := maps.reasoning
                  error := error_msg
                  user_input := some s.user_input
                  response := some (truncate200 s.response)
                  reference := s.reference
                  contexts := s.contexts.enum.map (fun p => ctxPreview p.1 p.2)
                  metadata := aSet s.metadata "response_full_length"
                    (.int (s.response.length : Int)) }
      invoked := metrics.length
      metricErrors := maps.errors }

/-
  Shape predicates.  stateWF is the invariant the accumulator maintains as
  long as the incoming events are well shaped (eventWF): it is what protects
  the branches of accumulate that perform attribute access, arithmetic,
  hashing or comparisons from raising, and it makes finalization total.
-/

/-- Value is a string. -/
def isStrV : Value → Bool
  | .str _ => true
  | _ => false

/-- Value is a list. -/
def isListV : Value → Bool
  | .list _ => true
  | _ => false

/-- Value is a dict. -/
def isDictV : Value → Bool
  | .dict _ => true
  | _ => false

/-- Value is a Python number (bool, int or float). -/
def isNumV (v : Value) : Bool :=
  v.asNum.isSome

/-- The key is absent from the dict body, or its value satisfies p. -/
def fieldOk (d : List (String × Value)) (k : String) (p : Value → Bool) :
    Bool :=
  match dLookup d k with
  | some v => p v
  | none => true

/-- State invariant: contexts holds strings only (hashable, so the
set-guarded merges cannot raise); the metadata slots that setdefault later
mutates hold a dict (workflow) or a list (nodes_started, nodes); the
input/output token slots are numeric (so the comparisons with 0 in the node
summation overwrite and in to_performance_metrics cannot raise). -/
def stateWF (s : AccState) : Bool :=
  s.contexts.all isStrV &&
  fieldOk s.metadata "workflow" isDictV &&
  fieldOk s.metadata "nodes_started" isListV &&
  fieldOk s.metadata "nodes" isListV &&
  isNumV s.input_tokens && isNumV s.output_tokens

/-- Every pair of the dict body carrying the key satisfies p (stronger than
fieldOk when a decoded event dict carries duplicate keys, where an update
keeps the last occurrence while a read takes the first). -/
def allKey (d : List (String × Value)) (k : String) (p : Value → Bool) :
    Bool :=
  d.all (fun kv => !(kv.1 == k) || p kv.2)

/-- A dict merged into self.metadata must keep the setdefault slots usable. -/
def mergedMetaWF (m : List (String × Value)) : Bool :=
  allKey m "workflow" isDictV &&
  allKey m "nodes_started" isListV &&
  allKey m "nodes" isListV

/-- A usage object whose prompt/completion token fields are read: it must be
a dict and those fields, when present, numeric. -/
def usageFieldsNum (u : Value) : Bool :=
  match u with
  | .dict ud =>
    fieldOk ud "prompt_tokens" isNumV && fieldOk ud "completion_tokens" isNumV
  | _ => false

/-- Shape of one node record of workflow_finished data.nodes, sufficient for
nodeUsageSum to go through: a dict whose process_data (if present) is a dict;
whichever usage object the branch selects is well shaped when truthy. -/
def nodeWF (node : Value) : Bool :=
  match node with
  | .dict nd =>
    (match dLookup nd "process_data" with
     | some pd => isDictV pd
     | none => true) &&
    (let usage :=
      match dLookup nd "process_data" with
      | some (.dict pdd) => dGet pdd "usage" (.dict [])
      | _ => .dict []
     if pyTruthy usage then usageFieldsNum usage
     else
       (match dLookup nd "outputs" with
        | some o => isDictV o
        | none => true) &&
       (let u2 :=
         match dLookup nd "outputs" with
         | some (.dict od) => dGet od "usage" (.dict [])
         | _ => .dict []
        !pyTruthy u2 || usageFieldsNum u2))
  | _ => false

/-- A context field value that keeps contexts all-string: lists must hold
strings only (other shapes are either appended as strings or ignored). -/
def ctxValueWF : Value → Bool
  | .list xs => xs.all isStrV
  | _ => true

/-- Shape of a workflow_finished outputs value: non-dicts are skipped by the
isinstance guard; a dict needs well-shaped candidate context fields. -/
def wfOutputsWF : Value → Bool
  | .dict od =>
    ["retrieved_contexts", "contexts", "context", "retrieved_context"].all
      (fun k => fieldOk od k ctxValueWF)
  | _ => true

/-- Shape of a node_finished outputs value: the branch probes it with the
Python in-test and indexes it, so it must be a dict; candidate context fields
and nested retrieved_contexts fields must be well shaped. -/
def nfOutputsWF : Value → Bool
  | .dict od =>
    (["retrieved_contexts", "contexts", "context", "retrieved_context"].all
      (fun k => fieldOk od k ctxValueWF)) &&
    od.all (fun kv =>
      match kv.2 with
      | .dict vd => fieldOk vd "retrieved_contexts" ctxValueWF
      | _ => true)
  | _ => false

/-- Shape of workflow_finished data. -/
def wfDataWF (data : List (String × Value)) : Bool :=
  mergedMetaWF data &&
  fieldOk data "execution_metadata" (fun em => !pyTruthy em || isDictV em) &&
  (match dLookup data "nodes" with
   | some (.list ns) => ns.all nodeWF
   | some _ => false
   | none => true) &&
  fieldOk data "outputs" wfOutputsWF

/-- Shape of a message_end usage object: ignored when falsy, else a dict with
numeric prompt/completion fields (they land in the token slots that are later
compared with 0). -/
def meUsageWF (u : Value) : Bool :=
  !pyTruthy u || usageFieldsNum u

/-- Shape of a message_end event body. -/
def messageEndWF (e : List (String × Value)) : Bool :=
  match dLookup e "metadata" with
  | some (.dict m) => mergedMetaWF m && fieldOk m "usage" meUsageWF
  | some _ => false
  | none => true

/-- Shape of a fragment answer/text field: falsy values of any type are
skipped; a truthy value must be a string for += to work. -/
def fragFieldWF (v : Value) : Bool :=
  !pyTruthy v || isStrV v

/-- Well-shaped event: a dict whose recognized tag carries payload fields of
the shapes the branch dereferences; unrecognized or missing tags need
nothing. -/
def eventWF (event : Value) : Bool :=
  match event with
  | .dict e =>
    let et := dGet e "event" .null
    if pyEq et (.str "message") then fieldOk e "answer" fragFieldWF
    else if pyEq et (.str "agent_message") then fieldOk e "answer" fragFieldWF
    else if pyEq et (.str "message_end") then messageEndWF e
    else if pyEq et (.str "workflow_started") then fieldOk e "data" isDictV
    else if pyEq et (.str "node_started") then fieldOk e "data" isDictV
    else if pyEq et (.str "text_chunk") then
      fieldOk e "data" isDictV &&
      (match dLookup e "data" with
       | some (.dict d) => fieldOk d "text" fragFieldWF
       | _ => true)
    else if pyEq et (.str "workflow_finished") then
      fieldOk e "data" isDictV &&
      (match dLookup e "data" with
       | some (.dict d) => wfDataWF d
       | _ => true)
    else if pyEq et (.str "node_finished") then
      fieldOk e "data" isDictV &&
      (match dLookup e "data" with
       | some (.dict d) => nfOutputsWF (dGet d "outputs" (.dict []))
       | _ => true)
    else true
  | _ => false

/-
  Predicates for the contexts invariants (claims about empty strings and
  duplicates in contexts).
-/

/-- No entry of the list is the empty string. -/
def noEmptyStr (xs : List Value) : Bool :=
  xs.all (fun c =>
    match c with
    | .str t => t != ""
    | _ => true)

/-- A context field value whose direct string form is not the empty string
(the one shape the merge code appends without a truthiness guard). -/
def ctxStrFieldNonEmpty : Value → Bool
  | .str t => t != ""
  | _ => true

/-- Outputs whose candidate context fields (and nested retrieved_contexts
fields) are not the bare empty string. -/
def outputsNoEmptyStrCtx : Value → Bool
  | .dict od =>
    (["retrieved_contexts", "contexts", "context", "retrieved_context"].all
      (fun k => fieldOk od k ctxStrFieldNonEmpty)) &&
    od.all (fun kv =>
      match kv.2 with
      | .dict vd => fieldOk vd "retrieved_contexts" ctxStrFieldNonEmpty
      | _ => true)
  | _ => true

/-- Event whose context-bearing string fields are non-empty (the hypothesis
the amended empty-string claim needs; only the workflow_finished and
node_finished branches read such fields). -/
def eventNoEmptyStrCtx (event : Value) : Bool :=
  match event with
  | .dict e =>
    let et := dGet e "event" .null
    if pyEq et (.str "workflow_finished") || pyEq et (.str "node_finished")
    then
      match dLookup e "data" with
      | some (.dict d) => outputsNoEmptyStrCtx (dGet d "outputs" (.dict []))
      | _ => true
    else true
  | _ => true

/-- Pairwise inequality under Python == (each value occurs at most once). -/
def pyNodup (xs : List Value) : Prop :=
  List.Pairwise (fun a b => pyEq a b = false) xs

/-- Resources of a message_end event that are merged as strings: a dict
resource must carry string content/chunk_content (or none), a non-dict
resource must be a string or falsy.  Under this shape the str() conversion at
the append site is the identity on what the membership test compared, so the
merge stays deduplicating. -/
def resourceStrWF (resource : Value) : Bool :=
  match resource with
  | .dict rd =>
    fieldOk rd "content" (fun v => !pyTruthy v || isStrV v) &&
    fieldOk rd "chunk_content" (fun v => !pyTruthy v || isStrV v)
  | .str _ => true
  | v => !pyTruthy v

/-- Event whose message_end retriever_resources keep the context merge
deduplicating (vacuous for every other tag and payload shape). -/
def eventResourcesStr (event : Value) : Bool :=
  match event with
  | .dict e =>
    if pyEq (dGet e "event" .null) (.str "message_end") then
      match dLookup e "metadata" with
      | some (.dict m) =>
        match dLookup m "retriever_resources" with
        | some (.list xs) => xs.all resourceStrWF
        | _ => true
      | _ => true
    else true
  | _ => true

/-
  Fragment events (claim about answer concatenation and timestamps).
-/

/-- The three fragment-carrying tags. -/
inductive FragKind where
  | message
  | agent_message
  | text_chunk

/-- A fragment event as the backend emits it. -/
structure Frag where
  kind : FragKind
  text : String
  time : Rat

/-- The event dict for a fragment. -/
def fragEvent : FragKind → String → Value
  | .message, txt => .dict [("event", .str "message"), ("answer", .str txt)]
  | .agent_message, txt =>
    .dict [("event", .str "agent_message"), ("answer", .str txt)]
  | .text_chunk, txt =>
    .dict [("event", .str "text_chunk"), ("data", .dict [("text", .str txt)])]

/-- The (event, elapsed) pair of a fragment. -/
def fragPair (f : Frag) : Value × Rat :=
  (fragEvent f.kind f.text, f.time)

/-- Timestamps a fragment list contributes (empty fragments are skipped). -/
def fragStamps (frags : List Frag) : List Rat :=
  (frags.filter (fun f => f.text != "")).map (fun f => f.time)

/-
  Foundational lemmas: Except bind inversion and dict operations.
-/

theorem except_bind_ok {α β : Type} {x : Except String α}
    {f : α → Except String β} {b : β} (h : (x >>= f) = .ok b) :
    ∃ a, x = .ok a ∧ f a = .ok b := by
  cases x with
  | ok a => exact ⟨a, rfl, h⟩
  | error e =>
    rw [show ((Except.error e : Except String α) >>= f)
        = Except.error e from rfl] at h
    exact Except.noConfusion h

theorem dLookup_dSet (d : List (String × Value)) (k' k : String) (v : Value) :
    dLookup (dSet d k' v) k = if k = k' then some v else dLookup d k := by
  induction d with
  | nil =>
    by_cases hkk : k = k' <;> simp [dSet, dLookup, hkk, Ne.symm]
  | cons hd tl ih =>
    by_cases hk : hd.1 = k'
    · by_cases hkk : k = k' <;>
        simp [dSet, dLookup, hk, hkk, List.find?_cons, Ne.symm]
    · have hk2 : (hd.1 == k') = false := by simp [hk]
      by_cases hhd : hd.1 = k
      · by_cases hkk : k = k'
        · exact absurd (hkk ▸ hhd) hk
        · simp [dSet, dLookup, hk2, List.find?_cons, hhd, hkk]
      · have hhd2 : (hd.1 == k) = false := by simp [hhd]
        simp only [dSet, hk2, Bool.false_eq_true, if_false]
        simp only [dLookup, List.find?_cons, hhd2] at *
        exact ih

theorem fieldOk_dGet {d : List (String × Value)} {k : String}
    {p : Value → Bool} {dflt : Value} (h : fieldOk d k p = true)
    (hdf : p dflt = true) : p (dGet d k dflt) = true := by
  unfold fieldOk at h
  unfold dGet
  cases hl : dLookup d k with
  | some v => rw [hl] at h; exact h
  | none => exact hdf

theorem allKey_lookup {d : List (String × Value)} {k : String}
    {p : Value → Bool} (h : allKey d k p = true) {v : Value}
    (hl : dLookup d k = some v) : p v = true := by
  unfold dLookup at hl
  cases hf : d.find? (fun q => q.1 == k) with
  | none => rw [hf] at hl; exact Option.noConfusion hl
  | some q =>
    rw [hf] at hl
    injection hl with hv
    have hq : (q.1 == k) = true := by
      have := List.find?_some hf
      simpa using this
    have hm : q ∈ d := List.mem_of_find?_eq_some hf
    have hall := (List.all_eq_true.mp h) q hm
    rcases Bool.or_eq_true _ _ |>.mp hall with h1 | h2
    · rw [hq] at h1; exact Bool.noConfusion h1
    · rw [← hv]; exact h2

theorem allKey_fieldOk {d : List (String × Value)} {k : String}
    {p : Value → Bool} (h : allKey d k p = true) : fieldOk d k p = true := by
  unfold fieldOk
  cases hl : dLookup d k with
  | none => rfl
  | some v => exact allKey_lookup h hl

theorem fieldOk_dSet {base : List (String × Value)} {k' k : String}
    {p : Value → Bool} {v : Value} (hb : fieldOk base k p = true)
    (hv : k = k' → p v = true) : fieldOk (dSet base k' v) k p = true := by
  unfold fieldOk
  rw [dLookup_dSet]
  by_cases hkk : k = k'
  · rw [if_pos hkk]; exact hv hkk
  · rw [if_neg hkk]; exact hb

theorem fieldOk_dUpdate {base upd : List (String × Value)} {k : String}
    {p : Value → Bool} (hu : allKey upd k p = true)
    (hb : fieldOk base k p = true) :
    fieldOk (dUpdate base upd) k p = true := by
  induction upd generalizing base with
  | nil => exact hb
  | cons kv rest ih =>
    simp only [allKey, List.all_cons, Bool.and_eq_true] at hu
    have h2 : allKey rest k p = true := hu.2
    simp only [dUpdate, List.foldl_cons]
    exact ih h2 (fieldOk_dSet hb (fun hkk => by
      rcases Bool.or_eq_true _ _ |>.mp hu.1 with h1 | hp
      · exfalso; rw [hkk] at h1; simp at h1
      · exact hp))

/-
  Non-emptiness of the str() renderings (needed for the contexts invariant:
  the message_end extraction appends str(content) of a truthy content).
-/

theorem string_eq_empty_of_length_zero {s : String} (h : s.length = 0) :
    s = "" := by
  cases s with
  | mk data =>
    cases data with
    | nil => rfl
    | cons c cs => simp [String.length] at h

theorem toDigitsCore_length_ge (b : Nat) :
    ∀ (f n : Nat) (ds : List Char),
      ds.length ≤ (Nat.toDigitsCore b f n ds).length := by
  intro f
  induction f with
  | zero => intro n ds; exact Nat.le_refl _
  | succ f ih =>
    intro n ds
    simp only [Nat.toDigitsCore]
    by_cases h : n / b = 0
    · simp [h]
    · rw [if_neg h]
      exact Nat.le_trans (by simp) (ih (n / b) (Nat.digitChar (n % b) :: ds))

theorem toDigits_ne_nil (b n : Nat) : Nat.toDigits b n ≠ [] := by
  unfold Nat.toDigits
  simp only [Nat.toDigitsCore]
  by_cases h : n / b = 0
  · simp [h]
  · rw [if_neg h]
    intro hc
    have hlen := toDigitsCore_length_ge b n (n / b)
      [Nat.digitChar (n % b)]
    rw [hc] at hlen
    simp at hlen

theorem natRepr_ne_empty (n : Nat) : Nat.repr n ≠ "" := by
  unfold Nat.repr
  intro h
  apply toDigits_ne_nil 10 n
  have := congrArg String.data h
  simpa [List.asString] using this

theorem intToString_ne_empty (n : Int) : toString n ≠ "" := by
  show Int.repr n ≠ ""
  cases n with
  | ofNat m => exact natRepr_ne_empty m
  | negSucc m =>
    intro h
    simp only [Int.repr] at h
    have hlen := congrArg String.length h
    rw [String.length_append] at hlen
    have h1 : ("" : String).length = 0 := rfl
    rw [h1] at hlen
    have h2 : Nat.repr (m + 1) = "" :=
      string_eq_empty_of_length_zero (Nat.eq_zero_of_add_eq_zero_left hlen)
    exact natRepr_ne_empty (m + 1) h2

theorem ratStr_ne_empty (q : Rat) : ratStr q ≠ "" := by
  unfold ratStr
  intro h
  have hlen := congrArg String.length h
  rw [String.length_append] at hlen
  have h1 : ("" : String).length = 0 := rfl
  rw [h1] at hlen
  exact intToString_ne_empty q.num
    (string_eq_empty_of_length_zero (Nat.eq_zero_of_add_eq_zero_right hlen))

theorem pyStr_ne_empty_of_truthy {v : Value} (h : pyTruthy v = true) :
    pyStr v ≠ "" := by
  cases v with
  | null => exact absurd h (by simp [pyTruthy])
  | bool b =>
    cases b with
    | false => exact absurd h (by simp [pyTruthy])
    | true => simp [pyStr]
  | int n => exact intToString_ne_empty n
  | float q => exact ratStr_ne_empty q
  | str s => simpa [pyTruthy] using h
  | list xs =>
    intro hc
    have hlen := congrArg String.length hc
    rw [pyStr, String.length_append, String.length_append] at hlen
    have h2 : ("]" : String).length = 1 := rfl
    have h3 : ("" : String).length = 0 := rfl
    rw [h2, h3] at hlen
    omega
  | dict xs =>
    intro hc
    have hlen := congrArg String.length hc
    rw [pyStr, String.length_append, String.length_append] at hlen
    have h2 : ("\x7d" : String).length = 1 := rfl
    have h3 : ("" : String).length = 0 := rfl
    rw [h2, h3] at hlen
    omega

/-- C7: a sample whose reconstructed answer is empty or whitespace-only makes
the executor invoke no metric scorer and return a SampleResult carrying a
single sample-level error and an empty score map. -/
theorem C7_blank_answer_rejection (timeout : Rat) (metrics : List Metric)
    (s : EvalSample) (h : pyStrip s.response = "") :
    (evaluateExec timeout metrics s).invoked = 0 ∧
    (evaluateExec timeout metrics s).result.scores = [] ∧
    (evaluateExec timeout metrics s).result.error
      = some "响应为空，无法进行评估" := by
  unfold evaluateExec
  rw [h]
  simp

/-- Witness for C7 at a concrete whitespace-only sample. -/
theorem C7_blank_answer_rejection_witness :
    pyStrip "   " = "" ∧
    ((evaluateExec 120 [⟨"M1", .success 1⟩]
        { user_input := "q", response := "   ", contexts := [] }).invoked = 0 ∧
      (evaluateExec 120 [⟨"M1", .success 1⟩]
        { user_input := "q", response := "   ", contexts := [] }).result.scores
        = [] ∧
      (evaluateExec 120 [⟨"M1", .success 1⟩]
        { user_input := "q", response := "   ", contexts := [] }).result.error
        = some "响应为空，无法进行评估") :=
  ⟨rfl, C7_blank_answer_rejection 120 [⟨"M1", .success 1⟩]
    { user_input := "q", response := "   ", contexts := [] } rfl⟩

/-- C9 (amended): the scoring input prefers the non-blank retrieved contexts,
falls back to the non-blank reference contexts, and otherwise substitutes the
single placeholder string; the SampleResult metadata is exactly the sample
metadata plus the response_full_length entry, so a placeholder substitution
is not recorded in metadata (it is detectable only from the sentinel value
itself). -/
theorem C9_context_fallback (timeout : Rat) (metrics : List Metric)
    (s : EvalSample) :
    (s.contexts.filter isNonBlank ≠ [] →
      (to_ragas_single_turn s).retrieved_contexts
        = s.contexts.filter isNonBlank) ∧
    (s.contexts.filter isNonBlank = [] →
      (s.reference_contexts.getD []).filter isNonBlank ≠ [] →
      (to_ragas_single_turn s).retrieved_contexts
        = (s.reference_contexts.getD []).filter isNonBlank) ∧
    (s.contexts.filter isNonBlank = [] →
      (s.reference_contexts.getD []).filter isNonBlank = [] →
      (to_ragas_single_turn s).retrieved_contexts = ["无可用上下文"]) ∧
    (pyStrip s.response ≠ "" →
      (evaluateExec timeout metrics s).result.metadata
        = aSet s.metadata "response_full_length"
            (.int (s.response.length : Int))) := by
  refine ⟨?_, ?_, ?_, ?_⟩
  · intro h1
    simp [to_ragas_single_turn, List.isEmpty_iff, h1]
  · intro h1 h2
    simp [to_ragas_single_turn, List.isEmpty_iff, h1, h2]
  · intro h1 h2
    simp [to_ragas_single_turn, List.isEmpty_iff, h1, h2]
  · intro h
    have hr : s.response ≠ "" := by
      intro he
      exact h (by rw [he]; rfl)
    unfold evaluateExec
    simp [hr, h]

/-- Witness for C9 at a concrete sample (placeholder case). -/
theorem C9_context_fallback_witness :
    ([""].filter isNonBlank = []) ∧
    (((none : Option (List String)).getD []).filter isNonBlank = []) ∧
    (to_ragas_single_turn
      { user_input := "q", response := "a", contexts := [""],
        metadata := [] }).retrieved_contexts = ["无可用上下文"] ∧
    (pyStrip "a" ≠ "") ∧
    (evaluateExec 120 [⟨"M1", .success 1⟩]
      { user_input := "q", response := "a", contexts := [""],
        metadata := [] }).result.metadata
      = aSet ([] : List (String × Value)) "response_full_length" (.int 1) :=
  ⟨rfl, rfl,
    (C9_context_fallback 120 [⟨"M1", .success 1⟩]
      { user_input := "q", response := "a", contexts := [""],
        metadata := [] }).2.2.1 rfl rfl,
    (by decide),
    (C9_context_fallback 120 [⟨"M1", .success 1⟩]
      { user_input := "q", response := "a", contexts := [""],
        metadata := [] }).2.2.2 (by decide)⟩

/-- C9 counterexample: a sample that received the placeholder has exactly the
same metadata in its SampleResult as the same sample with a real retrieved
context; nothing in metadata records that the placeholder was used. -/
theorem C9_placeholder_invisible_in_metadata :
    (to_ragas_single_turn
      { user_input := "q", response := "a",
        contexts := [] }).retrieved_contexts = ["无可用上下文"] ∧
    (evaluateExec 120 [⟨"M1", .success 1⟩]
      { user_input := "q", response := "a", contexts := [] }).result.metadata
    = (evaluateExec 120 [⟨"M1", .success 1⟩]
      { user_input := "q", response := "a",
        contexts := ["ctx"] }).result.metadata :=
  ⟨rfl, rfl⟩

/-- C1 counterexample: two metrics, one succeeding with 0.9 and one raising;
the executor records the error summary, so is_success is false, where the
claim asserts overall success. -/
theorem C1_isSuccess_counterexample :
    (evaluateExec 120 [⟨"M1", .success (9/10)⟩, ⟨"M2", .exception "boom"⟩]
      { user_input := "q", response := "ok",
        contexts := ["c"] }).result.is_success = false := rfl

/-- C2 counterexample: a node_finished event whose retrieved_contexts field is
the empty string itself puts the empty string into contexts. -/
theorem C2_empty_string_counterexample :
    (applyStreamEvent true initAcc
      (.dict [("event", .str "node_finished"),
        ("data", .dict [("outputs",
          .dict [("retrieved_contexts", .str "")])])]) 0).map
      (fun s => s.contexts) = .ok [.str ""] := rfl

/-- C6 counterexample: the same non-string resource (the int 5) delivered
twice through message_end is appended twice, because the membership test uses
the unconverted value while the append stores str(5). -/
theorem C6_duplicate_counterexample :
    (applyStreamEvents false initAcc
      [(.dict [("event", .str "message_end"),
         ("metadata", .dict [("retriever_resources", .list [.int 5])])], 0),
       (.dict [("event", .str "message_end"),
         ("metadata", .dict [("retriever_resources", .list [.int 5])])], 0)]).map
      (fun s => s.contexts) = .ok [.str "5", .str "5"] := rfl

/-- C8 counterexample: a recognized tag with a malformed payload raises - a
message event whose answer field is the truthy int 5 makes the += raise
TypeError instead of being treated as empty. -/
theorem C8_malformed_payload_counterexample :
    accumulate initAcc (.dict [("event", .str "message"), ("answer", .int 5)])
      0 = .error "TypeError" := rfl

/-- C10 counterexample: a workflow_finished payload lacking total_tokens and
execution_metadata but carrying elapsed_time leaves the declared elapsed time
present (5), not absent; the tokens total is still reset to 0. -/
theorem C10_elapsed_counterexample :
    (accumulate initAcc (.dict [("event", .str "workflow_finished"),
      ("data", .dict [("elapsed_time", .int 5)])]) 0).map
      (fun s => (s.elapsed_time, s.total_tokens))
      = .ok (.int 5, .int 0) := rfl

/-
  Characterization of the metric loop (for the metric-isolation claim).
-/

theorem aLookup_aSet {α : Type} (d : List (String × α)) (k' k : String)
    (v : α) :
    aLookup (aSet d k' v) k = if k = k' then some v else aLookup d k := by
  induction d with
  | nil =>
    by_cases hkk : k = k' <;> simp [aSet, aLookup, hkk, Ne.symm]
  | cons hd tl ih =>
    by_cases hk : hd.1 = k'
    · by_cases hkk : k = k' <;>
        simp [aSet, aLookup, hk, hkk, List.find?_cons, Ne.symm]
    · have hk2 : (hd.1 == k') = false := by simp [hk]
      by_cases hhd : hd.1 = k
      · by_cases hkk : k = k'
        · exact absurd (hkk ▸ hhd) hk
        · simp [aSet, aLookup, hk2, List.find?_cons, hhd, hkk]
      · have hhd2 : (hd.1 == k) = false := by simp [hhd]
        simp only [aSet, hk2, Bool.false_eq_true, if_false]
        simp only [aLookup, List.find?_cons, hhd2] at *
        exact ih

theorem aSet_fresh {α : Type} {d : List (String × α)} {k : String}
    (h : aLookup d k = none) (v : α) : aSet d k v = d ++ [(k, v)] := by
  induction d with
  | nil => rfl
  | cons hd tl ih =>
    cases hk : (hd.1 == k) with
    | true =>
      exfalso
      unfold aLookup at h
      rw [List.find?_cons, hk] at h
      exact Option.noConfusion h
    | false =>
      have htl : aLookup tl k = none := by
        unfold aLookup at h ⊢
        rw [List.find?_cons, hk] at h
        exact h
      simp only [aSet, hk, Bool.false_eq_true, if_false, List.cons_append]
      rw [ih htl]

theorem aLookup_map_of_mem {β : Type} (g : Metric → β) :
    ∀ (metrics : List Metric) (mt : Metric),
      (metrics.map Metric.name).Nodup → mt ∈ metrics →
      aLookup (metrics.map (fun m => (m.name, g m))) mt.name = some (g mt) := by
  intro metrics
  induction metrics with
  | nil => intro mt _ hm; exact absurd hm (List.not_mem_nil mt)
  | cons hd tl ih =>
    intro mt hnd hm
    rw [List.map_cons, List.nodup_cons] at hnd
    rcases List.mem_cons.mp hm with rfl | htl
    · unfold aLookup
      rw [List.map_cons, List.find?_cons_of_pos _ (by simp)]
    · have hne : (hd.name == mt.name) = false := by
        have : mt.name ∈ tl.map Metric.name := List.mem_map_of_mem _ htl
        have : hd.name ≠ mt.name := fun he => hnd.1 (he ▸ this)
        simp [this]
      unfold aLookup
      rw [List.map_cons, List.find?_cons_of_neg _ (by simp [hne])]
      exact ih mt hnd.2 htl

theorem metricFold_char (timeout : Rat) :
    ∀ (metrics : List Metric) (m : MetricMaps),
      (∀ mt ∈ metrics, aLookup m.scores mt.name = none ∧
        aLookup m.reasoning mt.name = none ∧
        aLookup m.errors mt.name = none) →
      (metrics.map Metric.name).Nodup →
      (metrics.foldl (metricStep timeout) m).scores
        = m.scores ++ metrics.map (fun mt => (mt.name, scoreVal mt.behavior)) ∧
      (metrics.foldl (metricStep timeout) m).errors
        = m.errors ++ (metrics.filter (fun mt => isFailB mt.behavior)).map
            (fun mt => (mt.name, errText timeout mt.behavior)) := by
  intro metrics
  induction metrics with
  | nil => intro m _ _; simp
  | cons hd tl ih =>
    intro m hfresh hnd
    rw [List.map_cons, List.nodup_cons] at hnd
    have hhd := hfresh hd (List.mem_cons_self hd tl)
    have hstep :
        (metricStep timeout m hd).scores
          = m.scores ++ [(hd.name, scoreVal hd.behavior)] ∧
        (metricStep timeout m hd).errors
          = m.errors ++ (if isFailB hd.behavior then
              [(hd.name, errText timeout hd.behavior)] else []) := by
      cases hb : hd.behavior with
      | success q =>
        constructor
        · simp only [metricStep, hb, scoreVal]
          exact aSet_fresh hhd.1 q
        · simp [metricStep, hb, isFailB]
      | timeout =>
        constructor
        · simp only [metricStep, hb, scoreVal]
          exact aSet_fresh hhd.1 0
        · simp only [metricStep, hb, isFailB, if_true, errText]
          exact aSet_fresh hhd.2.2 _
      | exception emsg =>
        constructor
        · simp only [metricStep, hb, scoreVal]
          exact aSet_fresh hhd.1 0
        · simp only [metricStep, hb, isFailB, if_true, errText]
          exact aSet_fresh hhd.2.2 _
    have hfresh2 : ∀ mt ∈ tl,
        aLookup (metricStep timeout m hd).scores mt.name = none ∧
        aLookup (metricStep timeout m hd).reasoning mt.name = none ∧
        aLookup (metricStep timeout m hd).errors mt.name = none := by
      intro mt hmt
      have hmtf := hfresh mt (List.mem_cons_of_mem hd hmt)
      have hne : mt.name ≠ hd.name := by
        intro he
        exact hnd.1 (he ▸ List.mem_map_of_mem Metric.name hmt)
      cases hb : hd.behavior with
      | success q =>
        refine ⟨?_, ?_, ?_⟩ <;>
          simp [metricStep, hb, aLookup_aSet, hne, hmtf.1, hmtf.2.1, hmtf.2.2]
      | timeout =>
        refine ⟨?_, ?_, ?_⟩ <;>
          simp [metricStep, hb, aLookup_aSet, hne, hmtf.1, hmtf.2.1, hmtf.2.2]
      | exception emsg =>
        refine ⟨?_, ?_, ?_⟩ <;>
          simp [metricStep, hb, aLookup_aSet, hne, hmtf.1, hmtf.2.1, hmtf.2.2]
    have hrec := ih (metricStep timeout m hd) hfresh2 hnd.2
    constructor
    · rw [List.foldl_cons, hrec.1, hstep.1, List.map_cons]
      simp
    · rw [List.foldl_cons, hrec.2, hstep.2, List.filter_cons]
      cases hb : isFailB hd.behavior <;> simp

/-- C1 (amended): with N configured metrics of distinct names where exactly
one raises an exception and all others return scores, the score map has N
entries - the N-1 real scores under their metric names plus 0 for the
failing metric - and the failing metric has a populated error entry; but the
sample's overall success flag is FALSE, not true: the executor folds any
non-empty per-metric error map into the sample-level error summary string,
and is_success requires that no error is recorded. -/
theorem C1_metric_isolation (timeout : Rat) (A B : List Metric) (f : Metric)
    (emsg : String) (sample : EvalSample)
    (hresp : pyStrip sample.response ≠ "")
    (hf : f.behavior = .exception emsg)
    (hA : ∀ mt ∈ A, ∃ q, mt.behavior = .success q)
    (hB : ∀ mt ∈ B, ∃ q, mt.behavior = .success q)
    (hnd : ((A ++ f :: B).map Metric.name).Nodup) :
    (evaluateExec timeout (A ++ f :: B) sample).result.scores.length
      = (A ++ f :: B).length ∧
    aLookup (evaluateExec timeout (A ++ f :: B) sample).result.scores f.name
      = some 0 ∧
    (∀ mt ∈ A ++ B, ∀ q, mt.behavior = .success q →
      aLookup (evaluateExec timeout (A ++ f :: B) sample).result.scores
        mt.name = some q) ∧
    aLookup (evaluateExec timeout (A ++ f :: B) sample).metricErrors f.name
      = some (exceptionErrMsg emsg) ∧
    (evaluateExec timeout (A ++ f :: B) sample).result.error.isSome = true ∧
    (evaluateExec timeout (A ++ f :: B) sample).result.is_success = false := by
  have hrne : sample.response ≠ "" := fun he => hresp (by rw [he]; rfl)
  have hcond : (sample.response == "" || pyStrip sample.response == "")
      = false := by simp [hrne, hresp]
  have hfresh : ∀ mt ∈ A ++ f :: B,
      aLookup (MetricMaps.scores
        { scores := [], reasoning := [], errors := [] }) mt.name = none ∧
      aLookup (MetricMaps.reasoning
        { scores := [], reasoning := [], errors := [] }) mt.name = none ∧
      aLookup (MetricMaps.errors
        { scores := [], reasoning := [], errors := [] }) mt.name = none := by
    intro mt _
    exact ⟨rfl, rfl, rfl⟩
  have hc := metricFold_char timeout (A ++ f :: B)
    { scores := [], reasoning := [], errors := [] } hfresh hnd
  have hfmem : f ∈ A ++ f :: B :=
    List.mem_append_right A (List.mem_cons_self f B)
  have hscores :
      ((A ++ f :: B).foldl (metricStep timeout)
        { scores := [], reasoning := [], errors := [] }).scores
      = (A ++ f :: B).map (fun mt => (mt.name, scoreVal mt.behavior)) := by
    rw [hc.1]; simp
  have herrs :
      ((A ++ f :: B).foldl (metricStep timeout)
        { scores := [], reasoning := [], errors := [] }).errors
      = ((A ++ f :: B).filter (fun mt => isFailB mt.behavior)).map
          (fun mt => (mt.name, errText timeout mt.behavior)) := by
    rw [hc.2]; simp
  have hffil : f ∈ (A ++ f :: B).filter (fun mt => isFailB mt.behavior) :=
    List.mem_filter.mpr ⟨hfmem, by rw [hf]; rfl⟩
  have hndfil :
      (((A ++ f :: B).filter (fun mt => isFailB mt.behavior)).map
        Metric.name).Nodup :=
    List.Nodup.sublist (List.Sublist.map Metric.name
      (List.filter_sublist (A ++ f :: B))) hnd
  have herrne : ((A ++ f :: B).filter (fun mt => isFailB mt.behavior)).map
      (fun mt => (mt.name, errText timeout mt.behavior)) ≠ [] := by
    intro hnil
    rw [List.map_eq_nil_iff] at hnil
    rw [hnil] at hffil
    exact List.not_mem_nil f hffil
  simp only [evaluateExec, hcond, Bool.false_eq_true, if_false, hscores,
    herrs]
  refine ⟨?_, ?_, ?_, ?_, ?_, ?_⟩
  · simp
  · have := aLookup_map_of_mem (fun mt => scoreVal mt.behavior)
      (A ++ f :: B) f hnd hfmem
    rw [this]
    simp only [hf, scoreVal]
  · intro mt hmt q hq
    have hmem2 : mt ∈ A ++ f :: B := by
      rcases List.mem_append.mp hmt with h1 | h2
      · exact List.mem_append_left _ h1
      · exact List.mem_append_right _ (List.mem_cons_of_mem f h2)
    have := aLookup_map_of_mem (fun mt => scoreVal mt.behavior)
      (A ++ f :: B) mt hnd hmem2
    rw [this]
    simp only [hq, scoreVal]
  · have := aLookup_map_of_mem (fun mt => (errText timeout mt.behavior))
      ((A ++ f :: B).filter (fun mt => isFailB mt.behavior)) f hndfil hffil
    rw [this]
    simp only [hf, errText]
  · have hEmp : (((A ++ f :: B).filter (fun mt => isFailB mt.behavior)).map
        (fun mt => (mt.name, errText timeout mt.behavior))).isEmpty
        = false := by
      cases hv : (((A ++ f :: B).filter (fun mt => isFailB mt.behavior)).map
          (fun mt => (mt.name, errText timeout mt.behavior))).isEmpty with
      | false => rfl
      | true => exact absurd (List.isEmpty_iff.mp hv) herrne
    simp [hEmp]
    intro _ hff
    rw [hf] at hff
    exact absurd hff (by simp [isFailB])
  · have hEmp : (((A ++ f :: B).filter (fun mt => isFailB mt.behavior)).map
        (fun mt => (mt.name, errText timeout mt.behavior))).isEmpty
        = false := by
      cases hv : (((A ++ f :: B).filter (fun mt => isFailB mt.behavior)).map
          (fun mt => (mt.name, errText timeout mt.behavior))).isEmpty with
      | false => rfl
      | true => exact absurd (List.isEmpty_iff.mp hv) herrne
    simp [SampleResult.is_success, hEmp]
    intro _ hff
    rw [hf] at hff
    exact absurd hff (by simp [isFailB])

/-- Witness for C1 at a concrete two-metric run. -/
theorem C1_metric_isolation_witness :
    pyStrip "ok" ≠ "" ∧
    (evaluateExec 120 [⟨"M1", .success (9/10)⟩, ⟨"M2", .exception "boom"⟩]
      { user_input := "q", response := "ok",
        contexts := ["c"] }).result.scores.length = 2 ∧
    aLookup (evaluateExec 120
      [⟨"M1", .success (9/10)⟩, ⟨"M2", .exception "boom"⟩]
      { user_input := "q", response := "ok",
        contexts := ["c"] }).result.scores "M2" = some 0 ∧
    (evaluateExec 120 [⟨"M1", .success (9/10)⟩, ⟨"M2", .exception "boom"⟩]
      { user_input := "q", response := "ok",
        contexts := ["c"] }).result.is_success = false := by
  have h := C1_metric_isolation 120 [⟨"M1", .success (9/10)⟩] []
    ⟨"M2", .exception "boom"⟩ "boom"
    { user_input := "q", response := "ok", contexts := ["c"] }
    (by decide) rfl
    (by
      intro mt hmt
      rw [List.mem_singleton] at hmt
      exact ⟨9/10, by rw [hmt]⟩)
    (by intro mt hmt; exact absurd hmt (List.not_mem_nil mt))
    (by decide)
  exact ⟨by decide, h.1, h.2.1, h.2.2.2.2.2⟩

/-
  The workflow_finished branch: token priority and reset claims.
-/

theorem accumulate_tag (s : AccState) (e : List (String × Value)) (t : Rat)
    (tag : String) (het : dGet e "event" .null = .str tag) :
    accumulate s (.dict e) t =
      (if tag == "message" then
        appendFragment s (dGet e "answer" (.str "")) t
      else if tag == "agent_message" then
        appendFragment s (dGet e "answer" (.str "")) t
      else if tag == "message_end" then messageEndStep s e
      else if tag == "workflow_started" then workflowStartedStep s e
      else if tag == "node_started" then nodeStartedStep s e
      else if tag == "text_chunk" then textChunkStep s e t
      else if tag == "workflow_finished" then workflowFinishedStep s e
      else if tag == "node_finished" then nodeFinishedStep s e
      else .ok s) := by
  have h0 : accumulate s (.dict e) t =
      (if pyEq (dGet e "event" .null) (.str "message") then
        appendFragment s (dGet e "answer" (.str "")) t
      else if pyEq (dGet e "event" .null) (.str "agent_message") then
        appendFragment s (dGet e "answer" (.str "")) t
      else if pyEq (dGet e "event" .null) (.str "message_end") then
        messageEndStep s e
      else if pyEq (dGet e "event" .null) (.str "workflow_started") then
        workflowStartedStep s e
      else if pyEq (dGet e "event" .null) (.str "node_started") then
        nodeStartedStep s e
      else if pyEq (dGet e "event" .null) (.str "text_chunk") then
        textChunkStep s e t
      else if pyEq (dGet e "event" .null) (.str "workflow_finished") then
        workflowFinishedStep s e
      else if pyEq (dGet e "event" .null) (.str "node_finished") then
        nodeFinishedStep s e
      else .ok s) := rfl
  rw [h0, het]
  rfl

theorem wfSumNodeTokens_preserves (s : AccState)
    (data : List (String × Value)) {s2 : AccState}
    (h : wfSumNodeTokens s data = .ok s2) :
    s2.total_tokens = s.total_tokens ∧ s2.elapsed_time = s.elapsed_time ∧
    s2.contexts = s.contexts ∧ s2.answer = s.answer ∧
    s2.metadata = s.metadata := by
  unfold wfSumNodeTokens at h
  obtain ⟨nodes, h1, h⟩ := except_bind_ok h
  obtain ⟨tio, h2, h⟩ := except_bind_ok h
  obtain ⟨gi, h3, h⟩ := except_bind_ok h
  obtain ⟨go, h4, h⟩ := except_bind_ok h
  cases h
  exact ⟨rfl, rfl, rfl, rfl, rfl⟩

theorem wfMergeOutputsContexts_preserves (s : AccState)
    (data : List (String × Value)) {s2 : AccState}
    (h : wfMergeOutputsContexts s data = .ok s2) :
    s2.total_tokens = s.total_tokens ∧ s2.elapsed_time = s.elapsed_time ∧
    s2.answer = s.answer := by
  unfold wfMergeOutputsContexts at h
  split at h
  · obtain ⟨cur1, h1, h⟩ := except_bind_ok h
    cases h
    exact ⟨rfl, rfl, rfl⟩
  · cases h
    exact ⟨rfl, rfl, rfl⟩

/-- C5: when workflow_finished data carries an execution-metadata object with
a token total, the accumulated total_tokens afterwards is exactly that value,
whatever node-level usage blocks were summed (those only feed the
input/output slots) and whatever top-level total the data carried. -/
theorem C5_execution_metadata_priority (s : AccState) (t : Rat)
    (e data em : List (String × Value)) (v : Value) {s2 : AccState}
    (hev : dLookup e "event" = some (.str "workflow_finished"))
    (hdata : dLookup e "data" = some (.dict data))
    (hem : dLookup data "execution_metadata" = some (.dict em))
    (hv : dLookup em "total_tokens" = some v)
    (hok : accumulate s (.dict e) t = .ok s2) :
    s2.total_tokens = v := by
  have het : dGet e "event" .null = .str "workflow_finished" := by
    unfold dGet
    rw [hev]
  rw [accumulate_tag s e t "workflow_finished" het] at hok
  have hok2 : workflowFinishedStep s e = .ok s2 := hok
  unfold workflowFinishedStep at hok2
  have hd : dGet e "data" (.dict []) = .dict data := by
    unfold dGet
    rw [hdata]
  rw [hd] at hok2
  have hok3 : (wfTokensUpdate s data >>= fun s1 =>
      wfSumNodeTokens s1 data >>= fun sx =>
      wfMergeOutputsContexts sx data) = .ok s2 := hok2
  obtain ⟨s1, hs1, hok4⟩ := except_bind_ok hok3
  obtain ⟨sx, hsx, hok5⟩ := except_bind_ok hok4
  have hemne : em ≠ [] := by
    intro hnil
    rw [hnil] at hv
    exact Option.noConfusion hv
  have hemv : dGet data "execution_metadata" (.dict []) = .dict em := by
    unfold dGet
    rw [hem]
  have htr : pyTruthy (dGet data "execution_metadata" (.dict [])) = true := by
    rw [hemv]
    cases em with
    | nil => exact absurd rfl hemne
    | cons a l => rfl
  have hs1tot : s1.total_tokens = v := by
    unfold wfTokensUpdate at hs1
    split at hs1
    · split at hs1
      · rename_i m heq
        rw [hemv] at heq
        injection heq with hme
        cases hs1
        show dGet m "total_tokens" (dGet data "total_tokens" (.int 0)) = v
        rw [← hme]
        unfold dGet
        rw [hv]
      · exact Except.noConfusion hs1
    · rename_i hcond
      exact absurd htr hcond
  have hp1 := wfSumNodeTokens_preserves s1 data hsx
  have hp2 := wfMergeOutputsContexts_preserves sx data hok5
  rw [hp2.1, hp1.1, hs1tot]

/-- Witness for C5: top-level total 99, node usage summing to 15, execution
metadata total 42; the final total is 42. -/
theorem C5_execution_metadata_priority_witness :
    (accumulate initAcc (.dict [("event", .str "workflow_finished"),
      ("data", .dict
        [("total_tokens", .int 99),
         ("execution_metadata", .dict [("total_tokens", .int 42)]),
         ("nodes", .list [.dict [("process_data", .dict [("usage", .dict
            [("prompt_tokens", .int 10),
             ("completion_tokens", .int 5)])])]])])]) 0).map
      (fun s => s.total_tokens) = .ok (.int 42) := by
  have hacc : accumulate initAcc (.dict [("event", .str "workflow_finished"),
      ("data", .dict
        [("total_tokens", .int 99),
         ("execution_metadata", .dict [("total_tokens", .int 42)]),
         ("nodes", .list [.dict [("process_data", .dict [("usage", .dict
            [("prompt_tokens", .int 10),
             ("completion_tokens", .int 5)])])]])])]) 0
    = Except.ok (AccState.mk "" [] [] [("total_tokens", Value.int 99),
        ("execution_metadata", Value.dict [("total_tokens", Value.int 42)]),
        ("nodes", Value.list [Value.dict [("process_data", Value.dict
          [("usage", Value.dict [("prompt_tokens", Value.int 10),
            ("completion_tokens", Value.int 5)])])]])]
        none none [] (Value.int 42) (Value.int 10) (Value.int 5)
        Value.null Value.null Value.null) := rfl
  have h := C5_execution_metadata_priority initAcc 0
    [("event", .str "workflow_finished"),
     ("data", .dict
       [("total_tokens", .int 99),
        ("execution_metadata", .dict [("total_tokens", .int 42)]),
        ("nodes", .list [.dict [("process_data", .dict [("usage", .dict
           [("prompt_tokens", .int 10),
            ("completion_tokens", .int 5)])])]])])]
    [("total_tokens", .int 99),
     ("execution_metadata", .dict [("total_tokens", .int 42)]),
     ("nodes", .list [.dict [("process_data", .dict [("usage", .dict
        [("prompt_tokens", .int 10),
         ("completion_tokens", .int 5)])])]])]
    [("total_tokens", .int 42)] (.int 42) rfl rfl rfl rfl hacc
  rw [hacc]
  exact congrArg Except.ok h

/-- C10 (amended): a workflow_finished event whose data payload contains no
total_tokens field, no execution-metadata object and also no elapsed_time
field resets the accumulated tokens total to 0 and the declared elapsed time
to absent, discarding any previously recorded values (for example from an
earlier message_end usage block).  Without the elapsed_time exclusion the
original claim fails: the slot is overwritten by data.get("elapsed_time"),
which is absent only when the payload lacks the key. -/
theorem C10_workflow_finished_reset (s : AccState) (t : Rat)
    (e data : List (String × Value)) {s2 : AccState}
    (hev : dLookup e "event" = some (.str "workflow_finished"))
    (hdata : dLookup e "data" = some (.dict data))
    (h1 : dLookup data "total_tokens" = none)
    (h2 : dLookup data "execution_metadata" = none)
    (h3 : dLookup data "elapsed_time" = none)
    (hok : accumulate s (.dict e) t = .ok s2) :
    s2.total_tokens = .int 0 ∧ s2.elapsed_time = .null := by
  have het : dGet e "event" .null = .str "workflow_finished" := by
    unfold dGet
    rw [hev]
  rw [accumulate_tag s e t "workflow_finished" het] at hok
  have hok2 : workflowFinishedStep s e = .ok s2 := hok
  unfold workflowFinishedStep at hok2
  have hd : dGet e "data" (.dict []) = .dict data := by
    unfold dGet
    rw [hdata]
  rw [hd] at hok2
  have hok3 : (wfTokensUpdate s data >>= fun s1 =>
      wfSumNodeTokens s1 data >>= fun sx =>
      wfMergeOutputsContexts sx data) = .ok s2 := hok2
  obtain ⟨s1, hs1, hok4⟩ := except_bind_ok hok3
  obtain ⟨sx, hsx, hok5⟩ := except_bind_ok hok4
  have hfl : pyTruthy (dGet data "execution_metadata" (.dict [])) = false := by
    have hemv : dGet data "execution_metadata" (.dict []) = .dict [] := by
      unfold dGet
      rw [h2]
    rw [hemv]
    rfl
  have hs1c : s1.total_tokens = .int 0 ∧ s1.elapsed_time = .null := by
    unfold wfTokensUpdate at hs1
    split at hs1
    · rename_i hcond
      rw [hfl] at hcond
      exact Bool.noConfusion hcond
    · cases hs1
      constructor
      · show dGet data "total_tokens" (.int 0) = .int 0
        unfold dGet
        rw [h1]
      · show dGet data "elapsed_time" .null = .null
        unfold dGet
        rw [h3]
  have hp1 := wfSumNodeTokens_preserves s1 data hsx
  have hp2 := wfMergeOutputsContexts_preserves sx data hok5
  exact ⟨by rw [hp2.1, hp1.1, hs1c.1], by rw [hp2.2.1, hp1.2.1, hs1c.2]⟩

/-- Witness for C10: an earlier message_end usage block recorded 50 tokens;
the bare workflow_finished event resets the total to 0 and leaves elapsed
time absent. -/
theorem C10_workflow_finished_reset_witness :
    ((accumulate initAcc (.dict [("event", .str "message_end"),
        ("metadata", .dict [("usage",
          .dict [("total_tokens", .int 50)])])]) 0) >>= fun s1 =>
      accumulate s1 (.dict [("event", .str "workflow_finished"),
        ("data", .dict [("id", .str "w")])]) 1).map
      (fun s => (s.total_tokens, s.elapsed_time))
      = .ok (.int 0, .null) := by
  have h1 : accumulate initAcc (.dict [("event", .str "message_end"),
      ("metadata", .dict [("usage",
        .dict [("total_tokens", .int 50)])])]) 0
      = .ok (AccState.mk "" [] []
          [("usage", Value.dict [("total_tokens", Value.int 50)])]
          none none [] (.int 50) (.int 0) (.int 0) .null .null .null) := rfl
  have h2 : accumulate (AccState.mk "" [] []
        [("usage", Value.dict [("total_tokens", Value.int 50)])]
        none none [] (.int 50) (.int 0) (.int 0) .null .null .null)
      (.dict [("event", .str "workflow_finished"),
        ("data", .dict [("id", .str "w")])]) 1
      = .ok (AccState.mk "" [] []
          [("usage", Value.dict [("total_tokens", Value.int 50)]),
           ("id", Value.str "w")]
          none none [] (.int 0) (.int 0) (.int 0) .null .null .null) := rfl
  have hc := C10_workflow_finished_reset (AccState.mk "" [] []
      [("usage", Value.dict [("total_tokens", Value.int 50)])]
      none none [] (.int 50) (.int 0) (.int 0) .null .null .null) 1
    [("event", .str "workflow_finished"), ("data", .dict [("id", .str "w")])]
    [("id", .str "w")] rfl rfl rfl rfl rfl h2
  rw [h1]
  show (accumulate (AccState.mk "" [] []
      [("usage", Value.dict [("total_tokens", Value.int 50)])]
      none none [] (.int 50) (.int 0) (.int 0) .null .null .null)
    (.dict [("event", .str "workflow_finished"),
      ("data", .dict [("id", .str "w")])]) 1).map
    (fun s => (s.total_tokens, s.elapsed_time)) = .ok (.int 0, .null)
  rw [h2]
  show Except.ok ((AccState.mk "" [] []
      [("usage", Value.dict [("total_tokens", Value.int 50)]),
       ("id", Value.str "w")]
      none none [] (.int 0) (.int 0) (.int 0)
      .null .null .null).total_tokens,
    (AccState.mk "" [] []
      [("usage", Value.dict [("total_tokens", Value.int 50)]),
       ("id", Value.str "w")]
      none none [] (.int 0) (.int 0) (.int 0)
      .null .null .null).elapsed_time) = .ok (.int 0, .null)
  rw [hc.1, hc.2]

/-
  Fragment accumulation (answer concatenation and timestamp monotonicity).
-/

theorem appendFragment_str (s : AccState) (txt : String) (t : Rat) :
    ∃ s2, appendFragment s (.str txt) t = .ok s2 ∧
      s2.answer = s.answer ++ txt ∧
      s2.token_timestamps = s.token_timestamps
        ++ (if txt = "" then [] else [t]) ∧
      s2.contexts = s.contexts := by
  by_cases ht : txt = ""
  · subst ht
    refine ⟨s, ?_, by simp, by simp, rfl⟩
    simp [appendFragment, pyTruthy]
  · have htr : pyTruthy (Value.str txt) = true := by simp [pyTruthy, ht]
    unfold appendFragment
    rw [htr]
    exact ⟨_, rfl, rfl, by simp [ht], rfl⟩

theorem applyFrag_step (iw : Bool) (s : AccState) (f : Frag) :
    ∃ s2, applyStreamEvent iw s (fragEvent f.kind f.text) f.time = .ok s2 ∧
      s2.answer = s.answer ++ f.text ∧
      s2.token_timestamps = s.token_timestamps ++
        (if f.text = "" then [] else [f.time]) := by
  obtain ⟨s2, hap, ha, hts, _⟩ := appendFragment_str s f.text f.time
  cases hk : f.kind with
  | message =>
    refine ⟨s2, ?_, ha, hts⟩
    have hacc : accumulate s (fragEvent FragKind.message f.text) f.time
        = appendFragment s (.str f.text) f.time := by
      rw [show fragEvent FragKind.message f.text
        = .dict [("event", .str "message"), ("answer", .str f.text)]
        from rfl]
      rw [accumulate_tag s
        [("event", .str "message"), ("answer", .str f.text)] f.time
        "message" rfl]
      rfl
    unfold applyStreamEvent
    rw [show fragEvent FragKind.message f.text
      = .dict [("event", .str "message"), ("answer", .str f.text)] from rfl]
    rw [show accumulate s
        (.dict [("event", .str "message"), ("answer", .str f.text)]) f.time
      = appendFragment s (.str f.text) f.time from hacc]
    rw [hap]
    have hcond : pyEq (dGet [("event", Value.str "message"),
        ("answer", Value.str f.text)] "event" Value.null)
        (.str "message_end") = false := rfl
    simp [hcond]
    rfl
  | agent_message =>
    refine ⟨s2, ?_, ha, hts⟩
    have hacc : accumulate s (fragEvent FragKind.agent_message f.text) f.time
        = appendFragment s (.str f.text) f.time := by
      rw [show fragEvent FragKind.agent_message f.text
        = .dict [("event", .str "agent_message"), ("answer", .str f.text)]
        from rfl]
      rw [accumulate_tag s
        [("event", .str "agent_message"), ("answer", .str f.text)] f.time
        "agent_message" rfl]
      rfl
    unfold applyStreamEvent
    rw [show fragEvent FragKind.agent_message f.text
      = .dict [("event", .str "agent_message"), ("answer", .str f.text)]
      from rfl]
    rw [show accumulate s
        (.dict [("event", .str "agent_message"), ("answer", .str f.text)])
        f.time
      = appendFragment s (.str f.text) f.time from hacc]
    rw [hap]
    have hcond : pyEq (dGet [("event", Value.str "agent_message"),
        ("answer", Value.str f.text)] "event" Value.null)
        (.str "message_end") = false := rfl
    simp [hcond]
    rfl
  | text_chunk =>
    refine ⟨s2, ?_, ha, hts⟩
    have hacc : accumulate s (fragEvent FragKind.text_chunk f.text) f.time
        = appendFragment s (.str f.text) f.time := by
      rw [show fragEvent FragKind.text_chunk f.text
        = .dict [("event", .str "text_chunk"),
            ("data", .dict [("text", .str f.text)])] from rfl]
      rw [accumulate_tag s
        [("event", .str "text_chunk"),
         ("data", .dict [("text", .str f.text)])] f.time "text_chunk" rfl]
      rfl
    unfold applyStreamEvent
    rw [show fragEvent FragKind.text_chunk f.text
      = .dict [("event", .str "text_chunk"),
          ("data", .dict [("text", .str f.text)])] from rfl]
    rw [show accumulate s
        (.dict [("event", .str "text_chunk"),
          ("data", .dict [("text", .str f.text)])]) f.time
      = appendFragment s (.str f.text) f.time from hacc]
    rw [hap]
    have hcond : pyEq (dGet [("event", Value.str "text_chunk"),
        ("data", Value.dict [("text", Value.str f.text)])] "event" Value.null)
        (.str "message_end") = false := rfl
    simp [hcond]
    rfl

theorem applyFrags_fold (iw : Bool) :
    ∀ (frags : List Frag) (s : AccState),
      ∃ s2, applyStreamEvents iw s (frags.map fragPair) = .ok s2 ∧
        s2.answer = (frags.map Frag.text).foldl (fun a b => a ++ b) s.answer ∧
        s2.token_timestamps = s.token_timestamps ++ fragStamps frags := by
  intro frags
  induction frags with
  | nil =>
    intro s
    exact ⟨s, rfl, rfl, by simp [fragStamps]⟩
  | cons f rest ih =>
    intro s
    obtain ⟨s2, h1, h2, h3⟩ := applyFrag_step iw s f
    obtain ⟨s3, g1, g2, g3⟩ := ih s2
    refine ⟨s3, ?_, ?_, ?_⟩
    · rw [List.map_cons]
      rw [show fragPair f = (fragEvent f.kind f.text, f.time) from rfl]
      unfold applyStreamEvents at g1 ⊢
      rw [List.foldlM_cons, h1]
      exact g1
    · rw [g2, h2, List.map_cons, List.foldl_cons]
    · rw [g3, h3]
      by_cases ht : f.text = ""
      · simp [fragStamps, List.filter_cons, ht]
      · simp [fragStamps, List.filter_cons, ht]

/-- C4: for every sequence of fragment events (message, agent_message,
text_chunk) applied in order with non-decreasing elapsed times, the answer is
the ordered concatenation of the fragment texts and token_timestamps is
non-decreasing. -/
theorem C4_fragment_concat_monotone (iw : Bool) (frags : List Frag)
    (hmono : List.Pairwise (· ≤ ·) (frags.map Frag.time)) :
    ∃ s2, applyStreamEvents iw initAcc (frags.map fragPair) = .ok s2 ∧
      s2.answer = (frags.map Frag.text).foldl (fun a b => a ++ b) "" ∧
      List.Pairwise (· ≤ ·) s2.token_timestamps := by
  obtain ⟨s2, h1, h2, h3⟩ := applyFrags_fold iw frags initAcc
  refine ⟨s2, h1, h2, ?_⟩
  rw [h3]
  show List.Pairwise (· ≤ ·) ([] ++ fragStamps frags)
  rw [List.nil_append]
  exact List.Pairwise.sublist
    (List.Sublist.map Frag.time
      (List.filter_sublist frags)) hmono

/-- Witness for C4 on the two-fragment example stream. -/
theorem C4_fragment_concat_monotone_witness :
    List.Pairwise (· ≤ ·)
      ([⟨FragKind.message, "Hello", 0⟩,
        ⟨FragKind.text_chunk, " World", 1⟩].map Frag.time) ∧
    ∃ s2, applyStreamEvents true initAcc
        ([⟨FragKind.message, "Hello", 0⟩,
          ⟨FragKind.text_chunk, " World", 1⟩].map fragPair) = .ok s2 ∧
      s2.answer = ([⟨FragKind.message, "Hello", 0⟩,
          ⟨FragKind.text_chunk, " World", 1⟩].map Frag.text).foldl
          (fun a b => a ++ b) "" ∧
      List.Pairwise (· ≤ ·) s2.token_timestamps :=
  ⟨by decide, C4_fragment_concat_monotone true
    [⟨FragKind.message, "Hello", 0⟩, ⟨FragKind.text_chunk, " World", 1⟩]
    (by decide)⟩

/-
  Preservation of the no-empty-string contexts invariant by the merges.
-/

theorem noEmptyStr_append_truthy {acc : List Value} {x : Value}
    (ha : noEmptyStr acc = true) (hx : pyTruthy x = true) :
    noEmptyStr (acc ++ [x]) = true := by
  unfold noEmptyStr at ha ⊢
  rw [List.all_append, ha, Bool.true_and, List.all_cons]
  cases x with
  | str t =>
    simp only [pyTruthy] at hx
    simp [hx]
  | null => simp
  | bool b => simp
  | int n => simp
  | float q => simp
  | list xs => simp
  | dict xs => simp

theorem noEmptyStr_append_str {acc : List Value} {t : String}
    (ha : noEmptyStr acc = true) (ht : t ≠ "") :
    noEmptyStr (acc ++ [.str t]) = true :=
  noEmptyStr_append_truthy ha (by simp [pyTruthy, ht])

theorem foldCtxSet_noEmpty :
    ∀ (xs acc out : List Value), noEmptyStr acc = true →
      (xs.foldlM (fun acc ctx =>
        if pyTruthy ctx then do
          let mem ← pySetMem ctx acc
          if mem then Except.ok acc else Except.ok (acc ++ [ctx])
        else Except.ok acc) acc) = .ok out → noEmptyStr out = true := by
  intro xs
  induction xs with
  | nil =>
    intro acc out ha h
    rw [List.foldlM_nil] at h
    cases h
    exact ha
  | cons x rest ih =>
    intro acc out ha h
    rw [List.foldlM_cons] at h
    obtain ⟨acc1, hstep, hrest⟩ := except_bind_ok h
    refine ih acc1 out ?_ hrest
    by_cases hpt : pyTruthy x = true
    · rw [if_pos hpt] at hstep
      obtain ⟨mem, hm, hif⟩ := except_bind_ok hstep
      cases mem with
      | true => rw [if_pos rfl] at hif; cases hif; exact ha
      | false =>
        rw [if_neg (by simp)] at hif
        cases hif
        exact noEmptyStr_append_truthy ha hpt
    · rw [if_neg hpt] at hstep
      cases hstep
      exact ha

theorem mergeCtxListSet_noEmpty {cur xs out : List Value}
    (hc : noEmptyStr cur = true) (h : mergeCtxListSet cur xs = .ok out) :
    noEmptyStr out = true := by
  unfold mergeCtxListSet at h
  split at h
  · exact foldCtxSet_noEmpty xs cur out hc h
  · exact Except.noConfusion h

theorem mergeCtxListNoSet_noEmpty :
    ∀ (xs cur : List Value), noEmptyStr cur = true →
      noEmptyStr (mergeCtxListNoSet cur xs) = true := by
  intro xs
  induction xs with
  | nil => intro cur hc; exact hc
  | cons x rest ih =>
    intro cur hc
    unfold mergeCtxListNoSet at ih ⊢
    rw [List.foldl_cons]
    by_cases hpt : (pyTruthy x && !listHas cur x) = true
    · rw [if_pos hpt]
      exact ih _ (noEmptyStr_append_truthy hc
        (Bool.and_elim_left hpt))
    · rw [if_neg hpt]
      exact ih _ hc

theorem mergeCtxValueSet_noEmpty {cur : List Value} {v : Value}
    {out : List Value} (hc : noEmptyStr cur = true)
    (hv : ctxStrFieldNonEmpty v = true)
    (h : mergeCtxValueSet cur v = .ok out) : noEmptyStr out = true := by
  unfold mergeCtxValueSet at h
  cases v with
  | list xs => exact mergeCtxListSet_noEmpty hc h
  | str t =>
    simp only [ctxStrFieldNonEmpty] at hv
    have h2 : Except.ok
        (if (!listHas cur (.str t)) = true then cur ++ [.str t] else cur)
        = Except.ok out := h
    by_cases hmem : (!listHas cur (.str t)) = true
    · rw [if_pos hmem] at h2
      cases h2
      exact noEmptyStr_append_str hc (by simpa using hv)
    · rw [if_neg hmem] at h2
      cases h2
      exact hc
  | null => cases h; exact hc
  | bool b => cases h; exact hc
  | int n => cases h; exact hc
  | float q => cases h; exact hc
  | dict d => cases h; exact hc

theorem wfSecondaryStep_noEmpty (od : List (String × Value))
    (cur : List Value) (key : String) (hc : noEmptyStr cur = true)
    (hk : fieldOk od key ctxStrFieldNonEmpty = true) :
    noEmptyStr (if od.any (fun p => p.1 == key)
        && key != "retrieved_contexts" then
      match dGet od key .null with
      | .list xs => mergeCtxListNoSet cur xs
      | .str t => if !listHas cur (.str t) then cur ++ [.str t] else cur
      | _ => cur
    else cur) = true := by
  by_cases hcond : (od.any (fun p => p.1 == key)
      && key != "retrieved_contexts") = true
  · rw [if_pos hcond]
    have hp : ctxStrFieldNonEmpty (dGet od key .null) = true :=
      fieldOk_dGet hk rfl
    cases hv : dGet od key .null with
    | list xs => exact mergeCtxListNoSet_noEmpty xs cur hc
    | str t =>
      rw [hv] at hp
      simp only [ctxStrFieldNonEmpty] at hp
      show noEmptyStr (if (!listHas cur (.str t)) = true
        then cur ++ [.str t] else cur) = true
      by_cases hmem : (!listHas cur (.str t)) = true
      · rw [if_pos hmem]
        exact noEmptyStr_append_str hc (by simpa using hp)
      · rw [if_neg hmem]
        exact hc
    | null => exact hc
    | bool b => exact hc
    | int n => exact hc
    | float q => exact hc
    | dict d => exact hc
  · rw [if_neg hcond]
    exact hc

theorem wfSecondaryCtxFold_noEmpty (od : List (String × Value))
    (cur : List Value) (hc : noEmptyStr cur = true)
    (h1 : fieldOk od "contexts" ctxStrFieldNonEmpty = true)
    (h2 : fieldOk od "context" ctxStrFieldNonEmpty = true)
    (h3 : fieldOk od "retrieved_context" ctxStrFieldNonEmpty = true) :
    noEmptyStr (wfSecondaryCtxFold od cur) = true := by
  unfold wfSecondaryCtxFold
  rw [List.foldl_cons, List.foldl_cons, List.foldl_cons, List.foldl_nil]
  exact wfSecondaryStep_noEmpty od _ "retrieved_context"
    (wfSecondaryStep_noEmpty od _ "context"
      (wfSecondaryStep_noEmpty od _ "contexts" hc h1) h2) h3

theorem nestedMergeOne_noEmpty {cur out : List Value} {v : Value}
    (hc : noEmptyStr cur = true)
    (hv : (match v with
      | Value.dict vd => fieldOk vd "retrieved_contexts" ctxStrFieldNonEmpty
      | _ => true) = true)
    (h : nestedMergeOne cur v = .ok out) : noEmptyStr out = true := by
  unfold nestedMergeOne at h
  cases v with
  | dict vd =>
    have h2 : (if vd.any (fun p => p.1 == "retrieved_contexts") then
        mergeCtxValueSet cur (dGet vd "retrieved_contexts" .null)
      else Except.ok cur) = Except.ok out := h
    have hv2 : fieldOk vd "retrieved_contexts" ctxStrFieldNonEmpty
        = true := hv
    by_cases hcond : (vd.any (fun p => p.1 == "retrieved_contexts")) = true
    · rw [if_pos hcond] at h2
      exact mergeCtxValueSet_noEmpty hc
        (fieldOk_dGet hv2
          (show ctxStrFieldNonEmpty Value.null = true from rfl)) h2
    · rw [if_neg hcond] at h2
      cases h2
      exact hc
  | null => cases h; exact hc
  | bool b => cases h; exact hc
  | int n => cases h; exact hc
  | float q => cases h; exact hc
  | str t => cases h; exact hc
  | list xs => cases h; exact hc

theorem nestedFold_noEmpty :
    ∀ (od : List (String × Value)) (cur out : List Value),
      noEmptyStr cur = true →
      (∀ kv ∈ od, (match kv.2 with
        | Value.dict vd => fieldOk vd "retrieved_contexts" ctxStrFieldNonEmpty
        | _ => true) = true) →
      (od.foldlM (fun cur kv => nestedMergeOne cur kv.2) cur) = .ok out →
      noEmptyStr out = true := by
  intro od
  induction od with
  | nil =>
    intro cur out hc _ h
    rw [List.foldlM_nil] at h
    cases h
    exact hc
  | cons kv rest ih =>
    intro cur out hc hall h
    rw [List.foldlM_cons] at h
    obtain ⟨cur1, hstep, hrest⟩ := except_bind_ok h
    exact ih cur1 out
      (nestedMergeOne_noEmpty hc (hall kv (List.mem_cons_self kv rest)) hstep)
      (fun kv2 hm => hall kv2 (List.mem_cons_of_mem kv hm)) hrest

theorem meResourceStep_noEmpty (cur : List Value) (r : Value)
    (hc : noEmptyStr cur = true) :
    noEmptyStr (meResourceStep cur r) = true := by
  unfold meResourceStep
  cases r with
  | dict rd =>
    show noEmptyStr (if (pyTruthy (meContent rd)
        && !listHas cur (meContent rd)) = true
      then cur ++ [.str (pyStr (meContent rd))] else cur) = true
    by_cases hcond : (pyTruthy (meContent rd)
        && !listHas cur (meContent rd)) = true
    · rw [if_pos hcond]
      exact noEmptyStr_append_str hc
        (pyStr_ne_empty_of_truthy (Bool.and_elim_left hcond))
    · rw [if_neg hcond]
      exact hc
  | null =>
    show noEmptyStr (if (pyTruthy Value.null
        && !listHas cur Value.null) = true
      then cur ++ [.str (pyStr Value.null)] else cur) = true
    by_cases hcond : (pyTruthy Value.null && !listHas cur Value.null) = true
    · rw [if_pos hcond]
      exact noEmptyStr_append_str hc
        (pyStr_ne_empty_of_truthy (Bool.and_elim_left hcond))
    · rw [if_neg hcond]
      exact hc
  | bool b =>
    show noEmptyStr (if (pyTruthy (Value.bool b)
        && !listHas cur (Value.bool b)) = true
      then cur ++ [.str (pyStr (Value.bool b))] else cur) = true
    by_cases hcond : (pyTruthy (Value.bool b)
        && !listHas cur (Value.bool b)) = true
    · rw [if_pos hcond]
      exact noEmptyStr_append_str hc
        (pyStr_ne_empty_of_truthy (Bool.and_elim_left hcond))
    · rw [if_neg hcond]
      exact hc
  | int n =>
    show noEmptyStr (if (pyTruthy (Value.int n)
        && !listHas cur (Value.int n)) = true
      then cur ++ [.str (pyStr (Value.int n))] else cur) = true
    by_cases hcond : (pyTruthy (Value.int n)
        && !listHas cur (Value.int n)) = true
    · rw [if_pos hcond]
      exact noEmptyStr_append_str hc
        (pyStr_ne_empty_of_truthy (Bool.and_elim_left hcond))
    · rw [if_neg hcond]
      exact hc
  | float q =>
    show noEmptyStr (if (pyTruthy (Value.float q)
        && !listHas cur (Value.float q)) = true
      then cur ++ [.str (pyStr (Value.float q))] else cur) = true
    by_cases hcond : (pyTruthy (Value.float q)
        && !listHas cur (Value.float q)) = true
    · rw [if_pos hcond]
      exact noEmptyStr_append_str hc
        (pyStr_ne_empty_of_truthy (Bool.and_elim_left hcond))
    · rw [if_neg hcond]
      exact hc
  | str t =>
    show noEmptyStr (if (pyTruthy (Value.str t)
        && !listHas cur (Value.str t)) = true
      then cur ++ [.str (pyStr (Value.str t))] else cur) = true
    by_cases hcond : (pyTruthy (Value.str t)
        && !listHas cur (Value.str t)) = true
    · rw [if_pos hcond]
      exact noEmptyStr_append_str hc
        (pyStr_ne_empty_of_truthy (Bool.and_elim_left hcond))
    · rw [if_neg hcond]
      exact hc
  | list xs =>
    show noEmptyStr (if (pyTruthy (Value.list xs)
        && !listHas cur (Value.list xs)) = true
      then cur ++ [.str (pyStr (Value.list xs))] else cur) = true
    by_cases hcond : (pyTruthy (Value.list xs)
        && !listHas cur (Value.list xs)) = true
    · rw [if_pos hcond]
      exact noEmptyStr_append_str hc
        (pyStr_ne_empty_of_truthy (Bool.and_elim_left hcond))
    · rw [if_neg hcond]
      exact hc

theorem meFold_noEmpty :
    ∀ (xs : List Value) (cur : List Value), noEmptyStr cur = true →
      noEmptyStr (xs.foldl meResourceStep cur) = true := by
  intro xs
  induction xs with
  | nil => intro cur hc; exact hc
  | cons x rest ih =>
    intro cur hc
    rw [List.foldl_cons]
    exact ih _ (meResourceStep_noEmpty cur x hc)

theorem extract_noEmpty {s : AccState} {e : List (String × Value)}
    {s2 : AccState} (hc : noEmptyStr s.contexts = true)
    (h : extractContextsFromMessageEnd s e = .ok s2) :
    noEmptyStr s2.contexts = true := by
  unfold extractContextsFromMessageEnd at h
  obtain ⟨rr, hrr, h2⟩ := except_bind_ok h
  cases rr with
  | list xs =>
    cases h2
    exact meFold_noEmpty xs s.contexts hc
  | null => cases h2; exact hc
  | bool b => cases h2; exact hc
  | int n => cases h2; exact hc
  | float q => cases h2; exact hc
  | str t => cases h2; exact hc
  | dict d => cases h2; exact hc

theorem asDict_ok {v : Value} {d : List (String × Value)}
    (h : asDict v = .ok d) : v = .dict d := by
  cases v with
  | dict d2 =>
    unfold asDict at h
    injection h with h2
    rw [h2]
  | null => exact Except.noConfusion h
  | bool b => exact Except.noConfusion h
  | int n => exact Except.noConfusion h
  | float q => exact Except.noConfusion h
  | str t => exact Except.noConfusion h
  | list xs => exact Except.noConfusion h

theorem appendFragment_ctxpres {s : AccState} {c : Value} {t : Rat}
    {s2 : AccState} (h : appendFragment s c t = .ok s2) :
    s2.contexts = s.contexts := by
  unfold appendFragment at h
  split at h
  · split at h
    · cases h; rfl
    · exact Except.noConfusion h
  · cases h; rfl

theorem messageEndStep_ctxpres {s : AccState} {e : List (String × Value)}
    {s2 : AccState} (h : messageEndStep s e = .ok s2) :
    s2.contexts = s.contexts := by
  unfold messageEndStep at h
  split at h
  · split at h
    · split at h
      · cases h; rfl
      · exact Except.noConfusion h
    · cases h; rfl
  · exact Except.noConfusion h

theorem workflowStartedStep_ctxpres {s : AccState}
    {e : List (String × Value)} {s2 : AccState}
    (h : workflowStartedStep s e = .ok s2) : s2.contexts = s.contexts := by
  unfold workflowStartedStep at h
  obtain ⟨data, h1, h⟩ := except_bind_ok h
  obtain ⟨md, h2, h⟩ := except_bind_ok h
  cases h
  rfl

theorem nodeStartedStep_ctxpres {s : AccState} {e : List (String × Value)}
    {s2 : AccState} (h : nodeStartedStep s e = .ok s2) :
    s2.contexts = s.contexts := by
  unfold nodeStartedStep at h
  obtain ⟨data, h1, h⟩ := except_bind_ok h
  obtain ⟨md, h2, h⟩ := except_bind_ok h
  cases h
  rfl

theorem textChunkStep_ctxpres {s : AccState} {e : List (String × Value)}
    {t : Rat} {s2 : AccState} (h : textChunkStep s e t = .ok s2) :
    s2.contexts = s.contexts := by
  unfold textChunkStep at h
  obtain ⟨data, h1, h⟩ := except_bind_ok h
  exact appendFragment_ctxpres h

theorem wfTokensUpdate_ctxpres {s : AccState} {data : List (String × Value)}
    {s2 : AccState} (h : wfTokensUpdate s data = .ok s2) :
    s2.contexts = s.contexts := by
  unfold wfTokensUpdate at h
  split at h
  · split at h
    · cases h; rfl
    · exact Except.noConfusion h
  · cases h; rfl

theorem wfMergeOutputsContexts_noEmpty {s : AccState}
    {data : List (String × Value)} {s2 : AccState}
    (hc : noEmptyStr s.contexts = true)
    (hout : outputsNoEmptyStrCtx (dGet data "outputs" (.dict [])) = true)
    (h : wfMergeOutputsContexts s data = .ok s2) :
    noEmptyStr s2.contexts = true := by
  unfold wfMergeOutputsContexts at h
  split at h
  · rename_i od hod
    rw [hod] at hout
    unfold outputsNoEmptyStrCtx at hout
    rw [Bool.and_eq_true] at hout
    have hkeys := hout.1
    simp only [List.all_cons, List.all_nil, Bool.and_eq_true] at hkeys
    obtain ⟨cur, hcur, h⟩ := except_bind_ok h
    cases h
    have hcur2 : noEmptyStr cur = true := by
      by_cases hcond : (od.any
          (fun p => p.1 == "retrieved_contexts")) = true
      · rw [if_pos hcond] at hcur
        exact mergeCtxValueSet_noEmpty hc
          (fieldOk_dGet hkeys.1
            (show ctxStrFieldNonEmpty Value.null = true from rfl)) hcur
      · rw [if_neg hcond] at hcur
        cases hcur
        exact hc
    exact wfSecondaryCtxFold_noEmpty od cur hcur2
      hkeys.2.1 hkeys.2.2.1 hkeys.2.2.2.1
  · cases h
    exact hc

theorem findCtxKey_mem {outputs : Value} {k : String}
    (h : findCtxKey outputs = .ok (some k)) :
    k ∈ ["retrieved_contexts", "contexts", "context",
      "retrieved_context"] := by
  unfold findCtxKey at h
  have hgen : ∀ (keys : List String) (acc : Option String),
      (keys.foldlM (fun acc k2 =>
        match acc with
        | some _ => Except.ok acc
        | none => (pyIn k2 outputs) >>= fun b =>
            Except.ok (if b then some k2 else none)) acc) = .ok (some k) →
      acc = some k ∨ k ∈ keys := by
    intro keys
    induction keys with
    | nil =>
      intro acc hf
      rw [List.foldlM_nil] at hf
      injection hf with hf2
      exact Or.inl hf2
    | cons k2 rest ih =>
      intro acc hf
      rw [List.foldlM_cons] at hf
      obtain ⟨acc1, hstep, hrest⟩ := except_bind_ok hf
      rcases ih acc1 hrest with h1 | h2
      · cases acc with
        | some a =>
          have : Except.ok (some a) = Except.ok acc1 := hstep
          injection this with h3
          rw [← h3] at h1
          injection h1 with h4
          exact Or.inl (by rw [h4])
        | none =>
          obtain ⟨b, hb, hif⟩ := except_bind_ok hstep
          injection hif with h5
          cases b with
          | true =>
            rw [← h5] at h1
            rw [if_pos rfl] at h1
            injection h1 with h6
            exact Or.inr (by rw [← h6]; exact List.mem_cons_self k2 rest)
          | false =>
            rw [← h5] at h1
            rw [if_neg (by simp)] at h1
            exact Option.noConfusion h1
      · exact Or.inr (List.mem_cons_of_mem k2 h2)
  rcases hgen ["retrieved_contexts", "contexts", "context",
      "retrieved_context"] none h with h1 | h2
  · exact Option.noConfusion h1
  · exact h2

theorem nfCtxPart_noEmpty {s : AccState} {outputs : Value}
    {kOpt : Option String} {cur : List Value}
    (hc : noEmptyStr s.contexts = true)
    (hout : outputsNoEmptyStrCtx outputs = true)
    (hk : kOpt = none ∨ ∃ k, kOpt = some k ∧
      k ∈ ["retrieved_contexts", "contexts", "context", "retrieved_context"])
    (h : nfCtxPart s outputs kOpt = .ok cur) : noEmptyStr cur = true := by
  unfold nfCtxPart at h
  rcases hk with rfl | ⟨k, rfl, hkmem⟩
  · cases outputs with
    | dict od =>
      unfold outputsNoEmptyStrCtx at hout
      rw [Bool.and_eq_true] at hout
      refine nestedFold_noEmpty od s.contexts cur hc ?_ h
      intro kv hm
      have := (List.all_eq_true.mp hout.2) kv hm
      exact this
    | null => cases h; exact hc
    | bool b => cases h; exact hc
    | int n => cases h; exact hc
    | float q => cases h; exact hc
    | str t => cases h; exact hc
    | list xs => cases h; exact hc
  · obtain ⟨v, hv, hmerge⟩ := except_bind_ok h
    cases outputs with
    | dict od =>
      have hv2 : (match dLookup od k with
          | some w => (Except.ok w : Except String Value)
          | none => Except.error "KeyError") = Except.ok v := hv
      have hlk : dLookup od k = some v := by
        cases hl : dLookup od k with
        | some w => rw [hl] at hv2; injection hv2 with h2; rw [h2]
        | none => rw [hl] at hv2; exact Except.noConfusion hv2
      unfold outputsNoEmptyStrCtx at hout
      rw [Bool.and_eq_true] at hout
      have hfo : fieldOk od k ctxStrFieldNonEmpty = true :=
        (List.all_eq_true.mp hout.1) k hkmem
      have hpv : ctxStrFieldNonEmpty v = true := by
        unfold fieldOk at hfo
        rw [hlk] at hfo
        exact hfo
      exact mergeCtxValueSet_noEmpty hc hpv hmerge
    | null => exact Except.noConfusion hv
    | bool b => exact Except.noConfusion hv
    | int n => exact Except.noConfusion hv
    | float q => exact Except.noConfusion hv
    | str t => exact Except.noConfusion hv
    | list xs => exact Except.noConfusion hv

theorem dataOutputs_noEmpty {e : List (String × Value)}
    {data : List (String × Value)}
    (hor : (pyEq (dGet e "event" .null) (.str "workflow_finished")
      || pyEq (dGet e "event" .null) (.str "node_finished")) = true)
    (hev : eventNoEmptyStrCtx (.dict e) = true)
    (hdd : dGet e "data" (.dict []) = .dict data) :
    outputsNoEmptyStrCtx (dGet data "outputs" (.dict [])) = true := by
  have hev2 : (if (pyEq (dGet e "event" .null) (.str "workflow_finished")
      || pyEq (dGet e "event" .null) (.str "node_finished")) = true then
      (match dLookup e "data" with
       | some (.dict d) => outputsNoEmptyStrCtx (dGet d "outputs" (.dict []))
       | _ => true)
    else true) = true := hev
  rw [if_pos hor] at hev2
  cases hl : dLookup e "data" with
  | some v =>
    have hvd : v = .dict data := by
      unfold dGet at hdd
      rw [hl] at hdd
      exact hdd
    rw [hl, hvd] at hev2
    exact hev2
  | none =>
    have hnil : Value.dict ([] : List (String × Value)) = .dict data := by
      unfold dGet at hdd
      rw [hl] at hdd
      exact hdd
    injection hnil with hnil2
    rw [← hnil2]
    rfl

theorem accumulate_noEmpty {s : AccState} {ev : Value} {t : Rat}
    {s1 : AccState} (hc : noEmptyStr s.contexts = true)
    (hev : eventNoEmptyStrCtx ev = true)
    (h : accumulate s ev t = .ok s1) : noEmptyStr s1.contexts = true := by
  cases ev with
  | null => exact Except.noConfusion h
  | bool b => exact Except.noConfusion h
  | int n => exact Except.noConfusion h
  | float q => exact Except.noConfusion h
  | str t2 => exact Except.noConfusion h
  | list xs => exact Except.noConfusion h
  | dict e =>
    have h2 : (if pyEq (dGet e "event" .null) (.str "message") then
        appendFragment s (dGet e "answer" (.str "")) t
      else if pyEq (dGet e "event" .null) (.str "agent_message") then
        appendFragment s (dGet e "answer" (.str "")) t
      else if pyEq (dGet e "event" .null) (.str "message_end") then
        messageEndStep s e
      else if pyEq (dGet e "event" .null) (.str "workflow_started") then
        workflowStartedStep s e
      else if pyEq (dGet e "event" .null) (.str "node_started") then
        nodeStartedStep s e
      else if pyEq (dGet e "event" .null) (.str "text_chunk") then
        textChunkStep s e t
      else if pyEq (dGet e "event" .null) (.str "workflow_finished") then
        workflowFinishedStep s e
      else if pyEq (dGet e "event" .null) (.str "node_finished") then
        nodeFinishedStep s e
      else .ok s) = .ok s1 := h
    by_cases c1 : pyEq (dGet e "event" .null) (.str "message") = true
    · rw [if_pos c1] at h2
      rw [appendFragment_ctxpres h2]
      exact hc
    · rw [if_neg c1] at h2
      by_cases c2 : pyEq (dGet e "event" .null) (.str "agent_message") = true
      · rw [if_pos c2] at h2
        rw [appendFragment_ctxpres h2]
        exact hc
      · rw [if_neg c2] at h2
        by_cases c3 : pyEq (dGet e "event" .null) (.str "message_end") = true
        · rw [if_pos c3] at h2
          rw [messageEndStep_ctxpres h2]
          exact hc
        · rw [if_neg c3] at h2
          by_cases c4 : pyEq (dGet e "event" .null)
              (.str "workflow_started") = true
          · rw [if_pos c4] at h2
            rw [workflowStartedStep_ctxpres h2]
            exact hc
          · rw [if_neg c4] at h2
            by_cases c5 : pyEq (dGet e "event" .null)
                (.str "node_started") = true
            · rw [if_pos c5] at h2
              rw [nodeStartedStep_ctxpres h2]
              exact hc
            · rw [if_neg c5] at h2
              by_cases c6 : pyEq (dGet e "event" .null)
                  (.str "text_chunk") = true
              · rw [if_pos c6] at h2
                rw [textChunkStep_ctxpres h2]
                exact hc
              · rw [if_neg c6] at h2
                by_cases c7 : pyEq (dGet e "event" .null)
                    (.str "workflow_finished") = true
                · rw [if_pos c7] at h2
                  unfold workflowFinishedStep at h2
                  obtain ⟨data, hdata, h3⟩ := except_bind_ok h2
                  obtain ⟨sx, hsx, h4⟩ := except_bind_ok h3
                  obtain ⟨sy, hsy, h5⟩ := except_bind_ok h4
                  have hdd := asDict_ok hdata
                  have hout := dataOutputs_noEmpty
                    (by rw [c7]; rfl) hev hdd
                  have hcx : noEmptyStr sy.contexts = true := by
                    rw [(wfSumNodeTokens_preserves sx data hsy).2.2.1,
                      wfTokensUpdate_ctxpres hsx]
                    exact hc
                  exact wfMergeOutputsContexts_noEmpty hcx hout h5
                · rw [if_neg c7] at h2
                  by_cases c8 : pyEq (dGet e "event" .null)
                      (.str "node_finished") = true
                  · rw [if_pos c8] at h2
                    unfold nodeFinishedStep at h2
                    obtain ⟨data, hdata, h3⟩ := except_bind_ok h2
                    obtain ⟨kOpt, hkOpt, h4⟩ := except_bind_ok h3
                    obtain ⟨cur, hcur, h5⟩ := except_bind_ok h4
                    obtain ⟨hasTC, hhtc, h6⟩ := except_bind_ok h5
                    obtain ⟨tcs, htcs, h7⟩ := except_bind_ok h6
                    obtain ⟨md, hmd, h8⟩ := except_bind_ok h7
                    cases h8
                    have hdd := asDict_ok hdata
                    have hout := dataOutputs_noEmpty
                      (by rw [c8]; simp) hev hdd
                    have hk : kOpt = none ∨ ∃ k, kOpt = some k ∧
                        k ∈ ["retrieved_contexts", "contexts", "context",
                          "retrieved_context"] := by
                      cases kOpt with
                      | none => exact Or.inl rfl
                      | some k =>
                        exact Or.inr ⟨k, rfl, findCtxKey_mem hkOpt⟩
                    exact nfCtxPart_noEmpty hc hout hk hcur
                  · rw [if_neg c8] at h2
                    cases h2
                    exact hc

theorem applyStreamEvent_noEmpty {iw : Bool} {s : AccState} {ev : Value}
    {t : Rat} {s2 : AccState} (hc : noEmptyStr s.contexts = true)
    (hev : eventNoEmptyStrCtx ev = true)
    (h : applyStreamEvent iw s ev t = .ok s2) :
    noEmptyStr s2.contexts = true := by
  unfold applyStreamEvent at h
  obtain ⟨s1, hacc, hrest⟩ := except_bind_ok h
  have hs1 := accumulate_noEmpty hc hev hacc
  cases ev with
  | dict e =>
    have hrest2 : (if (!iw && pyEq (dGet e "event" .null)
        (.str "message_end")) = true then
        extractContextsFromMessageEnd s1 e
      else Except.ok s1) = .ok s2 := hrest
    by_cases hcond : (!iw && pyEq (dGet e "event" .null)
        (.str "message_end")) = true
    · rw [if_pos hcond] at hrest2
      exact extract_noEmpty hs1 hrest2
    · rw [if_neg hcond] at hrest2
      cases hrest2
      exact hs1
  | null => cases hrest; exact hs1
  | bool b => cases hrest; exact hs1
  | int n => cases hrest; exact hs1
  | float q => cases hrest; exact hs1
  | str t2 => cases hrest; exact hs1
  | list xs => cases hrest; exact hs1

/-- C2 (amended): for every stream of events whose context-bearing string
fields are non-empty (entries of list-valued context fields may be anything:
they are truthiness-filtered), the contexts list never contains the empty
string after any sequence of event applications.  The restriction is needed:
a context field that is itself the empty string is appended verbatim. -/
theorem C2_no_empty_string (iw : Bool) (events : List (Value × Rat))
    {s2 : AccState}
    (hev : ∀ p ∈ events, eventNoEmptyStrCtx p.1 = true)
    (h : applyStreamEvents iw initAcc events = .ok s2) :
    noEmptyStr s2.contexts = true := by
  have hgen : ∀ (evs : List (Value × Rat)) (s : AccState) (sf : AccState),
      noEmptyStr s.contexts = true →
      (∀ p ∈ evs, eventNoEmptyStrCtx p.1 = true) →
      applyStreamEvents iw s evs = .ok sf → noEmptyStr sf.contexts = true := by
    intro evs
    induction evs with
    | nil =>
      intro s sf hc _ hf
      unfold applyStreamEvents at hf
      rw [List.foldlM_nil] at hf
      cases hf
      exact hc
    | cons p rest ih =>
      intro s sf hc hall hf
      unfold applyStreamEvents at hf ih
      rw [List.foldlM_cons] at hf
      obtain ⟨s1, hstep, hrest⟩ := except_bind_ok hf
      exact ih s1 sf
        (applyStreamEvent_noEmpty hc (hall p (List.mem_cons_self p rest))
          hstep)
        (fun q hq => hall q (List.mem_cons_of_mem p hq)) hrest
  exact hgen events initAcc s2 rfl hev h

/-- Witness for C2 on a node_finished event whose list-valued context field
holds a real string and an empty string: the empty entry is filtered. -/
theorem C2_no_empty_string_witness :
    (∀ p ∈ ([((.dict [("event", Value.str "node_finished"),
        ("data", Value.dict [("outputs", Value.dict [("retrieved_contexts",
          Value.list [Value.str "a", Value.str ""])])])] : Value),
        (0 : Rat))]),
      eventNoEmptyStrCtx p.1 = true) ∧
    ∃ s2, applyStreamEvents true initAcc
        [((.dict [("event", Value.str "node_finished"),
          ("data", Value.dict [("outputs", Value.dict [("retrieved_contexts",
            Value.list [Value.str "a", Value.str ""])])])] : Value),
          (0 : Rat))] = .ok s2 ∧
      noEmptyStr s2.contexts = true :=
  ⟨by decide,
    ⟨AccState.mk "" [Value.str "a"] []
      [("nodes", Value.list [Value.dict [("outputs",
        Value.dict [("retrieved_contexts",
          Value.list [Value.str "a", Value.str ""])])]])]
      none none [] (.int 0) (.int 0) (.int 0) .null .null .null,
    rfl,
    C2_no_empty_string true
      [((.dict [("event", Value.str "node_finished"),
        ("data", Value.dict [("outputs", Value.dict [("retrieved_contexts",
          Value.list [Value.str "a", Value.str ""])])])] : Value),
        (0 : Rat))] (by decide) rfl⟩⟩

/-
  Preservation of duplicate-freedom (under Python ==) of contexts.
-/

theorem listHas_false {xs : List Value} {x : Value}
    (h : listHas xs x = false) : ∀ y ∈ xs, pyEq y x = false := by
  intro y hy
  unfold listHas at h
  by_cases hp : pyEq y x = true
  · exfalso
    have : xs.any (fun y => pyEq y x) = true :=
      List.any_eq_true.mpr ⟨y, hy, hp⟩
    rw [h] at this
    exact Bool.noConfusion this
  · exact Bool.not_eq_true _ ▸ Bool.of_not_eq_true hp

theorem pyNodup_append {acc : List Value} {x : Value} (ha : pyNodup acc)
    (hx : listHas acc x = false) : pyNodup (acc ++ [x]) := by
  unfold pyNodup at ha ⊢
  rw [List.pairwise_append]
  exact ⟨ha, List.pairwise_singleton _ x,
    fun a hha b hb => by
      rw [List.mem_singleton] at hb
      rw [hb]
      exact listHas_false hx a hha⟩

theorem foldCtxSet_nodup :
    ∀ (xs acc out : List Value), pyNodup acc →
      (xs.foldlM (fun acc ctx =>
        if pyTruthy ctx then do
          let mem ← pySetMem ctx acc
          if mem then Except.ok acc else Except.ok (acc ++ [ctx])
        else Except.ok acc) acc) = .ok out → pyNodup out := by
  intro xs
  induction xs with
  | nil =>
    intro acc out ha h
    rw [List.foldlM_nil] at h
    cases h
    exact ha
  | cons x rest ih =>
    intro acc out ha h
    rw [List.foldlM_cons] at h
    obtain ⟨acc1, hstep, hrest⟩ := except_bind_ok h
    refine ih acc1 out ?_ hrest
    by_cases hpt : pyTruthy x = true
    · rw [if_pos hpt] at hstep
      obtain ⟨mem, hm, hif⟩ := except_bind_ok hstep
      have hmem : mem = listHas acc x := by
        unfold pySetMem at hm
        split at hm
        · injection hm with h2
          rw [h2]
        · exact Except.noConfusion hm
      cases hb : mem with
      | true => rw [hb, if_pos rfl] at hif; cases hif; exact ha
      | false =>
        rw [hb, if_neg (by simp)] at hif
        cases hif
        rw [hb] at hmem
        exact pyNodup_append ha hmem.symm
    · rw [if_neg hpt] at hstep
      cases hstep
      exact ha

theorem mergeCtxListSet_nodup {cur xs out : List Value}
    (hc : pyNodup cur) (h : mergeCtxListSet cur xs = .ok out) :
    pyNodup out := by
  unfold mergeCtxListSet at h
  split at h
  · exact foldCtxSet_nodup xs cur out hc h
  · exact Except.noConfusion h

theorem mergeCtxListNoSet_nodup :
    ∀ (xs cur : List Value), pyNodup cur →
      pyNodup (mergeCtxListNoSet cur xs) := by
  intro xs
  induction xs with
  | nil => intro cur hc; exact hc
  | cons x rest ih =>
    intro cur hc
    unfold mergeCtxListNoSet at ih ⊢
    rw [List.foldl_cons]
    by_cases hpt : (pyTruthy x && !listHas cur x) = true
    · rw [if_pos hpt]
      have hmem : listHas cur x = false := by
        have := Bool.and_elim_right hpt
        cases hb : listHas cur x with
        | false => rfl
        | true => rw [hb] at this; exact Bool.noConfusion this
      exact ih _ (pyNodup_append hc hmem)
    · rw [if_neg hpt]
      exact ih _ hc

theorem mergeCtxValueSet_nodup {cur : List Value} {v : Value}
    {out : List Value} (hc : pyNodup cur)
    (h : mergeCtxValueSet cur v = .ok out) : pyNodup out := by
  unfold mergeCtxValueSet at h
  cases v with
  | list xs => exact mergeCtxListSet_nodup hc h
  | str t =>
    have h2 : Except.ok
        (if (!listHas cur (.str t)) = true then cur ++ [.str t] else cur)
        = Except.ok out := h
    by_cases hmem : (!listHas cur (.str t)) = true
    · rw [if_pos hmem] at h2
      cases h2
      refine pyNodup_append hc ?_
      cases hb : listHas cur (.str t) with
      | false => rfl
      | true => rw [hb] at hmem; simp at hmem
    · rw [if_neg hmem] at h2
      cases h2
      exact hc
  | null => cases h; exact hc
  | bool b => cases h; exact hc
  | int n => cases h; exact hc
  | float q => cases h; exact hc
  | dict d => cases h; exact hc

theorem wfSecondaryStep_nodup (od : List (String × Value)) (cur : List Value)
    (key : String) (hc : pyNodup cur) :
    pyNodup (if od.any (fun p => p.1 == key)
        && key != "retrieved_contexts" then
      match dGet od key .null with
      | .list xs => mergeCtxListNoSet cur xs
      | .str t => if !listHas cur (.str t) then cur ++ [.str t] else cur
      | _ => cur
    else cur) := by
  by_cases hcond : (od.any (fun p => p.1 == key)
      && key != "retrieved_contexts") = true
  · rw [if_pos hcond]
    cases hv : dGet od key .null with
    | list xs => exact mergeCtxListNoSet_nodup xs cur hc
    | str t =>
      show pyNodup (if (!listHas cur (.str t)) = true
        then cur ++ [.str t] else cur)
      by_cases hmem : (!listHas cur (.str t)) = true
      · rw [if_pos hmem]
        refine pyNodup_append hc ?_
        cases hb : listHas cur (.str t) with
        | false => rfl
        | true => rw [hb] at hmem; simp at hmem
      · rw [if_neg hmem]
        exact hc
    | null => exact hc
    | bool b => exact hc
    | int n => exact hc
    | float q => exact hc
    | dict d => exact hc
  · rw [if_neg hcond]
    exact hc

theorem wfSecondaryCtxFold_nodup (od : List (String × Value))
    (cur : List Value) (hc : pyNodup cur) :
    pyNodup (wfSecondaryCtxFold od cur) := by
  unfold wfSecondaryCtxFold
  rw [List.foldl_cons, List.foldl_cons, List.foldl_cons, List.foldl_nil]
  exact wfSecondaryStep_nodup od _ "retrieved_context"
    (wfSecondaryStep_nodup od _ "context"
      (wfSecondaryStep_nodup od _ "contexts" hc))

theorem nestedMergeOne_nodup {cur out : List Value} {v : Value}
    (hc : pyNodup cur) (h : nestedMergeOne cur v = .ok out) :
    pyNodup out := by
  unfold nestedMergeOne at h
  cases v with
  | dict vd =>
    have h2 : (if vd.any (fun p => p.1 == "retrieved_contexts") then
        mergeCtxValueSet cur (dGet vd "retrieved_contexts" .null)
      else Except.ok cur) = Except.ok out := h
    by_cases hcond : (vd.any (fun p => p.1 == "retrieved_contexts")) = true
    · rw [if_pos hcond] at h2
      exact mergeCtxValueSet_nodup hc h2
    · rw [if_neg hcond] at h2
      cases h2
      exact hc
  | null => cases h; exact hc
  | bool b => cases h; exact hc
  | int n => cases h; exact hc
  | float q => cases h; exact hc
  | str t => cases h; exact hc
  | list xs => cases h; exact hc

theorem nestedFold_nodup :
    ∀ (od : List (String × Value)) (cur out : List Value), pyNodup cur →
      (od.foldlM (fun cur kv => nestedMergeOne cur kv.2) cur) = .ok out →
      pyNodup out := by
  intro od
  induction od with
  | nil =>
    intro cur out hc h
    rw [List.foldlM_nil] at h
    cases h
    exact hc
  | cons kv rest ih =>
    intro cur out hc h
    rw [List.foldlM_cons] at h
    obtain ⟨cur1, hstep, hrest⟩ := except_bind_ok h
    exact ih cur1 out (nestedMergeOne_nodup hc hstep) hrest

theorem nfCtxPart_nodup {s : AccState} {outputs : Value}
    {kOpt : Option String} {cur : List Value} (hc : pyNodup s.contexts)
    (h : nfCtxPart s outputs kOpt = .ok cur) : pyNodup cur := by
  unfold nfCtxPart at h
  cases kOpt with
  | some k =>
    obtain ⟨v, hv, hmerge⟩ := except_bind_ok h
    exact mergeCtxValueSet_nodup hc hmerge
  | none =>
    cases outputs with
    | dict od => exact nestedFold_nodup od s.contexts cur hc h
    | null => cases h; exact hc
    | bool b => cases h; exact hc
    | int n => cases h; exact hc
    | float q => cases h; exact hc
    | str t => cases h; exact hc
    | list xs => cases h; exact hc

theorem wfMergeOutputsContexts_nodup {s : AccState}
    {data : List (String × Value)} {s2 : AccState} (hc : pyNodup s.contexts)
    (h : wfMergeOutputsContexts s data = .ok s2) : pyNodup s2.contexts := by
  unfold wfMergeOutputsContexts at h
  split at h
  · rename_i od hod
    obtain ⟨cur, hcur, h⟩ := except_bind_ok h
    cases h
    have hcur2 : pyNodup cur := by
      by_cases hcond : (od.any
          (fun p => p.1 == "retrieved_contexts")) = true
      · rw [if_pos hcond] at hcur
        exact mergeCtxValueSet_nodup hc hcur
      · rw [if_neg hcond] at hcur
        cases hcur
        exact hc
    exact wfSecondaryCtxFold_nodup od cur hcur2
  · cases h
    exact hc

theorem isStrV_str {v : Value} (h : isStrV v = true) : ∃ c, v = .str c := by
  cases v with
  | str c => exact ⟨c, rfl⟩
  | null => exact Bool.noConfusion h
  | bool b => exact Bool.noConfusion h
  | int n => exact Bool.noConfusion h
  | float q => exact Bool.noConfusion h
  | list xs => exact Bool.noConfusion h
  | dict d => exact Bool.noConfusion h

theorem meContent_wf {rd : List (String × Value)}
    (hwf : resourceStrWF (.dict rd) = true)
    (ht : pyTruthy (meContent rd) = true) : ∃ c, meContent rd = .str c := by
  have hwf2 : (fieldOk rd "content" (fun v => !pyTruthy v || isStrV v) &&
      fieldOk rd "chunk_content" (fun v => !pyTruthy v || isStrV v))
      = true := hwf
  unfold meContent at ht ⊢
  by_cases hcnt : pyTruthy (dGet rd "content" .null) = true
  · rw [if_pos hcnt] at ht ⊢
    have hp : (!pyTruthy (dGet rd "content" .null)
        || isStrV (dGet rd "content" .null)) = true :=
      fieldOk_dGet (Bool.and_elim_left hwf2) rfl
    rw [ht] at hp
    exact isStrV_str (by simpa using hp)
  · rw [if_neg hcnt] at ht ⊢
    have hp : (!pyTruthy (dGet rd "chunk_content" .null)
        || isStrV (dGet rd "chunk_content" .null)) = true :=
      fieldOk_dGet (Bool.and_elim_right hwf2) rfl
    rw [ht] at hp
    exact isStrV_str (by simpa using hp)

theorem meStep_guard_false {cur : List Value} {v : Value}
    (hf : pyTruthy v = false) :
    (if (pyTruthy v && !listHas cur v) = true
      then cur ++ [Value.str (pyStr v)] else cur) = cur := by
  rw [hf]
  rfl

theorem meResourceStep_nodup {cur : List Value} {r : Value}
    (hwf : resourceStrWF r = true) (hc : pyNodup cur) :
    pyNodup (meResourceStep cur r) := by
  unfold meResourceStep
  cases r with
  | dict rd =>
    show pyNodup (if (pyTruthy (meContent rd)
        && !listHas cur (meContent rd)) = true
      then cur ++ [.str (pyStr (meContent rd))] else cur)
    by_cases hcond : (pyTruthy (meContent rd)
        && !listHas cur (meContent rd)) = true
    · rw [if_pos hcond]
      obtain ⟨c, hcv⟩ := meContent_wf hwf (Bool.and_elim_left hcond)
      have hmem : listHas cur (meContent rd) = false := by
        have := Bool.and_elim_right hcond
        cases hb : listHas cur (meContent rd) with
        | false => rfl
        | true => rw [hb] at this; exact Bool.noConfusion this
      rw [hcv] at hmem ⊢
      show pyNodup (cur ++ [Value.str c])
      exact pyNodup_append hc hmem
    · rw [if_neg hcond]
      exact hc
  | str t =>
    show pyNodup (if (pyTruthy (Value.str t)
        && !listHas cur (Value.str t)) = true
      then cur ++ [.str (pyStr (Value.str t))] else cur)
    by_cases hcond : (pyTruthy (Value.str t)
        && !listHas cur (Value.str t)) = true
    · rw [if_pos hcond]
      have hmem : listHas cur (Value.str t) = false := by
        have := Bool.and_elim_right hcond
        cases hb : listHas cur (Value.str t) with
        | false => rfl
        | true => rw [hb] at this; exact Bool.noConfusion this
      show pyNodup (cur ++ [Value.str t])
      exact pyNodup_append hc hmem
    · rw [if_neg hcond]
      exact hc
  | null =>
    show pyNodup (if (pyTruthy Value.null && !listHas cur Value.null) = true
      then cur ++ [Value.str (pyStr Value.null)] else cur)
    rw [meStep_guard_false (by
      have h2 : (!pyTruthy Value.null) = true := hwf
      simpa using h2)]
    exact hc
  | bool b =>
    show pyNodup (if (pyTruthy (Value.bool b)
        && !listHas cur (Value.bool b)) = true
      then cur ++ [Value.str (pyStr (Value.bool b))] else cur)
    rw [meStep_guard_false (by
      have h2 : (!pyTruthy (Value.bool b)) = true := hwf
      simpa using h2)]
    exact hc
  | int n =>
    show pyNodup (if (pyTruthy (Value.int n)
        && !listHas cur (Value.int n)) = true
      then cur ++ [Value.str (pyStr (Value.int n))] else cur)
    rw [meStep_guard_false (by
      have h2 : (!pyTruthy (Value.int n)) = true := hwf
      simpa using h2)]
    exact hc
  | float q =>
    show pyNodup (if (pyTruthy (Value.float q)
        && !listHas cur (Value.float q)) = true
      then cur ++ [Value.str (pyStr (Value.float q))] else cur)
    rw [meStep_guard_false (by
      have h2 : (!pyTruthy (Value.float q)) = true := hwf
      simpa using h2)]
    exact hc
  | list xs =>
    show pyNodup (if (pyTruthy (Value.list xs)
        && !listHas cur (Value.list xs)) = true
      then cur ++ [Value.str (pyStr (Value.list xs))] else cur)
    rw [meStep_guard_false (by
      have h2 : (!pyTruthy (Value.list xs)) = true := hwf
      simpa using h2)]
    exact hc

theorem meFold_nodup :
    ∀ (xs cur : List Value), xs.all resourceStrWF = true → pyNodup cur →
      pyNodup (xs.foldl meResourceStep cur) := by
  intro xs
  induction xs with
  | nil => intro cur _ hc; exact hc
  | cons x rest ih =>
    intro cur hall hc
    rw [List.all_cons] at hall
    rw [List.foldl_cons]
    exact ih _ (Bool.and_elim_right hall)
      (meResourceStep_nodup (Bool.and_elim_left hall) hc)

theorem extract_nodup {s : AccState} {e : List (String × Value)}
    {s2 : AccState}
    (hev : eventResourcesStr (.dict e) = true)
    (hme : pyEq (dGet e "event" .null) (.str "message_end") = true)
    (hc : pyNodup s.contexts)
    (h : extractContextsFromMessageEnd s e = .ok s2) :
    pyNodup s2.contexts := by
  unfold extractContextsFromMessageEnd at h
  obtain ⟨rr, hrr, h2⟩ := except_bind_ok h
  cases rr with
  | list xs =>
    cases h2
    refine meFold_nodup xs s.contexts ?_ hc
    have hev2 : (if pyEq (dGet e "event" .null) (.str "message_end") then
        match dLookup e "metadata" with
        | some (.dict m) =>
          match dLookup m "retriever_resources" with
          | some (.list ys) => ys.all resourceStrWF
          | _ => true
        | _ => true
      else true) = true := hev
    rw [if_pos hme] at hev2
    cases hm : dLookup e "metadata" with
    | none =>
      have hget : dGet e "metadata" (.dict []) = .dict [] := by
        unfold dGet
        rw [hm]
      rw [hget] at hrr
      have hrr2 : Except.ok (Value.list []) = Except.ok (Value.list xs) := hrr
      injection hrr2 with h3
      injection h3 with h4
      rw [← h4]
      rfl
    | some v =>
      have hget : dGet e "metadata" (.dict []) = v := by
        unfold dGet
        rw [hm]
      rw [hget] at hrr
      cases v with
      | dict m =>
        have hrr2 : Except.ok (dGet m "retriever_resources" (.list []))
            = Except.ok (Value.list xs) := hrr
        injection hrr2 with h3
        rw [hm] at hev2
        have hev3 : (match dLookup m "retriever_resources" with
            | some (Value.list ys) => ys.all resourceStrWF
            | _ => true) = true := hev2
        cases hw : dLookup m "retriever_resources" with
        | none =>
          have hget2 : dGet m "retriever_resources" (.list [])
              = .list [] := by
            unfold dGet
            rw [hw]
          rw [hget2] at h3
          injection h3 with h4
          rw [← h4]
          rfl
        | some w =>
          have hget2 : dGet m "retriever_resources" (.list []) = w := by
            unfold dGet
            rw [hw]
          rw [hget2] at h3
          rw [hw, h3] at hev3
          exact hev3
      | null => exact Except.noConfusion hrr
      | bool b => exact Except.noConfusion hrr
      | int n => exact Except.noConfusion hrr
      | float q => exact Except.noConfusion hrr
      | str t => exact Except.noConfusion hrr
      | list ys => exact Except.noConfusion hrr
  | null => cases h2; exact hc
  | bool b => cases h2; exact hc
  | int n => cases h2; exact hc
  | float q => cases h2; exact hc
  | str t => cases h2; exact hc
  | dict d => cases h2; exact hc

theorem accumulate_nodup {s : AccState} {ev : Value} {t : Rat}
    {s1 : AccState} (hc : pyNodup s.contexts)
    (h : accumulate s ev t = .ok s1) : pyNodup s1.contexts := by
  cases ev with
  | null => exact Except.noConfusion h
  | bool b => exact Except.noConfusion h
  | int n => exact Except.noConfusion h
  | float q => exact Except.noConfusion h
  | str t2 => exact Except.noConfusion h
  | list xs => exact Except.noConfusion h
  | dict e =>
    have h2 : (if pyEq (dGet e "event" .null) (.str "message") then
        appendFragment s (dGet e "answer" (.str "")) t
      else if pyEq (dGet e "event" .null) (.str "agent_message") then
        appendFragment s (dGet e "answer" (.str "")) t
      else if pyEq (dGet e "event" .null) (.str "message_end") then
        messageEndStep s e
      else if pyEq (dGet e "event" .null) (.str "workflow_started") then
        workflowStartedStep s e
      else if pyEq (dGet e "event" .null) (.str "node_started") then
        nodeStartedStep s e
      else if pyEq (dGet e "event" .null) (.str "text_chunk") then
        textChunkStep s e t
      else if pyEq (dGet e "event" .null) (.str "workflow_finished") then
        workflowFinishedStep s e
      else if pyEq (dGet e "event" .null) (.str "node_finished") then
        nodeFinishedStep s e
      else .ok s) = .ok s1 := h
    by_cases c1 : pyEq (dGet e "event" .null) (.str "message") = true
    · rw [if_pos c1] at h2
      rw [appendFragment_ctxpres h2]
      exact hc
    · rw [if_neg c1] at h2
      by_cases c2 : pyEq (dGet e "event" .null) (.str "agent_message") = true
      · rw [if_pos c2] at h2
        rw [appendFragment_ctxpres h2]
        exact hc
      · rw [if_neg c2] at h2
        by_cases c3 : pyEq (dGet e "event" .null) (.str "message_end") = true
        · rw [if_pos c3] at h2
          rw [messageEndStep_ctxpres h2]
          exact hc
        · rw [if_neg c3] at h2
          by_cases c4 : pyEq (dGet e "event" .null)
              (.str "workflow_started") = true
          · rw [if_pos c4] at h2
            rw [workflowStartedStep_ctxpres h2]
            exact hc
          · rw [if_neg c4] at h2
            by_cases c5 : pyEq (dGet e "event" .null)
                (.str "node_started") = true
            · rw [if_pos c5] at h2
              rw [nodeStartedStep_ctxpres h2]
              exact hc
            · rw [if_neg c5] at h2
              by_cases c6 : pyEq (dGet e "event" .null)
                  (.str "text_chunk") = true
              · rw [if_pos c6] at h2
                rw [textChunkStep_ctxpres h2]
                exact hc
              · rw [if_neg c6] at h2
                by_cases c7 : pyEq (dGet e "event" .null)
                    (.str "workflow_finished") = true
                · rw [if_pos c7] at h2
                  unfold workflowFinishedStep at h2
                  obtain ⟨data, hdata, h3⟩ := except_bind_ok h2
                  obtain ⟨sx, hsx, h4⟩ := except_bind_ok h3
                  obtain ⟨sy, hsy, h5⟩ := except_bind_ok h4
                  have hcx : pyNodup sy.contexts := by
                    rw [(wfSumNodeTokens_preserves sx data hsy).2.2.1,
                      wfTokensUpdate_ctxpres hsx]
                    exact hc
                  exact wfMergeOutputsContexts_nodup hcx h5
                · rw [if_neg c7] at h2
                  by_cases c8 : pyEq (dGet e "event" .null)
                      (.str "node_finished") = true
                  · rw [if_pos c8] at h2
                    unfold nodeFinishedStep at h2
                    obtain ⟨data, hdata, h3⟩ := except_bind_ok h2
                    obtain ⟨kOpt, hkOpt, h4⟩ := except_bind_ok h3
                    obtain ⟨cur, hcur, h5⟩ := except_bind_ok h4
                    obtain ⟨hasTC, hhtc, h6⟩ := except_bind_ok h5
                    obtain ⟨tcs, htcs, h7⟩ := except_bind_ok h6
                    obtain ⟨md, hmd, h8⟩ := except_bind_ok h7
                    cases h8
                    exact nfCtxPart_nodup hc hcur
                  · rw [if_neg c8] at h2
                    cases h2
                    exact hc

theorem applyStreamEvent_nodup {iw : Bool} {s : AccState} {ev : Value}
    {t : Rat} {s2 : AccState} (hc : pyNodup s.contexts)
    (hev : eventResourcesStr ev = true)
    (h : applyStreamEvent iw s ev t = .ok s2) : pyNodup s2.contexts := by
  unfold applyStreamEvent at h
  obtain ⟨s1, hacc, hrest⟩ := except_bind_ok h
  have hs1 := accumulate_nodup hc hacc
  cases ev with
  | dict e =>
    have hrest2 : (if (!iw && pyEq (dGet e "event" .null)
        (.str "message_end")) = true then
        extractContextsFromMessageEnd s1 e
      else Except.ok s1) = .ok s2 := hrest
    by_cases hcond : (!iw && pyEq (dGet e "event" .null)
        (.str "message_end")) = true
    · rw [if_pos hcond] at hrest2
      exact extract_nodup hev (Bool.and_elim_right hcond) hs1 hrest2
    · rw [if_neg hcond] at hrest2
      cases hrest2
      exact hs1
  | null => cases hrest; exact hs1
  | bool b => cases hrest; exact hs1
  | int n => cases hrest; exact hs1
  | float q => cases hrest; exact hs1
  | str t2 => cases hrest; exact hs1
  | list xs => cases hrest; exact hs1

/-- C6 (amended): the context list stays duplicate-free under Python
equality across any stream of events — the set-membership guard before every
append makes re-merging an already-present context value a no-op — provided
the retriever resources of message_end events are string-shaped (a dict
resource with string or absent content/chunk_content, or a plain string).
The proviso is needed: for a non-string resource the membership test uses
the raw value while the append stores its str() rendering, so a repeated
non-string resource is appended repeatedly. -/
theorem C6_context_dedup (iw : Bool) (events : List (Value × Rat))
    {s2 : AccState}
    (hev : ∀ p ∈ events, eventResourcesStr p.1 = true)
    (h : applyStreamEvents iw initAcc events = .ok s2) :
    pyNodup s2.contexts := by
  have hgen : ∀ (evs : List (Value × Rat)) (s : AccState) (sf : AccState),
      pyNodup s.contexts →
      (∀ p ∈ evs, eventResourcesStr p.1 = true) →
      applyStreamEvents iw s evs = .ok sf → pyNodup sf.contexts := by
    intro evs
    induction evs with
    | nil =>
      intro s sf hc _ hf
      unfold applyStreamEvents at hf
      rw [List.foldlM_nil] at hf
      cases hf
      exact hc
    | cons p rest ih =>
      intro s sf hc hall hf
      unfold applyStreamEvents at hf ih
      rw [List.foldlM_cons] at hf
      obtain ⟨s1, hstep, hrest⟩ := except_bind_ok hf
      exact ih s1 sf
        (applyStreamEvent_nodup hc (hall p (List.mem_cons_self p rest))
          hstep)
        (fun q hq => hall q (List.mem_cons_of_mem p hq)) hrest
  exact hgen events initAcc s2 List.Pairwise.nil hev h

/-- Witness for C6 on a node_finished event whose list-valued context field
repeats the same string: the duplicate is dropped by the membership guard. -/
theorem C6_context_dedup_witness :
    (∀ p ∈ ([((.dict [("event", Value.str "node_finished"),
        ("data", Value.dict [("outputs", Value.dict [("retrieved_contexts",
          Value.list [Value.str "a", Value.str "a"])])])] : Value),
        (0 : Rat))]),
      eventResourcesStr p.1 = true) ∧
    ∃ s2, applyStreamEvents true initAcc
        [((.dict [("event", Value.str "node_finished"),
          ("data", Value.dict [("outputs", Value.dict [("retrieved_contexts",
            Value.list [Value.str "a", Value.str "a"])])])] : Value),
          (0 : Rat))] = .ok s2 ∧
      pyNodup s2.contexts :=
  ⟨by decide,
    ⟨AccState.mk "" [Value.str "a"] []
      [("nodes", Value.list [Value.dict [("outputs",
        Value.dict [("retrieved_contexts",
          Value.list [Value.str "a", Value.str "a"])])]])]
      none none [] (.int 0) (.int 0) (.int 0) .null .null .null,
    rfl,
    C6_context_dedup true
      [((.dict [("event", Value.str "node_finished"),
        ("data", Value.dict [("outputs", Value.dict [("retrieved_contexts",
          Value.list [Value.str "a", Value.str "a"])])])] : Value),
        (0 : Rat))] (by decide) rfl⟩⟩

/-
  Well-shapedness implies success: helper lemmas for the no-raise claim.
-/

theorem except_ok_bind {α β : Type} (a : α) (f : α → Except String β) :
    (Except.ok a >>= f : Except String β) = f a := rfl

theorem fieldOk_lookup {d : List (String × Value)} {k : String}
    {p : Value → Bool} {v : Value} (h : fieldOk d k p = true)
    (hl : dLookup d k = some v) : p v = true := by
  unfold fieldOk at h
  rw [hl] at h
  exact h

theorem isDictV_dict {v : Value} (h : isDictV v = true) :
    ∃ d, v = .dict d := by
  cases v with
  | dict d => exact ⟨d, rfl⟩
  | null => exact Bool.noConfusion h
  | bool b => exact Bool.noConfusion h
  | int n => exact Bool.noConfusion h
  | float q => exact Bool.noConfusion h
  | str t => exact Bool.noConfusion h
  | list xs => exact Bool.noConfusion h

theorem isListV_list {v : Value} (h : isListV v = true) :
    ∃ xs, v = .list xs := by
  cases v with
  | list xs => exact ⟨xs, rfl⟩
  | null => exact Bool.noConfusion h
  | bool b => exact Bool.noConfusion h
  | int n => exact Bool.noConfusion h
  | float q => exact Bool.noConfusion h
  | str t => exact Bool.noConfusion h
  | dict d => exact Bool.noConfusion h

theorem usageFieldsNum_dict {u : Value} (h : usageFieldsNum u = true) :
    ∃ ud, u = .dict ud ∧ fieldOk ud "prompt_tokens" isNumV = true ∧
      fieldOk ud "completion_tokens" isNumV = true := by
  cases u with
  | dict ud =>
    have h2 : (fieldOk ud "prompt_tokens" isNumV &&
        fieldOk ud "completion_tokens" isNumV) = true := h
    exact ⟨ud, rfl, Bool.and_elim_left h2, Bool.and_elim_right h2⟩
  | null => exact Bool.noConfusion h
  | bool b => exact Bool.noConfusion h
  | int n => exact Bool.noConfusion h
  | float q => exact Bool.noConfusion h
  | str t => exact Bool.noConfusion h
  | list xs => exact Bool.noConfusion h

theorem pyAdd_num {a b : Value} (ha : isNumV a = true) (hb : isNumV b = true) :
    ∃ c, pyAdd a b = .ok c ∧ isNumV c = true := by
  cases a with
  | bool ab =>
    cases b with
    | bool bb => exact ⟨_, rfl, rfl⟩
    | int bn => exact ⟨_, rfl, rfl⟩
    | float bq => exact ⟨_, rfl, rfl⟩
    | null => exact Bool.noConfusion hb
    | str t => exact Bool.noConfusion hb
    | list xs => exact Bool.noConfusion hb
    | dict d => exact Bool.noConfusion hb
  | int an =>
    cases b with
    | bool bb => exact ⟨_, rfl, rfl⟩
    | int bn => exact ⟨_, rfl, rfl⟩
    | float bq => exact ⟨_, rfl, rfl⟩
    | null => exact Bool.noConfusion hb
    | str t => exact Bool.noConfusion hb
    | list xs => exact Bool.noConfusion hb
    | dict d => exact Bool.noConfusion hb
  | float aq =>
    cases b with
    | bool bb => exact ⟨_, rfl, rfl⟩
    | int bn => exact ⟨_, rfl, rfl⟩
    | float bq => exact ⟨_, rfl, rfl⟩
    | null => exact Bool.noConfusion hb
    | str t => exact Bool.noConfusion hb
    | list xs => exact Bool.noConfusion hb
    | dict d => exact Bool.noConfusion hb
  | null => exact Bool.noConfusion ha
  | str t => exact Bool.noConfusion ha
  | list xs => exact Bool.noConfusion ha
  | dict d => exact Bool.noConfusion ha

theorem pyGtZero_num {v : Value} (h : isNumV v = true) :
    ∃ b, pyGtZero v = .ok b := by
  cases v with
  | bool b => exact ⟨b, rfl⟩
  | int n => exact ⟨_, rfl⟩
  | float q => exact ⟨_, rfl⟩
  | null => exact Bool.noConfusion h
  | str t => exact Bool.noConfusion h
  | list xs => exact Bool.noConfusion h
  | dict d => exact Bool.noConfusion h

theorem any_key_lookup {d : List (String × Value)} {k : String}
    (h : d.any (fun p => p.1 == k) = true) : ∃ w, dLookup d k = some w := by
  unfold dLookup
  cases hf : d.find? (fun q => q.1 == k) with
  | some p => exact ⟨p.2, rfl⟩
  | none =>
    exfalso
    obtain ⟨p, hp, hpk⟩ := List.any_eq_true.mp h
    exact List.find?_eq_none.mp hf p hp hpk

theorem pyEq_str_ne {v : Value} {a b : String}
    (h : pyEq v (.str a) = true) (hne : (a == b) = false) :
    pyEq v (.str b) = false := by
  cases v with
  | str s =>
    have h2 : (s == a) = true := h
    show (s == b) = false
    rw [eq_of_beq h2]
    exact hne
  | null => exact Bool.noConfusion h
  | bool x => exact Bool.noConfusion h
  | int x => exact Bool.noConfusion h
  | float x => exact Bool.noConfusion h
  | list xs => exact Bool.noConfusion h
  | dict d => exact Bool.noConfusion h

theorem stateWF_parts {s : AccState} (hs : stateWF s = true) :
    s.contexts.all isStrV = true ∧
    fieldOk s.metadata "workflow" isDictV = true ∧
    fieldOk s.metadata "nodes_started" isListV = true ∧
    fieldOk s.metadata "nodes" isListV = true ∧
    isNumV s.input_tokens = true ∧ isNumV s.output_tokens = true := by
  unfold stateWF at hs
  simp only [Bool.and_eq_true] at hs
  exact ⟨hs.1.1.1.1.1, hs.1.1.1.1.2, hs.1.1.1.2, hs.1.1.2, hs.1.2, hs.2⟩

theorem stateWF_mk {s : AccState}
    (h1 : s.contexts.all isStrV = true)
    (h2 : fieldOk s.metadata "workflow" isDictV = true)
    (h3 : fieldOk s.metadata "nodes_started" isListV = true)
    (h4 : fieldOk s.metadata "nodes" isListV = true)
    (h5 : isNumV s.input_tokens = true)
    (h6 : isNumV s.output_tokens = true) : stateWF s = true := by
  unfold stateWF
  simp only [Bool.and_eq_true]
  exact ⟨⟨⟨⟨⟨h1, h2⟩, h3⟩, h4⟩, h5⟩, h6⟩

theorem mergedMetaWF_parts {m : List (String × Value)}
    (h : mergedMetaWF m = true) :
    allKey m "workflow" isDictV = true ∧
    allKey m "nodes_started" isListV = true ∧
    allKey m "nodes" isListV = true := by
  unfold mergedMetaWF at h
  simp only [Bool.and_eq_true] at h
  exact ⟨h.1.1, h.1.2, h.2⟩

theorem metaUpdate_wf {md m : List (String × Value)}
    (hm : mergedMetaWF m = true)
    (h2 : fieldOk md "workflow" isDictV = true)
    (h3 : fieldOk md "nodes_started" isListV = true)
    (h4 : fieldOk md "nodes" isListV = true) :
    fieldOk (dUpdate md m) "workflow" isDictV = true ∧
    fieldOk (dUpdate md m) "nodes_started" isListV = true ∧
    fieldOk (dUpdate md m) "nodes" isListV = true := by
  obtain ⟨ha, hb, hc⟩ := mergedMetaWF_parts hm
  exact ⟨fieldOk_dUpdate ha h2, fieldOk_dUpdate hb h3, fieldOk_dUpdate hc h4⟩

theorem setdefaultUpdate_meta (upd : List (String × Value))
    {md : List (String × Value)} {key : String}
    (hk : fieldOk md key isDictV = true) :
    ∃ md2, setdefaultUpdate md key upd = .ok md2 ∧
      (∀ (k : String) (p : Value → Bool), fieldOk md k p = true →
        (∀ d, p (.dict d) = true) → fieldOk md2 k p = true) ∧
      (∀ (k : String) (p : Value → Bool), k ≠ key →
        fieldOk md k p = true → fieldOk md2 k p = true) := by
  unfold setdefaultUpdate
  cases hl : dLookup md key with
  | some v =>
    obtain ⟨w, rfl⟩ := isDictV_dict (fieldOk_lookup hk hl)
    refine ⟨_, rfl, ?_, ?_⟩
    · intro k p hb hdict
      exact fieldOk_dSet hb (fun _ => hdict _)
    · intro k p hne hb
      exact fieldOk_dSet hb (fun hkk => absurd hkk hne)
  | none =>
    refine ⟨_, rfl, ?_, ?_⟩
    · intro k p hb hdict
      exact fieldOk_dSet hb (fun _ => hdict _)
    · intro k p hne hb
      exact fieldOk_dSet hb (fun hkk => absurd hkk hne)

theorem setdefaultAppend_meta (v : Value)
    {md : List (String × Value)} {key : String}
    (hk : fieldOk md key isListV = true) :
    ∃ md2, setdefaultAppend md key v = .ok md2 ∧
      (∀ (k : String) (p : Value → Bool), fieldOk md k p = true →
        (∀ xs, p (.list xs) = true) → fieldOk md2 k p = true) ∧
      (∀ (k : String) (p : Value → Bool), k ≠ key →
        fieldOk md k p = true → fieldOk md2 k p = true) := by
  unfold setdefaultAppend
  cases hl : dLookup md key with
  | some w =>
    obtain ⟨xs, rfl⟩ := isListV_list (fieldOk_lookup hk hl)
    refine ⟨_, rfl, ?_, ?_⟩
    · intro k p hb hlist
      exact fieldOk_dSet hb (fun _ => hlist _)
    · intro k p hne hb
      exact fieldOk_dSet hb (fun hkk => absurd hkk hne)
  | none =>
    refine ⟨_, rfl, ?_, ?_⟩
    · intro k p hb hlist
      exact fieldOk_dSet hb (fun _ => hlist _)
    · intro k p hne hb
      exact fieldOk_dSet hb (fun hkk => absurd hkk hne)

theorem asDict_dGet_ok {e : List (String × Value)} {k : String}
    (h : fieldOk e k isDictV = true) :
    ∃ d, dGet e k (.dict []) = .dict d ∧
      asDict (dGet e k (.dict [])) = .ok d := by
  unfold dGet
  cases hl : dLookup e k with
  | some v =>
    obtain ⟨d, rfl⟩ := isDictV_dict (fieldOk_lookup h hl)
    exact ⟨d, rfl, rfl⟩
  | none => exact ⟨[], rfl, rfl⟩

theorem appendFragment_wf {s : AccState} {c : Value} {t : Rat}
    (hs : stateWF s = true) (hf : fragFieldWF c = true) :
    ∃ s1, appendFragment s c t = .ok s1 ∧ stateWF s1 = true := by
  unfold appendFragment
  by_cases ht : pyTruthy c = true
  · have hstr : isStrV c = true := by
      have h2 : (!pyTruthy c || isStrV c) = true := hf
      rw [ht] at h2
      simpa using h2
    obtain ⟨cs, rfl⟩ := isStrV_str hstr
    rw [if_pos ht]
    exact ⟨_, rfl, hs⟩
  · rw [if_neg ht]
    exact ⟨s, rfl, hs⟩

theorem messageEndStep_wf {s : AccState} {e : List (String × Value)}
    (hs : stateWF s = true) (he : messageEndWF e = true) :
    ∃ s1, messageEndStep s e = .ok s1 ∧ stateWF s1 = true := by
  obtain ⟨hctx, hw, hns, hn, hin, hout⟩ := stateWF_parts hs
  have he2 : (match dLookup e "metadata" with
      | some (.dict m) => mergedMetaWF m && fieldOk m "usage" meUsageWF
      | some _ => false
      | none => true) = true := he
  unfold messageEndStep
  cases hm : dLookup e "metadata" with
  | none =>
    have hget : dGet e "metadata" (.dict []) = .dict [] := by
      unfold dGet
      rw [hm]
    rw [hget]
    exact ⟨_, rfl, hs⟩
  | some v =>
    have hget : dGet e "metadata" (.dict []) = v := by
      unfold dGet
      rw [hm]
    rw [hget]
    rw [hm] at he2
    cases v with
    | dict m =>
      have he3 : (mergedMetaWF m && fieldOk m "usage" meUsageWF)
          = true := he2
      obtain ⟨hw2, hns2, hn2⟩ := metaUpdate_wf (Bool.and_elim_left he3)
        hw hns hn
      show ∃ s1, (if pyTruthy (dGet m "usage" (.dict [])) then
          match dGet m "usage" (.dict []) with
          | .dict u =>
            Except.ok { s with
              metadata := dUpdate s.metadata m
              total_tokens := dGet u "total_tokens" (.int 0)
              input_tokens := dGet u "prompt_tokens" (.int 0)
              output_tokens := dGet u "completion_tokens" (.int 0) }
          | _ => Except.error "AttributeError"
        else Except.ok { s with metadata := dUpdate s.metadata m })
          = .ok s1 ∧ stateWF s1 = true
      by_cases hu : pyTruthy (dGet m "usage" (.dict [])) = true
      · rw [if_pos hu]
        cases hus : dLookup m "usage" with
        | none =>
          exfalso
          have hgu : dGet m "usage" (.dict []) = .dict [] := by
            unfold dGet
            rw [hus]
          rw [hgu] at hu
          exact Bool.noConfusion hu
        | some u =>
          have hgu : dGet m "usage" (.dict []) = u := by
            unfold dGet
            rw [hus]
          rw [hgu] at hu ⊢
          have humwf : meUsageWF u = true :=
            fieldOk_lookup (Bool.and_elim_right he3) hus
          have husage : usageFieldsNum u = true := by
            have h4 : (!pyTruthy u || usageFieldsNum u) = true := humwf
            rw [hu] at h4
            simpa using h4
          obtain ⟨ud, rfl, hpt, hct⟩ := usageFieldsNum_dict husage
          refine ⟨_, rfl, stateWF_mk hctx hw2 hns2 hn2 ?_ ?_⟩
          · exact fieldOk_dGet hpt rfl
          · exact fieldOk_dGet hct rfl
      · rw [if_neg hu]
        exact ⟨_, rfl, stateWF_mk hctx hw2 hns2 hn2 hin hout⟩
    | null => exact Bool.noConfusion he2
    | bool b => exact Bool.noConfusion he2
    | int n => exact Bool.noConfusion he2
    | float q => exact Bool.noConfusion he2
    | str t => exact Bool.noConfusion he2
    | list xs => exact Bool.noConfusion he2

theorem workflowStartedStep_wf {s : AccState} {e : List (String × Value)}
    (hs : stateWF s = true) (hd : fieldOk e "data" isDictV = true) :
    ∃ s1, workflowStartedStep s e = .ok s1 ∧ stateWF s1 = true := by
  obtain ⟨hctx, hw, hns, hn, hin, hout⟩ := stateWF_parts hs
  obtain ⟨data, hgd, had⟩ := asDict_dGet_ok hd
  unfold workflowStartedStep
  rw [had, except_ok_bind]
  obtain ⟨md2, hmd, hp1, hp2⟩ := setdefaultUpdate_meta
    [("workflow_id", dGet data "workflow_id" .null),
     ("workflow_run_id", dGet data "id" .null),
     ("started_at", dGet data "created_at" .null)] hw
  rw [hmd, except_ok_bind]
  exact ⟨_, rfl, stateWF_mk hctx
    (hp1 "workflow" isDictV hw (fun d => rfl))
    (hp2 "nodes_started" isListV (by decide) hns)
    (hp2 "nodes" isListV (by decide) hn) hin hout⟩

theorem nodeStartedStep_wf {s : AccState} {e : List (String × Value)}
    (hs : stateWF s = true) (hd : fieldOk e "data" isDictV = true) :
    ∃ s1, nodeStartedStep s e = .ok s1 ∧ stateWF s1 = true := by
  obtain ⟨hctx, hw, hns, hn, hin, hout⟩ := stateWF_parts hs
  obtain ⟨data, hgd, had⟩ := asDict_dGet_ok hd
  unfold nodeStartedStep
  rw [had, except_ok_bind]
  obtain ⟨md2, hmd, hp1, hp2⟩ := setdefaultAppend_meta
    (.dict [("node_id", dGet data "node_id" .null),
           ("node_type", dGet data "node_type" .null),
           ("title", dGet data "title" .null),
           ("index", dGet data "index" .null),
           ("started_at", dGet data "created_at" .null)]) hns
  rw [hmd, except_ok_bind]
  exact ⟨_, rfl, stateWF_mk hctx
    (hp2 "workflow" isDictV (by decide) hw)
    (hp1 "nodes_started" isListV hns (fun xs => rfl))
    (hp2 "nodes" isListV (by decide) hn) hin hout⟩

theorem textChunkStep_wf {s : AccState} {e : List (String × Value)} {t : Rat}
    (hs : stateWF s = true) (hd : fieldOk e "data" isDictV = true)
    (htxt : (match dLookup e "data" with
      | some (.dict d) => fieldOk d "text" fragFieldWF
      | _ => true) = true) :
    ∃ s1, textChunkStep s e t = .ok s1 ∧ stateWF s1 = true := by
  unfold textChunkStep
  cases hl : dLookup e "data" with
  | none =>
    have hget : dGet e "data" (.dict []) = .dict [] := by
      unfold dGet
      rw [hl]
    rw [hget, show asDict (Value.dict ([] : List (String × Value)))
      = .ok [] from rfl, except_ok_bind]
    exact appendFragment_wf hs (by decide)
  | some v =>
    rw [hl] at htxt
    have hget : dGet e "data" (.dict []) = v := by
      unfold dGet
      rw [hl]
    obtain ⟨d0, rfl⟩ := isDictV_dict (fieldOk_lookup hd hl)
    have htxt2 : fieldOk d0 "text" fragFieldWF = true := htxt
    rw [hget, show asDict (Value.dict d0) = .ok d0 from rfl, except_ok_bind]
    exact appendFragment_wf hs (fieldOk_dGet htxt2 (by decide))

theorem wfDataWF_parts {data : List (String × Value)}
    (h : wfDataWF data = true) :
    mergedMetaWF data = true ∧
    fieldOk data "execution_metadata"
      (fun em => !pyTruthy em || isDictV em) = true ∧
    (match dLookup data "nodes" with
     | some (.list ns) => ns.all nodeWF
     | some _ => false
     | none => true) = true ∧
    fieldOk data "outputs" wfOutputsWF = true := by
  unfold wfDataWF at h
  simp only [Bool.and_eq_true] at h
  exact ⟨h.1.1.1, h.1.1.2, h.1.2, h.2⟩

theorem wfTokensUpdate_wf {s : AccState} {data : List (String × Value)}
    (hs : stateWF s = true) (hmm : mergedMetaWF data = true)
    (hem : fieldOk data "execution_metadata"
      (fun em => !pyTruthy em || isDictV em) = true) :
    ∃ s1, wfTokensUpdate s data = .ok s1 ∧ stateWF s1 = true := by
  obtain ⟨hctx, hw, hns, hn, hin, hout⟩ := stateWF_parts hs
  obtain ⟨hw2, hns2, hn2⟩ := metaUpdate_wf hmm hw hns hn
  unfold wfTokensUpdate
  by_cases ht : pyTruthy (dGet data "execution_metadata" (.dict [])) = true
  · rw [if_pos ht]
    cases hl : dLookup data "execution_metadata" with
    | none =>
      exfalso
      have hget : dGet data "execution_metadata" (.dict []) = .dict [] := by
        unfold dGet
        rw [hl]
      rw [hget] at ht
      exact Bool.noConfusion ht
    | some em =>
      have hget : dGet data "execution_metadata" (.dict []) = em := by
        unfold dGet
        rw [hl]
      rw [hget] at ht ⊢
      have h4 : (!pyTruthy em || isDictV em) = true := fieldOk_lookup hem hl
      rw [ht] at h4
      obtain ⟨m, rfl⟩ := isDictV_dict (by simpa using h4)
      exact ⟨_, rfl, stateWF_mk hctx hw2 hns2 hn2 hin hout⟩
  · rw [if_neg ht]
    exact ⟨_, rfl, stateWF_mk hctx hw2 hns2 hn2 hin hout⟩

theorem nodeUsageSum_outs {tio : Value × Value} {nd : List (String × Value)}
    (h1 : isNumV tio.1 = true) (h2 : isNumV tio.2 = true)
    (hout : ((match dLookup nd "outputs" with
        | some o => isDictV o
        | none => true) &&
      (!pyTruthy (match dLookup nd "outputs" with
          | some (.dict od) => dGet od "usage" (.dict [])
          | _ => .dict [])
        || usageFieldsNum (match dLookup nd "outputs" with
          | some (.dict od) => dGet od "usage" (.dict [])
          | _ => .dict []))) = true) :
    ∃ r, (do
      let outs ← vGet (Value.dict nd) "outputs" (.dict [])
      let usage2 ← vGet outs "usage" (.dict [])
      if pyTruthy usage2 then do
        let pt ← vGet usage2 "prompt_tokens" (.int 0)
        let ct ← vGet usage2 "completion_tokens" (.int 0)
        let a ← pyAdd tio.1 pt
        let b ← pyAdd tio.2 ct
        (.ok (a, b) : Except String (Value × Value))
      else .ok tio) = .ok r ∧ isNumV r.1 = true ∧ isNumV r.2 = true := by
  rw [show vGet (Value.dict nd) "outputs" (.dict [])
    = .ok (dGet nd "outputs" (.dict [])) from rfl, except_ok_bind]
  cases hod : dLookup nd "outputs" with
  | some ov =>
    rw [hod] at hout
    have hodd : isDictV ov = true := Bool.and_elim_left hout
    obtain ⟨od, rfl⟩ := isDictV_dict hodd
    have hgod : dGet nd "outputs" (.dict []) = .dict od := by
      unfold dGet
      rw [hod]
    rw [hgod, show vGet (Value.dict od) "usage" (.dict [])
      = .ok (dGet od "usage" (.dict [])) from rfl, except_ok_bind]
    have hu2wf : (!pyTruthy (dGet od "usage" (.dict []))
        || usageFieldsNum (dGet od "usage" (.dict []))) = true :=
      Bool.and_elim_right hout
    by_cases hu2 : pyTruthy (dGet od "usage" (.dict [])) = true
    · rw [if_pos hu2]
      rw [hu2] at hu2wf
      obtain ⟨ud, hudEq, hpt, hct⟩ :=
        usageFieldsNum_dict (by simpa using hu2wf)
      rw [hudEq, show vGet (Value.dict ud) "prompt_tokens" (.int 0)
        = .ok (dGet ud "prompt_tokens" (.int 0)) from rfl, except_ok_bind,
        show vGet (Value.dict ud) "completion_tokens" (.int 0)
        = .ok (dGet ud "completion_tokens" (.int 0)) from rfl,
        except_ok_bind]
      obtain ⟨a, hadd1, hna⟩ := pyAdd_num h1
        (show isNumV (dGet ud "prompt_tokens" (Value.int 0)) = true from
          fieldOk_dGet hpt (by decide))
      rw [hadd1, except_ok_bind]
      obtain ⟨b, hadd2, hnb⟩ := pyAdd_num h2
        (show isNumV (dGet ud "completion_tokens" (Value.int 0)) = true from
          fieldOk_dGet hct (by decide))
      rw [hadd2, except_ok_bind]
      exact ⟨(a, b), rfl, hna, hnb⟩
    · rw [if_neg hu2]
      exact ⟨tio, rfl, h1, h2⟩
  | none =>
    have hgod : dGet nd "outputs" (.dict []) = .dict [] := by
      unfold dGet
      rw [hod]
    rw [hgod, show vGet (Value.dict ([] : List (String × Value))) "usage"
      (.dict []) = .ok (Value.dict []) from rfl, except_ok_bind,
      if_neg (by decide : ¬ pyTruthy (Value.dict []) = true)]
    exact ⟨tio, rfl, h1, h2⟩

theorem nodeUsageSum_num {tio : Value × Value} {node : Value}
    (h1 : isNumV tio.1 = true) (h2 : isNumV tio.2 = true)
    (hn : nodeWF node = true) :
    ∃ r, nodeUsageSum tio node = .ok r ∧
      isNumV r.1 = true ∧ isNumV r.2 = true := by
  obtain ⟨nd, rfl⟩ : ∃ nd, node = .dict nd := by
    cases node with
    | dict nd => exact ⟨nd, rfl⟩
    | null => exact Bool.noConfusion hn
    | bool b => exact Bool.noConfusion hn
    | int n => exact Bool.noConfusion hn
    | float q => exact Bool.noConfusion hn
    | str t => exact Bool.noConfusion hn
    | list xs => exact Bool.noConfusion hn
  have hn2 : ((match dLookup nd "process_data" with
      | some pd => isDictV pd
      | none => true) &&
    (if pyTruthy (match dLookup nd "process_data" with
        | some (Value.dict pdd) => dGet pdd "usage" (Value.dict [])
        | _ => Value.dict []) then
      usageFieldsNum (match dLookup nd "process_data" with
        | some (Value.dict pdd) => dGet pdd "usage" (Value.dict [])
        | _ => Value.dict [])
    else
      (match dLookup nd "outputs" with
        | some o => isDictV o
        | none => true) &&
      (!pyTruthy (match dLookup nd "outputs" with
          | some (Value.dict od) => dGet od "usage" (Value.dict [])
          | _ => Value.dict [])
        || usageFieldsNum (match dLookup nd "outputs" with
          | some (Value.dict od) => dGet od "usage" (Value.dict [])
          | _ => Value.dict [])))) = true := hn
  unfold nodeUsageSum
  rw [show vGet (Value.dict nd) "process_data" (.dict [])
    = .ok (dGet nd "process_data" (.dict [])) from rfl, except_ok_bind]
  cases hpd : dLookup nd "process_data" with
  | some pdv =>
    rw [hpd] at hn2
    have hpdd : isDictV pdv = true := Bool.and_elim_left hn2
    obtain ⟨pdd, rfl⟩ := isDictV_dict hpdd
    have hcond : (if pyTruthy (dGet pdd "usage" (.dict [])) then
        usageFieldsNum (dGet pdd "usage" (.dict []))
      else ((match dLookup nd "outputs" with
          | some o => isDictV o
          | none => true) &&
        (!pyTruthy (match dLookup nd "outputs" with
            | some (.dict od) => dGet od "usage" (.dict [])
            | _ => .dict [])
          || usageFieldsNum (match dLookup nd "outputs" with
            | some (.dict od) => dGet od "usage" (.dict [])
            | _ => .dict [])))) = true := Bool.and_elim_right hn2
    have hgpd : dGet nd "process_data" (.dict []) = .dict pdd := by
      unfold dGet
      rw [hpd]
    rw [hgpd, show vGet (Value.dict pdd) "usage" (.dict [])
      = .ok (dGet pdd "usage" (.dict [])) from rfl, except_ok_bind]
    by_cases hu : pyTruthy (dGet pdd "usage" (.dict [])) = true
    · rw [if_pos hu] at hcond ⊢
      obtain ⟨ud, hudEq, hpt, hct⟩ := usageFieldsNum_dict hcond
      rw [hudEq, show vGet (Value.dict ud) "prompt_tokens" (.int 0)
        = .ok (dGet ud "prompt_tokens" (.int 0)) from rfl, except_ok_bind,
        show vGet (Value.dict ud) "completion_tokens" (.int 0)
        = .ok (dGet ud "completion_tokens" (.int 0)) from rfl,
        except_ok_bind]
      obtain ⟨a, hadd1, hna⟩ := pyAdd_num h1
        (show isNumV (dGet ud "prompt_tokens" (Value.int 0)) = true from
          fieldOk_dGet hpt (by decide))
      rw [hadd1, except_ok_bind]
      obtain ⟨b, hadd2, hnb⟩ := pyAdd_num h2
        (show isNumV (dGet ud "completion_tokens" (Value.int 0)) = true from
          fieldOk_dGet hct (by decide))
      rw [hadd2, except_ok_bind]
      exact ⟨(a, b), rfl, hna, hnb⟩
    · rw [if_neg hu] at hcond ⊢
      exact nodeUsageSum_outs h1 h2 hcond
  | none =>
    rw [hpd] at hn2
    have hcond : ((match dLookup nd "outputs" with
        | some o => isDictV o
        | none => true) &&
      (!pyTruthy (match dLookup nd "outputs" with
          | some (.dict od) => dGet od "usage" (.dict [])
          | _ => .dict [])
        || usageFieldsNum (match dLookup nd "outputs" with
          | some (.dict od) => dGet od "usage" (.dict [])
          | _ => .dict []))) = true := Bool.and_elim_right hn2
    have hgpd : dGet nd "process_data" (.dict []) = .dict [] := by
      unfold dGet
      rw [hpd]
    rw [hgpd, show vGet (Value.dict ([] : List (String × Value))) "usage"
      (.dict []) = .ok (Value.dict []) from rfl, except_ok_bind,
      if_neg (by decide : ¬ pyTruthy (Value.dict []) = true)]
    exact nodeUsageSum_outs h1 h2 hcond

theorem nodeUsageSum_fold :
    ∀ (ns : List Value) (tio : Value × Value), ns.all nodeWF = true →
      isNumV tio.1 = true → isNumV tio.2 = true →
      ∃ r, ns.foldlM nodeUsageSum tio = .ok r ∧
        isNumV r.1 = true ∧ isNumV r.2 = true := by
  intro ns
  induction ns with
  | nil =>
    intro tio _ h1 h2
    rw [List.foldlM_nil]
    exact ⟨tio, rfl, h1, h2⟩
  | cons x rest ih =>
    intro tio hall h1 h2
    rw [List.all_cons] at hall
    obtain ⟨r1, hstep, hr1, hr2⟩ :=
      nodeUsageSum_num h1 h2 (Bool.and_elim_left hall)
    rw [List.foldlM_cons, hstep, except_ok_bind]
    exact ih r1 (Bool.and_elim_right hall) hr1 hr2

theorem wfSumNodeTokens_wf {s : AccState} {data : List (String × Value)}
    (hs : stateWF s = true)
    (hnodes : (match dLookup data "nodes" with
      | some (.list ns) => ns.all nodeWF
      | some _ => false
      | none => true) = true) :
    ∃ s1, wfSumNodeTokens s data = .ok s1 ∧ stateWF s1 = true := by
  obtain ⟨hctx, hw, hns, hn, hin, hout⟩ := stateWF_parts hs
  unfold wfSumNodeTokens
  cases hl : dLookup data "nodes" with
  | none =>
    have hget : dGet data "nodes" (.list []) = .list [] := by
      unfold dGet
      rw [hl]
    rw [hget, show pyIterItems (Value.list []) = .ok [] from rfl,
      except_ok_bind]
    obtain ⟨tio, hfold, hn1, hn2⟩ := nodeUsageSum_fold []
      ((.int 0 : Value), (.int 0 : Value)) rfl rfl rfl
    rw [hfold, except_ok_bind]
    obtain ⟨gi, hgi⟩ := pyGtZero_num hn1
    rw [hgi, except_ok_bind]
    obtain ⟨go, hgo⟩ := pyGtZero_num hn2
    rw [hgo, except_ok_bind]
    refine ⟨_, rfl, stateWF_mk hctx hw hns hn ?_ ?_⟩
    · cases gi with
      | true => exact hn1
      | false => exact hin
    · cases go with
      | true => exact hn2
      | false => exact hout
  | some v =>
    rw [hl] at hnodes
    cases v with
    | list ns =>
      have hall : ns.all nodeWF = true := hnodes
      have hget : dGet data "nodes" (.list []) = .list ns := by
        unfold dGet
        rw [hl]
      rw [hget, show pyIterItems (Value.list ns) = .ok ns from rfl,
        except_ok_bind]
      obtain ⟨tio, hfold, hn1, hn2⟩ := nodeUsageSum_fold ns
        ((.int 0 : Value), (.int 0 : Value)) hall rfl rfl
      rw [hfold, except_ok_bind]
      obtain ⟨gi, hgi⟩ := pyGtZero_num hn1
      rw [hgi, except_ok_bind]
      obtain ⟨go, hgo⟩ := pyGtZero_num hn2
      rw [hgo, except_ok_bind]
      refine ⟨_, rfl, stateWF_mk hctx hw hns hn ?_ ?_⟩
      · cases gi with
        | true => exact hn1
        | false => exact hin
      · cases go with
        | true => exact hn2
        | false => exact hout
    | null => exact Bool.noConfusion hnodes
    | bool b => exact Bool.noConfusion hnodes
    | int n => exact Bool.noConfusion hnodes
    | float q => exact Bool.noConfusion hnodes
    | str t => exact Bool.noConfusion hnodes
    | dict d => exact Bool.noConfusion hnodes

theorem all_str_hashable {xs : List Value} (h : xs.all isStrV = true) :
    xs.all pyHashable = true := by
  rw [List.all_eq_true] at h ⊢
  intro x hx
  obtain ⟨c, rfl⟩ := isStrV_str (h x hx)
  rfl

theorem all_str_append {xs : List Value} {c : String}
    (h : xs.all isStrV = true) : (xs ++ [Value.str c]).all isStrV = true := by
  rw [List.all_append, h]
  rfl

theorem foldCtxSet_str :
    ∀ (xs acc : List Value), acc.all isStrV = true → xs.all isStrV = true →
      ∃ out, (xs.foldlM (fun acc ctx =>
        if pyTruthy ctx then do
          let mem ← pySetMem ctx acc
          if mem then Except.ok acc else Except.ok (acc ++ [ctx])
        else Except.ok acc) acc) = .ok out ∧ out.all isStrV = true := by
  intro xs
  induction xs with
  | nil =>
    intro acc ha _
    rw [List.foldlM_nil]
    exact ⟨acc, rfl, ha⟩
  | cons x rest ih =>
    intro acc ha hall
    rw [List.all_cons] at hall
    obtain ⟨c, rfl⟩ := isStrV_str (Bool.and_elim_left hall)
    rw [List.foldlM_cons]
    by_cases ht : pyTruthy (Value.str c) = true
    · rw [if_pos ht, show pySetMem (Value.str c) acc
        = .ok (listHas acc (Value.str c)) from rfl, except_ok_bind]
      cases hm : listHas acc (Value.str c) with
      | true =>
        rw [if_pos rfl, except_ok_bind]
        exact ih acc ha (Bool.and_elim_right hall)
      | false =>
        rw [if_neg (by simp), except_ok_bind]
        exact ih _ (all_str_append ha) (Bool.and_elim_right hall)
    · rw [if_neg ht, except_ok_bind]
      exact ih acc ha (Bool.and_elim_right hall)

theorem mergeCtxListSet_str {cur xs : List Value}
    (hc : cur.all isStrV = true) (hx : xs.all isStrV = true) :
    ∃ out, mergeCtxListSet cur xs = .ok out ∧ out.all isStrV = true := by
  unfold mergeCtxListSet
  rw [if_pos (all_str_hashable hc)]
  exact foldCtxSet_str xs cur hc hx

theorem mergeCtxValueSet_str {cur : List Value} {v : Value}
    (hc : cur.all isStrV = true) (hv : ctxValueWF v = true) :
    ∃ out, mergeCtxValueSet cur v = .ok out ∧ out.all isStrV = true := by
  unfold mergeCtxValueSet
  cases v with
  | list xs => exact mergeCtxListSet_str hc hv
  | str t =>
    show ∃ out, Except.ok (if (!listHas cur (Value.str t)) = true
        then cur ++ [Value.str t] else cur) = Except.ok out ∧
      out.all isStrV = true
    by_cases hm : (!listHas cur (Value.str t)) = true
    · rw [if_pos hm]
      exact ⟨_, rfl, all_str_append hc⟩
    · rw [if_neg hm]
      exact ⟨cur, rfl, hc⟩
  | null => exact ⟨cur, rfl, hc⟩
  | bool b => exact ⟨cur, rfl, hc⟩
  | int n => exact ⟨cur, rfl, hc⟩
  | float q => exact ⟨cur, rfl, hc⟩
  | dict d => exact ⟨cur, rfl, hc⟩

theorem mergeCtxListNoSet_str :
    ∀ (xs cur : List Value), cur.all isStrV = true → xs.all isStrV = true →
      (mergeCtxListNoSet cur xs).all isStrV = true := by
  intro xs
  induction xs with
  | nil => intro cur hc _; exact hc
  | cons x rest ih =>
    intro cur hc hall
    rw [List.all_cons] at hall
    obtain ⟨c, rfl⟩ := isStrV_str (Bool.and_elim_left hall)
    unfold mergeCtxListNoSet at ih ⊢
    rw [List.foldl_cons]
    by_cases hcond : (pyTruthy (Value.str c)
        && !listHas cur (Value.str c)) = true
    · rw [if_pos hcond]
      exact ih _ (all_str_append hc) (Bool.and_elim_right hall)
    · rw [if_neg hcond]
      exact ih cur hc (Bool.and_elim_right hall)

theorem wfOutputsWF_parts {od : List (String × Value)}
    (h : wfOutputsWF (.dict od) = true) :
    fieldOk od "retrieved_contexts" ctxValueWF = true ∧
    fieldOk od "contexts" ctxValueWF = true ∧
    fieldOk od "context" ctxValueWF = true ∧
    fieldOk od "retrieved_context" ctxValueWF = true := by
  have h2 : (["retrieved_contexts", "contexts", "context",
      "retrieved_context"].all (fun k => fieldOk od k ctxValueWF))
      = true := h
  simp only [List.all_cons, List.all_nil, Bool.and_eq_true,
    Bool.and_true] at h2
  exact ⟨h2.1, h2.2.1, h2.2.2.1, h2.2.2.2⟩

theorem wfSecondaryStep_str (od : List (String × Value)) (cur : List Value)
    (key : String) (hc : cur.all isStrV = true)
    (hk : fieldOk od key ctxValueWF = true) :
    (if od.any (fun p => p.1 == key) && key != "retrieved_contexts" then
      match dGet od key .null with
      | .list xs => mergeCtxListNoSet cur xs
      | .str t => if !listHas cur (.str t) then cur ++ [.str t] else cur
      | _ => cur
    else cur).all isStrV = true := by
  by_cases hcond : (od.any (fun p => p.1 == key)
      && key != "retrieved_contexts") = true
  · rw [if_pos hcond]
    have hcv : ctxValueWF (dGet od key Value.null) = true :=
      fieldOk_dGet hk (by decide)
    cases hv : dGet od key .null with
    | list xs =>
      rw [hv] at hcv
      exact mergeCtxListNoSet_str xs cur hc hcv
    | str t =>
      show (if (!listHas cur (Value.str t)) = true
        then cur ++ [Value.str t] else cur).all isStrV = true
      by_cases hm : (!listHas cur (Value.str t)) = true
      · rw [if_pos hm]
        exact all_str_append hc
      · rw [if_neg hm]
        exact hc
    | null => exact hc
    | bool b => exact hc
    | int n => exact hc
    | float q => exact hc
    | dict d => exact hc
  · rw [if_neg hcond]
    exact hc

theorem wfSecondaryCtxFold_str (od : List (String × Value))
    (cur : List Value) (hc : cur.all isStrV = true)
    (h2 : fieldOk od "contexts" ctxValueWF = true)
    (h3 : fieldOk od "context" ctxValueWF = true)
    (h4 : fieldOk od "retrieved_context" ctxValueWF = true) :
    (wfSecondaryCtxFold od cur).all isStrV = true := by
  unfold wfSecondaryCtxFold
  rw [List.foldl_cons, List.foldl_cons, List.foldl_cons, List.foldl_nil]
  exact wfSecondaryStep_str od _ "retrieved_context"
    (wfSecondaryStep_str od _ "context"
      (wfSecondaryStep_str od _ "contexts" hc h2) h3) h4

theorem wfMergeOutputsContexts_wf {s : AccState}
    {data : List (String × Value)} (hs : stateWF s = true)
    (ho : fieldOk data "outputs" wfOutputsWF = true) :
    ∃ s1, wfMergeOutputsContexts s data = .ok s1 ∧ stateWF s1 = true := by
  obtain ⟨hctx, hw, hns, hn, hin, hout⟩ := stateWF_parts hs
  have how : wfOutputsWF (dGet data "outputs" (.dict [])) = true :=
    fieldOk_dGet ho (by decide)
  unfold wfMergeOutputsContexts
  cases hg : dGet data "outputs" (.dict []) with
  | dict od =>
    rw [hg] at how
    obtain ⟨hk1, hk2, hk3, hk4⟩ := wfOutputsWF_parts how
    show ∃ s1, ((if od.any (fun p => p.1 == "retrieved_contexts") then
        mergeCtxValueSet s.contexts (dGet od "retrieved_contexts" .null)
      else Except.ok s.contexts) >>= fun cur =>
        Except.ok { s with contexts := wfSecondaryCtxFold od cur })
        = .ok s1 ∧ stateWF s1 = true
    by_cases hany : od.any (fun p => p.1 == "retrieved_contexts") = true
    · rw [if_pos hany]
      have hcv : ctxValueWF (dGet od "retrieved_contexts" Value.null)
          = true := fieldOk_dGet hk1 (by decide)
      obtain ⟨cur, hcur, hcs⟩ := mergeCtxValueSet_str hctx hcv
      rw [hcur, except_ok_bind]
      exact ⟨_, rfl, stateWF_mk
        (wfSecondaryCtxFold_str od cur hcs hk2 hk3 hk4)
        hw hns hn hin hout⟩
    · rw [if_neg hany, except_ok_bind]
      exact ⟨_, rfl, stateWF_mk
        (wfSecondaryCtxFold_str od s.contexts hctx hk2 hk3 hk4)
        hw hns hn hin hout⟩
  | null => exact ⟨s, rfl, hs⟩
  | bool b => exact ⟨s, rfl, hs⟩
  | int n => exact ⟨s, rfl, hs⟩
  | float q => exact ⟨s, rfl, hs⟩
  | str t => exact ⟨s, rfl, hs⟩
  | list xs => exact ⟨s, rfl, hs⟩

theorem workflowFinishedStep_wf {s : AccState} {e : List (String × Value)}
    (hs : stateWF s = true) (hd : fieldOk e "data" isDictV = true)
    (hdw : (match dLookup e "data" with
      | some (.dict d) => wfDataWF d
      | _ => true) = true) :
    ∃ s1, workflowFinishedStep s e = .ok s1 ∧ stateWF s1 = true := by
  unfold workflowFinishedStep
  cases hl : dLookup e "data" with
  | none =>
    have hget : dGet e "data" (.dict []) = .dict [] := by
      unfold dGet
      rw [hl]
    rw [hget, show asDict (Value.dict ([] : List (String × Value)))
      = .ok [] from rfl, except_ok_bind]
    have hstep1 : ∃ s1, wfTokensUpdate s ([] : List (String × Value))
        = .ok s1 ∧ stateWF s1 = true :=
      wfTokensUpdate_wf hs (by decide) (by decide)
    obtain ⟨s1, h1, hs1⟩ := hstep1
    rw [h1, except_ok_bind]
    have hstep2 : ∃ s2, wfSumNodeTokens s1 ([] : List (String × Value))
        = .ok s2 ∧ stateWF s2 = true :=
      wfSumNodeTokens_wf hs1 (by decide)
    obtain ⟨s2, h2s, hs2⟩ := hstep2
    rw [h2s, except_ok_bind]
    exact wfMergeOutputsContexts_wf hs2 (by decide)
  | some v =>
    rw [hl] at hdw
    have hget : dGet e "data" (.dict []) = v := by
      unfold dGet
      rw [hl]
    obtain ⟨d0, rfl⟩ := isDictV_dict (fieldOk_lookup hd hl)
    have hdw2 : wfDataWF d0 = true := hdw
    obtain ⟨hmm, hem, hnod, hob⟩ := wfDataWF_parts hdw2
    rw [hget, show asDict (Value.dict d0) = .ok d0 from rfl, except_ok_bind]
    obtain ⟨s1, h1, hs1⟩ := wfTokensUpdate_wf hs hmm hem
    rw [h1, except_ok_bind]
    obtain ⟨s2, h2s, hs2⟩ := wfSumNodeTokens_wf hs1 hnod
    rw [h2s, except_ok_bind]
    exact wfMergeOutputsContexts_wf hs2 hob

theorem nfOutputsWF_dict {v : Value} (h : nfOutputsWF v = true) :
    ∃ od, v = .dict od ∧
      fieldOk od "retrieved_contexts" ctxValueWF = true ∧
      fieldOk od "contexts" ctxValueWF = true ∧
      fieldOk od "context" ctxValueWF = true ∧
      fieldOk od "retrieved_context" ctxValueWF = true ∧
      od.all (fun kv =>
        match kv.2 with
        | .dict vd => fieldOk vd "retrieved_contexts" ctxValueWF
        | _ => true) = true := by
  cases v with
  | dict od =>
    have h2 : ((["retrieved_contexts", "contexts", "context",
        "retrieved_context"].all (fun k => fieldOk od k ctxValueWF)) &&
      od.all (fun kv =>
        match kv.2 with
        | .dict vd => fieldOk vd "retrieved_contexts" ctxValueWF
        | _ => true)) = true := h
    have h4 : wfOutputsWF (Value.dict od) = true := Bool.and_elim_left h2
    obtain ⟨hk1, hk2, hk3, hk4⟩ := wfOutputsWF_parts h4
    exact ⟨od, rfl, hk1, hk2, hk3, hk4, Bool.and_elim_right h2⟩
  | null => exact Bool.noConfusion h
  | bool b => exact Bool.noConfusion h
  | int n => exact Bool.noConfusion h
  | float q => exact Bool.noConfusion h
  | str t => exact Bool.noConfusion h
  | list xs => exact Bool.noConfusion h

theorem findCtxKey_dict_total (od : List (String × Value)) :
    ∃ r, findCtxKey (.dict od) = .ok r := by
  unfold findCtxKey
  have hgen : ∀ (keys : List String) (acc : Option String),
      ∃ r, (keys.foldlM (fun acc k2 =>
        match acc with
        | some _ => Except.ok acc
        | none => (pyIn k2 (.dict od)) >>= fun b =>
            Except.ok (if b then some k2 else none)) acc) = .ok r := by
    intro keys
    induction keys with
    | nil =>
      intro acc
      rw [List.foldlM_nil]
      exact ⟨acc, rfl⟩
    | cons k2 rest ih =>
      intro acc
      rw [List.foldlM_cons]
      cases acc with
      | some a => exact ih (some a)
      | none =>
        exact ih (if od.any (fun p => p.1 == k2) then some k2 else none)
  exact hgen _ none

theorem findCtxKey_found {od : List (String × Value)} {k : String}
    (h : findCtxKey (.dict od) = .ok (some k)) :
    od.any (fun p => p.1 == k) = true := by
  unfold findCtxKey at h
  have hgen : ∀ (keys : List String) (acc : Option String),
      (keys.foldlM (fun acc k2 =>
        match acc with
        | some _ => Except.ok acc
        | none => (pyIn k2 (.dict od)) >>= fun b =>
            Except.ok (if b then some k2 else none)) acc) = .ok (some k) →
      acc = some k ∨ od.any (fun p => p.1 == k) = true := by
    intro keys
    induction keys with
    | nil =>
      intro acc hf
      rw [List.foldlM_nil] at hf
      injection hf with hf2
      exact Or.inl hf2
    | cons k2 rest ih =>
      intro acc hf
      rw [List.foldlM_cons] at hf
      obtain ⟨acc1, hstep, hrest⟩ := except_bind_ok hf
      rcases ih acc1 hrest with h1 | h2
      · cases acc with
        | some a =>
          have h3 : Except.ok (some a) = Except.ok acc1 := hstep
          injection h3 with h4
          rw [← h4] at h1
          injection h1 with h5
          exact Or.inl (by rw [h5])
        | none =>
          obtain ⟨b, hb, hif⟩ := except_bind_ok hstep
          have hbv : Except.ok (od.any (fun p => p.1 == k2))
              = Except.ok b := hb
          injection hbv with hbv2
          injection hif with h5
          cases hbb : b with
          | true =>
            rw [hbb] at h5 hbv2
            rw [if_pos rfl] at h5
            rw [← h5] at h1
            injection h1 with h6
            rw [← h6]
            exact Or.inr hbv2
          | false =>
            rw [hbb] at h5
            rw [if_neg (by simp)] at h5
            rw [← h5] at h1
            exact Option.noConfusion h1
      · exact Or.inr h2
  rcases hgen ["retrieved_contexts", "contexts", "context",
      "retrieved_context"] none h with h1 | h2
  · exact Option.noConfusion h1
  · exact h2

theorem nestedMergeOne_str {cur : List Value} {value : Value}
    (hc : cur.all isStrV = true)
    (hv : (match value with
      | .dict vd => fieldOk vd "retrieved_contexts" ctxValueWF
      | _ => true) = true) :
    ∃ out, nestedMergeOne cur value = .ok out ∧ out.all isStrV = true := by
  unfold nestedMergeOne
  cases value with
  | dict vd =>
    have hv2 : fieldOk vd "retrieved_contexts" ctxValueWF = true := hv
    show ∃ out, (if vd.any (fun p => p.1 == "retrieved_contexts") then
        mergeCtxValueSet cur (dGet vd "retrieved_contexts" .null)
      else Except.ok cur) = .ok out ∧ out.all isStrV = true
    by_cases hany : vd.any (fun p => p.1 == "retrieved_contexts") = true
    · rw [if_pos hany]
      exact mergeCtxValueSet_str hc (fieldOk_dGet hv2 (by decide))
    · rw [if_neg hany]
      exact ⟨cur, rfl, hc⟩
  | null => exact ⟨cur, rfl, hc⟩
  | bool b => exact ⟨cur, rfl, hc⟩
  | int n => exact ⟨cur, rfl, hc⟩
  | float q => exact ⟨cur, rfl, hc⟩
  | str t => exact ⟨cur, rfl, hc⟩
  | list xs => exact ⟨cur, rfl, hc⟩

theorem nestedFold_str :
    ∀ (od : List (String × Value)) (cur : List Value),
      cur.all isStrV = true →
      od.all (fun kv =>
        match kv.2 with
        | .dict vd => fieldOk vd "retrieved_contexts" ctxValueWF
        | _ => true) = true →
      ∃ out, (od.foldlM (fun cur kv => nestedMergeOne cur kv.2) cur)
        = .ok out ∧ out.all isStrV = true := by
  intro od
  induction od with
  | nil =>
    intro cur hc _
    rw [List.foldlM_nil]
    exact ⟨cur, rfl, hc⟩
  | cons kv rest ih =>
    intro cur hc hall
    rw [List.all_cons] at hall
    obtain ⟨c1, hstep, hc1⟩ :=
      nestedMergeOne_str hc (Bool.and_elim_left hall)
    rw [List.foldlM_cons, hstep, except_ok_bind]
    exact ih c1 hc1 (Bool.and_elim_right hall)

theorem nfToolCallsPart_ok (s : AccState) (od : List (String × Value)) :
    ∃ tcs, nfToolCallsPart s (.dict od)
      (od.any (fun p => p.1 == "tool_calls")) = .ok tcs := by
  unfold nfToolCallsPart
  by_cases hany : od.any (fun p => p.1 == "tool_calls") = true
  · rw [if_pos hany]
    obtain ⟨w, hwl⟩ := any_key_lookup hany
    have hpi : pyIndex (Value.dict od) "tool_calls" = .ok w := by
      show (match dLookup od "tool_calls" with
        | some w2 => Except.ok w2
        | none => Except.error "KeyError") = Except.ok w
      rw [hwl]
    rw [hpi, except_ok_bind]
    cases w with
    | list xs => exact ⟨_, rfl⟩
    | null => exact ⟨_, rfl⟩
    | bool b => exact ⟨_, rfl⟩
    | int n => exact ⟨_, rfl⟩
    | float q => exact ⟨_, rfl⟩
    | str t => exact ⟨_, rfl⟩
    | dict d => exact ⟨_, rfl⟩
  · rw [if_neg hany]
    exact ⟨_, rfl⟩

theorem nodeFinishedStep_core {s : AccState} (data : List (String × Value))
    (hs : stateWF s = true)
    (hnfo : nfOutputsWF (dGet data "outputs" (.dict [])) = true) :
    ∃ s1, ((findCtxKey (dGet data "outputs" (.dict []))) >>= fun kOpt =>
      (nfCtxPart s (dGet data "outputs" (.dict [])) kOpt) >>= fun cur =>
      (pyIn "tool_calls" (dGet data "outputs" (.dict []))) >>= fun hasTC =>
      (nfToolCallsPart s (dGet data "outputs" (.dict [])) hasTC)
        >>= fun tcs =>
      (setdefaultAppend s.metadata "nodes" (.dict data)) >>= fun md =>
      Except.ok { s with contexts := cur, tool_calls := tcs, metadata := md })
      = .ok s1 ∧ stateWF s1 = true := by
  obtain ⟨hctx, hw, hns, hn, hin, hout⟩ := stateWF_parts hs
  obtain ⟨od, hodEq, hk1, hk2, hk3, hk4, hnest⟩ := nfOutputsWF_dict hnfo
  rw [hodEq]
  obtain ⟨kOpt, hfck⟩ := findCtxKey_dict_total od
  rw [hfck, except_ok_bind]
  have hcurEx : ∃ cur, nfCtxPart s (Value.dict od) kOpt = .ok cur ∧
      cur.all isStrV = true := by
    cases kOpt with
    | some k =>
      have hany := findCtxKey_found hfck
      obtain ⟨w, hwl⟩ := any_key_lookup hany
      have hpi : pyIndex (Value.dict od) k = .ok w := by
        show (match dLookup od k with
          | some w2 => Except.ok w2
          | none => Except.error "KeyError") = Except.ok w
        rw [hwl]
      have hkmem := findCtxKey_mem hfck
      simp only [List.mem_cons, List.mem_singleton,
        List.not_mem_nil, or_false] at hkmem
      have hcvw : ctxValueWF w = true := by
        rcases hkmem with rfl | rfl | rfl | rfl
        · exact fieldOk_lookup hk1 hwl
        · exact fieldOk_lookup hk2 hwl
        · exact fieldOk_lookup hk3 hwl
        · exact fieldOk_lookup hk4 hwl
      obtain ⟨cur, hcur, hcs⟩ := mergeCtxValueSet_str hctx hcvw
      refine ⟨cur, ?_, hcs⟩
      show (pyIndex (Value.dict od) k) >>=
        (fun ctxs => mergeCtxValueSet s.contexts ctxs) = .ok cur
      rw [hpi, except_ok_bind]
      exact hcur
    | none =>
      obtain ⟨cur, hcur, hcs⟩ := nestedFold_str od s.contexts hctx hnest
      exact ⟨cur, hcur, hcs⟩
  obtain ⟨cur, hcur, hcs⟩ := hcurEx
  rw [hcur, except_ok_bind,
    show pyIn "tool_calls" (Value.dict od)
      = .ok (od.any (fun p => p.1 == "tool_calls")) from rfl,
    except_ok_bind]
  obtain ⟨tcs, htcs⟩ := nfToolCallsPart_ok s od
  rw [htcs, except_ok_bind]
  obtain ⟨md2, hmd, hp1, hp2⟩ := setdefaultAppend_meta (.dict data) hn
  rw [hmd, except_ok_bind]
  exact ⟨_, rfl, stateWF_mk hcs
    (hp2 "workflow" isDictV (by decide) hw)
    (hp2 "nodes_started" isListV (by decide) hns)
    (hp1 "nodes" isListV hn (fun xs => rfl)) hin hout⟩

theorem nodeFinishedStep_wf {s : AccState} {e : List (String × Value)}
    (hs : stateWF s = true) (hd : fieldOk e "data" isDictV = true)
    (hnf : (match dLookup e "data" with
      | some (.dict d) => nfOutputsWF (dGet d "outputs" (.dict []))
      | _ => true) = true) :
    ∃ s1, nodeFinishedStep s e = .ok s1 ∧ stateWF s1 = true := by
  unfold nodeFinishedStep
  cases hl : dLookup e "data" with
  | none =>
    have hget : dGet e "data" (.dict []) = .dict [] := by
      unfold dGet
      rw [hl]
    rw [hget, show asDict (Value.dict ([] : List (String × Value)))
      = .ok [] from rfl, except_ok_bind]
    exact nodeFinishedStep_core [] hs (by decide)
  | some v =>
    rw [hl] at hnf
    have hget : dGet e "data" (.dict []) = v := by
      unfold dGet
      rw [hl]
    obtain ⟨d0, rfl⟩ := isDictV_dict (fieldOk_lookup hd hl)
    have hnf2 : nfOutputsWF (dGet d0 "outputs" (.dict [])) = true := hnf
    rw [hget, show asDict (Value.dict d0) = .ok d0 from rfl, except_ok_bind]
    exact nodeFinishedStep_core d0 hs hnf2

theorem meResourceStep_str (cur : List Value) (r : Value)
    (hc : cur.all isStrV = true) :
    (meResourceStep cur r).all isStrV = true := by
  unfold meResourceStep
  cases r with
  | dict rd =>
    show (if (pyTruthy (meContent rd)
        && !listHas cur (meContent rd)) = true
      then cur ++ [.str (pyStr (meContent rd))] else cur).all isStrV = true
    by_cases hcond : (pyTruthy (meContent rd)
        && !listHas cur (meContent rd)) = true
    · rw [if_pos hcond]
      exact all_str_append hc
    · rw [if_neg hcond]
      exact hc
  | null =>
    show (if (pyTruthy Value.null && !listHas cur Value.null) = true
      then cur ++ [.str (pyStr Value.null)] else cur).all isStrV = true
    by_cases hcond : (pyTruthy Value.null && !listHas cur Value.null) = true
    · rw [if_pos hcond]
      exact all_str_append hc
    · rw [if_neg hcond]
      exact hc
  | bool b =>
    show (if (pyTruthy (Value.bool b) && !listHas cur (Value.bool b)) = true
      then cur ++ [.str (pyStr (Value.bool b))] else cur).all isStrV = true
    by_cases hcond : (pyTruthy (Value.bool b)
        && !listHas cur (Value.bool b)) = true
    · rw [if_pos hcond]
      exact all_str_append hc
    · rw [if_neg hcond]
      exact hc
  | int n =>
    show (if (pyTruthy (Value.int n) && !listHas cur (Value.int n)) = true
      then cur ++ [.str (pyStr (Value.int n))] else cur).all isStrV = true
    by_cases hcond : (pyTruthy (Value.int n)
        && !listHas cur (Value.int n)) = true
    · rw [if_pos hcond]
      exact all_str_append hc
    · rw [if_neg hcond]
      exact hc
  | float q =>
    show (if (pyTruthy (Value.float q) && !listHas cur (Value.float q)) = true
      then cur ++ [.str (pyStr (Value.float q))] else cur).all isStrV = true
    by_cases hcond : (pyTruthy (Value.float q)
        && !listHas cur (Value.float q)) = true
    · rw [if_pos hcond]
      exact all_str_append hc
    · rw [if_neg hcond]
      exact hc
  | str t =>
    show (if (pyTruthy (Value.str t) && !listHas cur (Value.str t)) = true
      then cur ++ [.str (pyStr (Value.str t))] else cur).all isStrV = true
    by_cases hcond : (pyTruthy (Value.str t)
        && !listHas cur (Value.str t)) = true
    · rw [if_pos hcond]
      exact all_str_append hc
    · rw [if_neg hcond]
      exact hc
  | list xs =>
    show (if (pyTruthy (Value.list xs) && !listHas cur (Value.list xs)) = true
      then cur ++ [.str (pyStr (Value.list xs))] else cur).all isStrV = true
    by_cases hcond : (pyTruthy (Value.list xs)
        && !listHas cur (Value.list xs)) = true
    · rw [if_pos hcond]
      exact all_str_append hc
    · rw [if_neg hcond]
      exact hc

theorem meFold_str :
    ∀ (xs cur : List Value), cur.all isStrV = true →
      (xs.foldl meResourceStep cur).all isStrV = true := by
  intro xs
  induction xs with
  | nil => intro cur hc; exact hc
  | cons x rest ih =>
    intro cur hc
    rw [List.foldl_cons]
    exact ih _ (meResourceStep_str cur x hc)

theorem extract_wf {s : AccState} {e : List (String × Value)}
    (hs : stateWF s = true) (he : messageEndWF e = true) :
    ∃ s2, extractContextsFromMessageEnd s e = .ok s2 ∧
      stateWF s2 = true := by
  obtain ⟨hctx, hw, hns, hn, hin, hout⟩ := stateWF_parts hs
  have he2 : (match dLookup e "metadata" with
      | some (.dict m) => mergedMetaWF m && fieldOk m "usage" meUsageWF
      | some _ => false
      | none => true) = true := he
  unfold extractContextsFromMessageEnd
  cases hm : dLookup e "metadata" with
  | none =>
    have hget : dGet e "metadata" (.dict []) = .dict [] := by
      unfold dGet
      rw [hm]
    rw [hget, show vGet (Value.dict ([] : List (String × Value)))
      "retriever_resources" (.list []) = .ok (Value.list []) from rfl,
      except_ok_bind]
    exact ⟨_, rfl, hs⟩
  | some v =>
    rw [hm] at he2
    have hget : dGet e "metadata" (.dict []) = v := by
      unfold dGet
      rw [hm]
    rw [hget]
    cases v with
    | dict m =>
      rw [show vGet (Value.dict m) "retriever_resources" (.list [])
        = .ok (dGet m "retriever_resources" (.list [])) from rfl,
        except_ok_bind]
      cases hrr : dGet m "retriever_resources" (.list []) with
      | list xs =>
        exact ⟨_, rfl, stateWF_mk (meFold_str xs s.contexts hctx)
          hw hns hn hin hout⟩
      | null => exact ⟨_, rfl, hs⟩
      | bool b => exact ⟨_, rfl, hs⟩
      | int n => exact ⟨_, rfl, hs⟩
      | float q => exact ⟨_, rfl, hs⟩
      | str t => exact ⟨_, rfl, hs⟩
      | dict d => exact ⟨_, rfl, hs⟩
    | null => exact Bool.noConfusion he2
    | bool b => exact Bool.noConfusion he2
    | int n => exact Bool.noConfusion he2
    | float q => exact Bool.noConfusion he2
    | str t => exact Bool.noConfusion he2
    | list xs => exact Bool.noConfusion he2

theorem accumulate_wf {s : AccState} {ev : Value} {t : Rat}
    (hs : stateWF s = true) (he : eventWF ev = true) :
    ∃ s1, accumulate s ev t = .ok s1 ∧ stateWF s1 = true := by
  cases ev with
  | null => exact Bool.noConfusion he
  | bool b => exact Bool.noConfusion he
  | int n => exact Bool.noConfusion he
  | float q => exact Bool.noConfusion he
  | str t2 => exact Bool.noConfusion he
  | list xs => exact Bool.noConfusion he
  | dict e =>
    have he2 : (if pyEq (dGet e "event" .null) (.str "message") then
        fieldOk e "answer" fragFieldWF
      else if pyEq (dGet e "event" .null) (.str "agent_message") then
        fieldOk e "answer" fragFieldWF
      else if pyEq (dGet e "event" .null) (.str "message_end") then
        messageEndWF e
      else if pyEq (dGet e "event" .null) (.str "workflow_started") then
        fieldOk e "data" isDictV
      else if pyEq (dGet e "event" .null) (.str "node_started") then
        fieldOk e "data" isDictV
      else if pyEq (dGet e "event" .null) (.str "text_chunk") then
        fieldOk e "data" isDictV &&
        (match dLookup e "data" with
         | some (.dict d) => fieldOk d "text" fragFieldWF
         | _ => true)
      else if pyEq (dGet e "event" .null) (.str "workflow_finished") then
        fieldOk e "data" isDictV &&
        (match dLookup e "data" with
         | some (.dict d) => wfDataWF d
         | _ => true)
      else if pyEq (dGet e "event" .null) (.str "node_finished") then
        fieldOk e "data" isDictV &&
        (match dLookup e "data" with
         | some (.dict d) => nfOutputsWF (dGet d "outputs" (.dict []))
         | _ => true)
      else true) = true := he
    show ∃ s1, (if pyEq (dGet e "event" .null) (.str "message") then
        appendFragment s (dGet e "answer" (.str "")) t
      else if pyEq (dGet e "event" .null) (.str "agent_message") then
        appendFragment s (dGet e "answer" (.str "")) t
      else if pyEq (dGet e "event" .null) (.str "message_end") then
        messageEndStep s e
      else if pyEq (dGet e "event" .null) (.str "workflow_started") then
        workflowStartedStep s e
      else if pyEq (dGet e "event" .null) (.str "node_started") then
        nodeStartedStep s e
      else if pyEq (dGet e "event" .null) (.str "text_chunk") then
        textChunkStep s e t
      else if pyEq (dGet e "event" .null) (.str "workflow_finished") then
        workflowFinishedStep s e
      else if pyEq (dGet e "event" .null) (.str "node_finished") then
        nodeFinishedStep s e
      else Except.ok s) = .ok s1 ∧ stateWF s1 = true
    by_cases c1 : pyEq (dGet e "event" .null) (.str "message") = true
    · rw [if_pos c1] at he2 ⊢
      exact appendFragment_wf hs (fieldOk_dGet he2 (by decide))
    · rw [if_neg c1] at he2 ⊢
      by_cases c2 : pyEq (dGet e "event" .null) (.str "agent_message") = true
      · rw [if_pos c2] at he2 ⊢
        exact appendFragment_wf hs (fieldOk_dGet he2 (by decide))
      · rw [if_neg c2] at he2 ⊢
        by_cases c3 : pyEq (dGet e "event" .null) (.str "message_end") = true
        · rw [if_pos c3] at he2 ⊢
          exact messageEndStep_wf hs he2
        · rw [if_neg c3] at he2 ⊢
          by_cases c4 : pyEq (dGet e "event" .null)
              (.str "workflow_started") = true
          · rw [if_pos c4] at he2 ⊢
            exact workflowStartedStep_wf hs he2
          · rw [if_neg c4] at he2 ⊢
            by_cases c5 : pyEq (dGet e "event" .null)
                (.str "node_started") = true
            · rw [if_pos c5] at he2 ⊢
              exact nodeStartedStep_wf hs he2
            · rw [if_neg c5] at he2 ⊢
              by_cases c6 : pyEq (dGet e "event" .null)
                  (.str "text_chunk") = true
              · rw [if_pos c6] at he2 ⊢
                exact textChunkStep_wf hs (Bool.and_elim_left he2)
                  (Bool.and_elim_right he2)
              · rw [if_neg c6] at he2 ⊢
                by_cases c7 : pyEq (dGet e "event" .null)
                    (.str "workflow_finished") = true
                · rw [if_pos c7] at he2 ⊢
                  exact workflowFinishedStep_wf hs (Bool.and_elim_left he2)
                    (Bool.and_elim_right he2)
                · rw [if_neg c7] at he2 ⊢
                  by_cases c8 : pyEq (dGet e "event" .null)
                      (.str "node_finished") = true
                  · rw [if_pos c8] at he2 ⊢
                    exact nodeFinishedStep_wf hs (Bool.and_elim_left he2)
                      (Bool.and_elim_right he2)
                  · rw [if_neg c8]
                    exact ⟨s, rfl, hs⟩

theorem applyStreamEvent_wf {iw : Bool} {s : AccState} {ev : Value}
    {t : Rat} (hs : stateWF s = true) (he : eventWF ev = true) :
    ∃ s2, applyStreamEvent iw s ev t = .ok s2 ∧ stateWF s2 = true := by
  obtain ⟨s1, hacc, hs1⟩ := accumulate_wf hs he
  unfold applyStreamEvent
  rw [hacc, except_ok_bind]
  cases ev with
  | dict e =>
    show ∃ s2, (if (!iw && pyEq (dGet e "event" .null)
        (.str "message_end")) = true then
        extractContextsFromMessageEnd s1 e
      else Except.ok s1) = .ok s2 ∧ stateWF s2 = true
    by_cases hcond : (!iw && pyEq (dGet e "event" .null)
        (.str "message_end")) = true
    · rw [if_pos hcond]
      have hme := Bool.and_elim_right hcond
      have c1 : ¬ pyEq (dGet e "event" .null) (.str "message") = true := by
        rw [pyEq_str_ne hme (by decide)]
        exact fun hh => Bool.noConfusion hh
      have c2 : ¬ pyEq (dGet e "event" .null)
          (.str "agent_message") = true := by
        rw [pyEq_str_ne hme (by decide)]
        exact fun hh => Bool.noConfusion hh
      have he2 : (if pyEq (dGet e "event" .null) (.str "message") then
          fieldOk e "answer" fragFieldWF
        else if pyEq (dGet e "event" .null) (.str "agent_message") then
          fieldOk e "answer" fragFieldWF
        else if pyEq (dGet e "event" .null) (.str "message_end") then
          messageEndWF e
        else if pyEq (dGet e "event" .null) (.str "workflow_started") then
          fieldOk e "data" isDictV
        else if pyEq (dGet e "event" .null) (.str "node_started") then
          fieldOk e "data" isDictV
        else if pyEq (dGet e "event" .null) (.str "text_chunk") then
          fieldOk e "data" isDictV &&
          (match dLookup e "data" with
           | some (.dict d) => fieldOk d "text" fragFieldWF
           | _ => true)
        else if pyEq (dGet e "event" .null) (.str "workflow_finished") then
          fieldOk e "data" isDictV &&
          (match dLookup e "data" with
           | some (.dict d) => wfDataWF d
           | _ => true)
        else if pyEq (dGet e "event" .null) (.str "node_finished") then
          fieldOk e "data" isDictV &&
          (match dLookup e "data" with
           | some (.dict d) => nfOutputsWF (dGet d "outputs" (.dict []))
           | _ => true)
        else true) = true := he
      rw [if_neg c1, if_neg c2, if_pos hme] at he2
      exact extract_wf hs1 he2
    · rw [if_neg hcond]
      exact ⟨s1, rfl, hs1⟩
  | null => exact Bool.noConfusion he
  | bool b => exact Bool.noConfusion he
  | int n => exact Bool.noConfusion he
  | float q => exact Bool.noConfusion he
  | str t2 => exact Bool.noConfusion he
  | list xs => exact Bool.noConfusion he

/-- C8 (amended): applying any stream of event dicts whose recognized tags
carry payload fields of the shapes their branches dereference (string
answer/text when truthy, dict metadata/data/usage with numeric token fields,
list nodes of well-shaped node dicts, dict outputs with string-or-list
context fields) never raises: the whole fold succeeds, and the accumulator
invariants (all-string contexts, dict/list metadata slots, numeric token
slots) are maintained.  Events with unknown or missing tags never raise for
any payload.  The shape proviso is needed: a recognized tag with a
wrong-typed truthy payload field raises (TypeError/AttributeError) in the
source instead of being treated as empty. -/
theorem C8_wellshaped_no_raise (iw : Bool) (events : List (Value × Rat))
    (hev : ∀ p ∈ events, eventWF p.1 = true) :
    ∃ s2, applyStreamEvents iw initAcc events = .ok s2 ∧
      stateWF s2 = true := by
  have hgen : ∀ (evs : List (Value × Rat)) (s : AccState),
      stateWF s = true → (∀ p ∈ evs, eventWF p.1 = true) →
      ∃ s2, applyStreamEvents iw s evs = .ok s2 ∧ stateWF s2 = true := by
    intro evs
    induction evs with
    | nil =>
      intro s hs _
      unfold applyStreamEvents
      rw [List.foldlM_nil]
      exact ⟨s, rfl, hs⟩
    | cons p rest ih =>
      intro s hs hall
      unfold applyStreamEvents at ih ⊢
      rw [List.foldlM_cons]
      obtain ⟨s1, hstep, hs1⟩ := applyStreamEvent_wf hs
        (hall p (List.mem_cons_self p rest))
      rw [hstep, except_ok_bind]
      exact ih s1 hs1 (fun q hq => hall q (List.mem_cons_of_mem p hq))
  exact hgen events initAcc (by decide) hev

/-- Witness for C8 on a well-shaped fragment plus workflow_finished stream
(the shapes of the repository test events): the fold succeeds. -/
theorem C8_wellshaped_no_raise_witness :
    (∀ p ∈ ([((.dict [("event", Value.str "message"),
          ("answer", Value.str "Hello")] : Value), (0 : Rat)),
        ((.dict [("event", Value.str "workflow_finished"),
          ("data", Value.dict [("total_tokens", Value.int 50)])] : Value),
          (1 : Rat))]),
      eventWF p.1 = true) ∧
    ∃ s2, applyStreamEvents false initAcc
        [((.dict [("event", Value.str "message"),
          ("answer", Value.str "Hello")] : Value), (0 : Rat)),
        ((.dict [("event", Value.str "workflow_finished"),
          ("data", Value.dict [("total_tokens", Value.int 50)])] : Value),
          (1 : Rat))] = .ok s2 ∧ stateWF s2 = true :=
  ⟨by decide, C8_wellshaped_no_raise false
    [((.dict [("event", Value.str "message"),
        ("answer", Value.str "Hello")] : Value), (0 : Rat)),
      ((.dict [("event", Value.str "workflow_finished"),
        ("data", Value.dict [("total_tokens", Value.int 50)])] : Value),
        (1 : Rat))] (by decide)⟩

theorem applyStreamEvents_wf (iw : Bool) :
    ∀ (evs : List (Value × Rat)) (s : AccState), stateWF s = true →
      (∀ p ∈ evs, eventWF p.1 = true) →
      ∃ s2, applyStreamEvents iw s evs = .ok s2 ∧ stateWF s2 = true := by
  intro evs
  induction evs with
  | nil =>
    intro s hs _
    unfold applyStreamEvents
    rw [List.foldlM_nil]
    exact ⟨s, rfl, hs⟩
  | cons p rest ih =>
    intro s hs hall
    unfold applyStreamEvents at ih ⊢
    rw [List.foldlM_cons]
    obtain ⟨s1, hstep, hs1⟩ := applyStreamEvent_wf hs
      (hall p (List.mem_cons_self p rest))
    rw [hstep, except_ok_bind]
    exact ih s1 hs1 (fun q hq => hall q (List.mem_cons_of_mem p hq))

theorem strContains_mid (a b pat : String) :
    strContains (a ++ pat ++ b) pat = true := by
  unfold strContains
  rw [List.any_eq_true]
  refine ⟨pat.toList ++ b.toList, ?_, ?_⟩
  · rw [List.mem_tails]
    have h2 : (a ++ pat ++ b).toList
        = a.toList ++ (pat.toList ++ b.toList) := by
      show (a ++ pat ++ b).data = a.data ++ (pat.data ++ b.data)
      rw [String.data_append, String.data_append, List.append_assoc]
    rw [h2]
    exact List.suffix_append _ _
  · rw [List.isPrefixOf_iff_prefix]
    exact List.prefix_append _ _

theorem toAdapterResponse_wf {s : AccState} (hs : stateWF s = true) :
    ∃ r, toAdapterResponse s = .ok r ∧ r.answer = s.answer ∧
      r.contexts = s.contexts := by
  obtain ⟨hctx, hw, hns, hn, hin, hout⟩ := stateWF_parts hs
  unfold toAdapterResponse toPerformanceMetrics
  obtain ⟨gi, hgi⟩ := pyGtZero_num hin
  rw [hgi, except_ok_bind]
  obtain ⟨go, hgo⟩ := pyGtZero_num hout
  rw [hgo, except_ok_bind, except_ok_bind]
  exact ⟨_, rfl, rfl, rfl⟩

/-- C3: the per-read timeout policy at the end of the streaming read loop,
for any well-shaped event stream.  When the deadline expired and nothing was
accumulated, the invocation raises a TimeoutError whose message embeds the
formatted elapsed duration; in every other outcome - normal end of stream,
or deadline expiry with a non-empty partial answer - the accumulated state
is returned as a partial result carrying the accumulated answer and
contexts. -/
theorem C3_deadline_policy (iw : Bool) (events : List (Value × Rat))
    (timedOut : Bool) (elapsed : String)
    (hev : ∀ p ∈ events, eventWF p.1 = true) :
    ∃ s, applyStreamEvents iw initAcc events = .ok s ∧
      ((timedOut = true ∧ s.answer = "") →
        difyInvokeStreaming iw events timedOut elapsed
          = .error (timeoutMsg elapsed) ∧
        strContains (timeoutMsg elapsed) elapsed = true) ∧
      (¬(timedOut = true ∧ s.answer = "") →
        ∃ r, difyInvokeStreaming iw events timedOut elapsed = .ok r ∧
          r.answer = s.answer ∧ r.contexts = s.contexts) := by
  obtain ⟨s, hrun, hsWF⟩ := applyStreamEvents_wf iw events initAcc
    (by decide) hev
  refine ⟨s, hrun, ?_, ?_⟩
  · rintro ⟨hto, hans⟩
    constructor
    · unfold difyInvokeStreaming
      rw [hrun, except_ok_bind]
      unfold streamingFinalize
      rw [if_pos (by rw [hto, hans]; rfl)]
    · exact strContains_mid "流式响应读取超时，在" "秒内未收到任何数据" elapsed
  · intro hneg
    have hcond : (timedOut && s.answer == "") = false := by
      cases hto : timedOut with
      | false => rfl
      | true =>
        have hans : ¬ s.answer = "" := fun h => hneg ⟨hto, h⟩
        rw [Bool.true_and]
        exact beq_eq_false_iff_ne.mpr hans
    obtain ⟨r, hresp, hra, hrc⟩ := toAdapterResponse_wf hsWF
    refine ⟨r, ?_, hra, hrc⟩
    unfold difyInvokeStreaming
    rw [hrun, except_ok_bind]
    unfold streamingFinalize
    rw [hcond]
    exact hresp

/-- Witness for C3: a stream with one fragment and a deadline expiry - the
non-empty partial answer is returned rather than an error. -/
theorem C3_deadline_policy_witness :
    (∀ p ∈ ([((.dict [("event", Value.str "message"),
        ("answer", Value.str "Hi")] : Value), (0 : Rat))]),
      eventWF p.1 = true) ∧
    ∃ s, applyStreamEvents false initAcc
        [((.dict [("event", Value.str "message"),
          ("answer", Value.str "Hi")] : Value), (0 : Rat))] = .ok s ∧
      ((true = true ∧ s.answer = "") →
        difyInvokeStreaming false
          [((.dict [("event", Value.str "message"),
            ("answer", Value.str "Hi")] : Value), (0 : Rat))]
          true "1.23" = .error (timeoutMsg "1.23") ∧
        strContains (timeoutMsg "1.23") "1.23" = true) ∧
      (¬(true = true ∧ s.answer = "") →
        ∃ r, difyInvokeStreaming false
          [((.dict [("event", Value.str "message"),
            ("answer", Value.str "Hi")] : Value), (0 : Rat))]
          true "1.23" = .ok r ∧
          r.answer = s.answer ∧ r.contexts = s.contexts) :=
  ⟨by decide, C3_deadline_policy false
    [((.dict [("event", Value.str "message"),
      ("answer", Value.str "Hi")] : Value), (0 : Rat))]
    true "1.23" (by decide)⟩
